import Mathlib

/-!
Verification of the dart-tournament bracket engine.

This development shallowly embeds the core of the tournament backend
(`backend/api/matches.py`, `backend/api/tournaments.py`,
`backend/api/dartboards.py`, `backend/services/bracket.py`) in Lean:
match records, the single- and double-elimination advancement engine with
its recursive bye cascade, the dual self-report result protocol, and
dartboard assignment/release.  Database rows become records in a state
value, queries become list lookups, and the recursive advancement routines
become fuel-indexed recursive functions (the recursion depth is bounded by
the number of rounds, so any fuel at least the match count is sufficient).
-/

namespace Dart

/-- Status of a match, from `MatchStatus` in `backend/models/match.py`. -/
inductive MatchStatus where
  | pending
  | waitingForPlayers
  | inProgress
  | completed
  | disputed
  | cancelled
deriving DecidableEq, Repr

/-- Status of a tournament, from `TournamentStatus` in `backend/models/tournament.py`. -/
inductive TournamentStatus where
  | draft
  | registration
  | inProgress
  | completed
  | cancelled
deriving DecidableEq, Repr

/-- Parsed form of the `bracket_position` string column.  The code stores
strings and parses them with anchored regular expressions
(`R(\d+)M(\d+)`, `WR(\d+)M(\d+)`, `LR(\d+)M(\d+)`, the literals `GF1` and
`GF2`, `RR{n}`, and `W{r}M{m}` from `BracketService`); we embed the
parsed variant directly, one constructor per grammar production. -/
inductive BracketPos where
  | R (round idx : Nat)
  | WR (round idx : Nat)
  | LR (round idx : Nat)
  | GF1
  | GF2
  | RR (n : Nat)
  | W (round idx : Nat)
deriving DecidableEq, Repr

/-- A `match_players` row (`backend/models/match_player.py`).  `player_id`
is a non-nullable column, so it is a plain `Nat` here; `team_id`,
`team_position` and `reported_win` are nullable. -/
structure MatchPlayerRec where
  playerId : Nat
  position : Nat
  teamId : Option Nat := none
  teamPosition : Option Nat := none
  reportedWin : Option Bool := none
deriving DecidableEq, Repr

/-- A `matches` row (`backend/models/match.py`), restricted to the fields
the engine reads or writes.  `players` is the `match_players`
relationship, in insertion order.  Timestamps are not modeled; the status
and winner fields carry the information the claims are about. -/
structure MatchRec where
  id : Nat
  roundNumber : Nat
  matchNumber : Nat
  bracketPosition : BracketPos
  status : MatchStatus
  winnerId : Option Nat := none
  winnerTeamId : Option Nat := none
  dartboardId : Option Nat := none
  players : List MatchPlayerRec := []
deriving DecidableEq, Repr

/-- A `dartboards` row (`backend/models/dartboard.py`), restricted to the
fields the scheduler reads or writes. -/
structure Dartboard where
  id : Nat
  number : Nat
  isAvailable : Bool
deriving DecidableEq, Repr

/-- A `teams` row (`backend/models/team.py`): a pair of players. -/
structure TeamRec where
  id : Nat
  player1Id : Nat
  player2Id : Nat
deriving DecidableEq, Repr

/-- The transactional store for one tournament: its matches, the board
pool, the teams, and the tournament's own status row. -/
structure TState where
  matchRows : List MatchRec
  boards : List Dartboard := []
  teams : List TeamRec := []
  tstatus : TournamentStatus
deriving DecidableEq, Repr

/-- Query `select(Match).where(Match.bracket_position == bp)` with
`scalar_one_or_none()`: the match at a bracket position. -/
def findByBP (st : TState) (bp : BracketPos) : Option MatchRec :=
  st.matchRows.find? (fun m => m.bracketPosition == bp)

/-- Query `select(Match).where(Match.id == mid)`: the match with a given id. -/
def findById (st : TState) (mid : Nat) : Option MatchRec :=
  st.matchRows.find? (fun m => m.id == mid)

/-- Mutating the ORM object with primary key `mid` and flushing: rewrite
that row in place, leaving every other row unchanged. -/
def updateById (st : TState) (mid : Nat) (f : MatchRec → MatchRec) : TState :=
  { st with matchRows := st.matchRows.map (fun m => if m.id = mid then f m else m) }

/-- Look up a team row by id (`select(Team).where(Team.id == tid)`). -/
def findTeam (st : TState) (tid : Nat) : Option TeamRec :=
  st.teams.find? (fun t => t.id == tid)

/-- Look up a board row by id. -/
def findBoard (st : TState) (bid : Nat) : Option Dartboard :=
  st.boards.find? (fun b => b.id == bid)

/-- Rewrite one board row in place. -/
def updateBoard (st : TState) (bid : Nat) (f : Dartboard → Dartboard) : TState :=
  { st with boards := st.boards.map (fun b => if b.id = bid then f b else b) }

/-- Translation of `_auto_complete_tournament` (`backend/api/matches.py`):
flip an in-progress tournament to completed; any other status is left
unchanged. -/
def autoCompleteTournament (st : TState) : TState :=
  if st.tstatus = TournamentStatus.inProgress then
    { st with tstatus := TournamentStatus.completed }
  else st

mutual

/-- Translation of `_advance_winner_in_bracket` (`backend/api/matches.py`).
Parses the within-round index from `bracket_position`, computes the next
round's position `R{round+1}M{(idx+1)//2}`, and either auto-completes the
tournament (no next match: this was the final), exits if the winner is
already placed, or inserts the winner at slot 1 (odd feeder index) or
slot 2 (even) and re-checks the destination for a bye.  The unparseable
and missing-winner cases return the state unchanged (in the source the
former returns early; the latter cannot be reached because every caller
sets `winner_id` first, `player_id` being non-nullable). -/
def advanceWinnerInBracket (fuel : Nat) (st : TState) (m : MatchRec) : TState :=
  match fuel with
  | 0 => st
  | fuel' + 1 =>
    let nextRound := m.roundNumber + 1
    match m.bracketPosition with
    | BracketPos.R _ currentMatchInRound =>
      let nextMatchInRound := (currentMatchInRound + 1) / 2
      let nextBp := BracketPos.R nextRound nextMatchInRound
      match findByBP st nextBp with
      | none => autoCompleteTournament st
      | some nextMatch =>
        if m.winnerId ∈ nextMatch.players.map (fun p => some p.playerId) then st
        else
          let pos := if currentMatchInRound % 2 = 1 then 1 else 2
          match m.winnerId with
          | none => st
          | some w =>
            let st1 := updateById st nextMatch.id (fun n =>
              { n with players := n.players ++ [{ playerId := w, position := pos }] })
            checkByeCascade fuel' st1 nextBp
    | _ => st

/-- Translation of `_check_bye_cascade` (`backend/api/matches.py`).  Skips
round 1 (those byes are resolved during generation); collects the existing
feeder matches at `R{r-1}M{2m-1}` and `R{r-1}M{2m}`; requires at least one
feeder and all existing feeders completed; then, on a pending destination,
completes a 1-occupant match with its sole occupant as winner and recurses
into the advancement routine, or completes a 0-occupant match with no
winner and cascades emptiness to the next round.  Every other status or
occupancy leaves the state unchanged. -/
def checkByeCascade (fuel : Nat) (st : TState) (bp : BracketPos) : TState :=
  match fuel with
  | 0 => st
  | fuel' + 1 =>
    match bp with
    | BracketPos.R roundNum matchInRound =>
      if roundNum ≤ 1 then st
      else
        let feeder1 := BracketPos.R (roundNum - 1) (2 * matchInRound - 1)
        let feeder2 := BracketPos.R (roundNum - 1) (2 * matchInRound)
        let feeders := st.matchRows.filter (fun f =>
          f.bracketPosition == feeder1 || f.bracketPosition == feeder2)
        if feeders.length = 0 ∨ ¬ (∀ f ∈ feeders, f.status = MatchStatus.completed) then st
        else
          match findByBP st bp with
          | none => st
          | some mtch =>
            match mtch.players, mtch.status with
            | [p], MatchStatus.pending =>
              let st1 := updateById st mtch.id (fun n =>
                { n with status := MatchStatus.completed, winnerId := some p.playerId })
              match findById st1 mtch.id with
              | some refreshed => advanceWinnerInBracket fuel' st1 refreshed
              | none => st1
            | [], MatchStatus.pending =>
              let st1 := updateById st mtch.id (fun n =>
                { n with status := MatchStatus.completed })
              match findById st1 mtch.id with
              | some refreshed => checkNextMatchCascade fuel' st1 refreshed
              | none => st1
            | _, _ => st
    | _ => st

/-- Translation of `_check_next_match_cascade` (`backend/api/matches.py`):
after an empty match completes, re-check the next round's destination for
a bye. -/
def checkNextMatchCascade (fuel : Nat) (st : TState) (m : MatchRec) : TState :=
  match fuel with
  | 0 => st
  | fuel' + 1 =>
    match m.bracketPosition with
    | BracketPos.R _ currentInRound =>
      let nextBp := BracketPos.R (m.roundNumber + 1) ((currentInRound + 1) / 2)
      match findByBP st nextBp with
      | some nextMatch => checkByeCascade fuel' st nextMatch.bracketPosition
      | none => st
    | _ => st

end

/-- Fuel-indexed body of the `while remaining > 1` loop of
`_generate_single_elimination_bracket`; the halving sequence strictly
decreases, so `remaining` itself is always enough fuel. -/
def roundSizesGo (fuel remaining : Nat) : List Nat :=
  match fuel with
  | 0 => []
  | fuel' + 1 =>
    if remaining > 1 then
      let matchSlots := (remaining + 1) / 2
      matchSlots :: roundSizesGo fuel' matchSlots
    else []

/-- The `while remaining > 1` loop of `_generate_single_elimination_bracket`
(`backend/api/tournaments.py`): the list of per-round match-slot counts,
each round holding `ceil(remaining / 2)` slots. -/
def roundSizes (remaining : Nat) : List Nat :=
  roundSizesGo remaining remaining

/-- One round's worth of `Match` rows, numbered `startNum`, `startNum+1`, …
with bracket positions `R{round}M{1..slots}` (the inner creation loop of
`_generate_single_elimination_bracket`).  Row ids reuse the globally
sequential `match_number`. -/
def mkRoundMatches (roundNum slotsCount startNum : Nat) : List MatchRec :=
  (List.range slotsCount).map (fun matchIdx =>
    { id := startNum + matchIdx
      roundNumber := roundNum
      matchNumber := startNum + matchIdx
      bracketPosition := BracketPos.R roundNum (matchIdx + 1)
      status := MatchStatus.pending })

/-- All rounds' `Match` rows, in creation order (round-major, then index),
with the global match-number counter threaded through. -/
def mkAllMatches : List Nat → Nat → Nat → List MatchRec
  | [], _, _ => []
  | s :: rest, roundNum, startNum =>
    mkRoundMatches roundNum s startNum ++ mkAllMatches rest (roundNum + 1) (startNum + s)

/-- The round-1 seeding loop of `_generate_single_elimination_bracket`:
walk the first-round matches in order, giving each the next entrant at
slot 1 and, when one remains, the one after at slot 2; a trailing odd
entrant leaves the last seeded match with a single occupant. -/
def seedPlayers : List MatchRec → List Nat → List MatchRec
  | [], _ => []
  | m :: rest, [] => m :: seedPlayers rest []
  | m :: rest, [e1] =>
    { m with players := m.players ++ [{ playerId := e1, position := 1 }] } :: seedPlayers rest []
  | m :: rest, e1 :: e2 :: es =>
    { m with players := m.players ++
        [{ playerId := e1, position := 1 }, { playerId := e2, position := 2 }] } :: seedPlayers rest es

/-- The bye pass at the end of `_generate_single_elimination_bracket`:
for each first-round match in order, a single-occupant match is completed
with that occupant as winner and advanced (cascading), and an empty match
is completed with no winner. -/
def completeR1Byes (fuel : Nat) (st : TState) : List Nat → TState
  | [] => st
  | mid :: rest =>
    match findById st mid with
    | none => completeR1Byes fuel st rest
    | some m =>
      match m.players with
      | [p] =>
        let st1 := updateById st mid (fun n =>
          { n with status := MatchStatus.completed, winnerId := some p.playerId })
        let st2 :=
          match findById st1 mid with
          | some refreshed => advanceWinnerInBracket fuel st1 refreshed
          | none => st1
        completeR1Byes fuel st2 rest
      | [] =>
        completeR1Byes fuel
          (updateById st mid (fun n => { n with status := MatchStatus.completed })) rest
      | _ => completeR1Byes fuel st rest

/-- Translation of `_generate_single_elimination_bracket`
(`backend/api/tournaments.py`): create all rounds' matches, seed round 1
sequentially from the sorted entrant list, then run the round-1 bye pass. -/
def generateSingleEliminationBracket (fuel : Nat) (entries : List Nat) (st : TState) : TState :=
  let sizes := roundSizes entries.length
  let allMatches := mkAllMatches sizes 1 1
  let firstRoundCount := sizes.headD 0
  let seeded := seedPlayers (allMatches.take firstRoundCount) entries ++ allMatches.drop firstRoundCount
  let st1 := { st with matchRows := st.matchRows ++ seeded }
  completeR1Byes fuel st1 ((seeded.take firstRoundCount).map (fun m => m.id))

/-- The `generate_bracket` route (`backend/api/tournaments.py`) for a
single-elimination tournament in registration status: generate the
bracket (byes cascading first), then flip the tournament to in-progress. -/
def startTournament (fuel : Nat) (entries : List Nat) : TState :=
  let st := generateSingleEliminationBracket fuel entries
    { matchRows := [], tstatus := TournamentStatus.registration }
  { st with tstatus := TournamentStatus.inProgress }

/-- The distinct team ids present in a match
(`set(mp.team_id for mp in match.match_players if mp.team_id)`). -/
def teamIdsOf (m : MatchRec) : List Nat :=
  (m.players.filterMap (fun p => p.teamId)).dedup

mutual

/-- Translation of `_advance_team_in_bracket` (`backend/api/matches.py`):
advance the winning team of a doubles match to the next round, creating
two occupant rows (both team members) at the destination slot, then
re-check the destination for a team bye. -/
def advanceTeamInBracket (fuel : Nat) (st : TState) (m : MatchRec) : TState :=
  match fuel with
  | 0 => st
  | fuel' + 1 =>
    match m.winnerTeamId with
    | none => st
    | some wt =>
      let nextRound := m.roundNumber + 1
      match m.bracketPosition with
      | BracketPos.R _ currentMatchInRound =>
        let nextBp := BracketPos.R nextRound ((currentMatchInRound + 1) / 2)
        match findByBP st nextBp with
        | none => autoCompleteTournament st
        | some nextMatch =>
          if some wt ∈ nextMatch.players.filterMap (fun p => p.teamId.map some) then st
          else
            match findTeam st wt with
            | none => st
            | some winningTeam =>
              let pos := if currentMatchInRound % 2 = 1 then 1 else 2
              let st1 := updateById st nextMatch.id (fun n =>
                { n with players := n.players ++
                    [{ playerId := winningTeam.player1Id, position := pos
                       teamId := some winningTeam.id, teamPosition := some 1 },
                     { playerId := winningTeam.player2Id, position := pos
                       teamId := some winningTeam.id, teamPosition := some 2 }] })
              checkTeamByeCascade fuel' st1 nextBp
      | _ => st

/-- Translation of `_check_team_bye_cascade` (`backend/api/matches.py`):
like the singles bye cascade but counting distinct team ids; a pending
destination with exactly one team auto-completes with that team as winner
(and its first occupant as `winner_id` for backward compatibility), and a
pending destination with no teams completes empty and cascades on. -/
def checkTeamByeCascade (fuel : Nat) (st : TState) (bp : BracketPos) : TState :=
  match fuel with
  | 0 => st
  | fuel' + 1 =>
    match bp with
    | BracketPos.R roundNum matchInRound =>
      if roundNum ≤ 1 then st
      else
        let feeder1 := BracketPos.R (roundNum - 1) (2 * matchInRound - 1)
        let feeder2 := BracketPos.R (roundNum - 1) (2 * matchInRound)
        let feeders := st.matchRows.filter (fun f =>
          f.bracketPosition == feeder1 || f.bracketPosition == feeder2)
        if feeders.length = 0 ∨ ¬ (∀ f ∈ feeders, f.status = MatchStatus.completed) then st
        else
          match findByBP st bp with
          | none => st
          | some mtch =>
            match teamIdsOf mtch, mtch.status with
            | [winningTeamId], MatchStatus.pending =>
              let st1 := updateById st mtch.id (fun n =>
                { n with status := MatchStatus.completed
                         winnerTeamId := some winningTeamId
                         winnerId := (mtch.players.head?).map (fun p => p.playerId) })
              match findById st1 mtch.id with
              | some refreshed => advanceTeamInBracket fuel' st1 refreshed
              | none => st1
            | [], MatchStatus.pending =>
              let st1 := updateById st mtch.id (fun n =>
                { n with status := MatchStatus.completed })
              match findById st1 mtch.id with
              | some refreshed => checkTeamNextMatchCascade fuel' st1 refreshed
              | none => st1
            | _, _ => st
    | _ => st

/-- Translation of `_check_team_next_match_cascade` (`backend/api/matches.py`). -/
def checkTeamNextMatchCascade (fuel : Nat) (st : TState) (m : MatchRec) : TState :=
  match fuel with
  | 0 => st
  | fuel' + 1 =>
    match m.bracketPosition with
    | BracketPos.R _ currentInRound =>
      let nextBp := BracketPos.R (m.roundNumber + 1) ((currentInRound + 1) / 2)
      match findByBP st nextBp with
      | some nextMatch => checkTeamByeCascade fuel' st nextMatch.bracketPosition
      | none => st
    | _ => st

end

/-- Translation of `_get_loser_id` (`backend/api/matches.py`): the first
occupant whose id differs from the winner, when a winner is recorded. -/
def getLoserId (m : MatchRec) : Option Nat :=
  match m.winnerId with
  | none => none
  | some w => (m.players.find? (fun p => p.playerId != w)).map (fun p => p.playerId)

/-- Whether a bracket position lies in the winners bracket
(`bracket_position.like("WR%")`). -/
def isWB (m : MatchRec) : Bool :=
  match m.bracketPosition with
  | BracketPos.WR _ _ => true
  | _ => false

/-- Whether a bracket position lies in the losers bracket
(`bracket_position.like("LR%")`). -/
def isLB (m : MatchRec) : Bool :=
  match m.bracketPosition with
  | BracketPos.LR _ _ => true
  | _ => false

/-- Query `.order_by(Match.round_number.desc())` followed by `.first()`:
the first row carrying the maximal round number (the database leaves ties
unordered; we take the earliest row, and the bracket shapes at issue have
a unique maximum). -/
def firstByRoundDesc (l : List MatchRec) : Option MatchRec :=
  l.foldl (fun acc x =>
    match acc with
    | none => some x
    | some y => if x.roundNumber > y.roundNumber then some x else acc) none

/-- Translation of `_all_feeders_done` (`backend/api/matches.py`): compute
the feeder positions of a double-elimination match from its grammar
(reversed routing), then require all existing feeders completed; with no
feeder positions (e.g. `WR1`) or no existing feeder rows, the match counts
as ready. -/
def allFeedersDone (st : TState) (bp : BracketPos) : Bool :=
  let feederPositions : List BracketPos :=
    match bp with
    | BracketPos.WR wr mi =>
      if wr ≥ 2 then [BracketPos.WR (wr - 1) (2 * mi - 1), BracketPos.WR (wr - 1) (2 * mi)]
      else []
    | BracketPos.LR lr mi =>
      if lr = 1 then [BracketPos.WR 1 (2 * mi - 1), BracketPos.WR 1 (2 * mi)]
      else if lr % 2 = 0 then [BracketPos.LR (lr - 1) mi, BracketPos.WR (lr / 2 + 1) mi]
      else [BracketPos.LR (lr - 1) (2 * mi - 1), BracketPos.LR (lr - 1) (2 * mi)]
    | BracketPos.GF1 =>
      (match firstByRoundDesc (st.matchRows.filter isWB) with
       | some wbFinal => [wbFinal.bracketPosition]
       | none => []) ++
      (match firstByRoundDesc (st.matchRows.filter isLB) with
       | some lbFinal => [lbFinal.bracketPosition]
       | none => [])
    | BracketPos.GF2 => [BracketPos.GF1]
    | _ => []
  if feederPositions.isEmpty then true
  else
    let feeders := st.matchRows.filter (fun f => feederPositions.contains f.bracketPosition)
    if feeders.length = 0 then true
    else feeders.all (fun f => f.status == MatchStatus.completed)

/-- Translation of `_advance_gf2` (`backend/api/matches.py`): the reset
match's winner is champion; completing it completes the tournament. -/
def advanceGf2 (st : TState) : TState :=
  autoCompleteTournament st

mutual

/-- Translation of `_place_player_in_match` (`backend/api/matches.py`):
add a player to the match at a bracket position at the given slot unless
already present, then re-check that match for a double-elimination bye. -/
def placePlayerInMatch (fuel : Nat) (st : TState) (playerId : Nat)
    (bp : BracketPos) (pos : Nat) : TState :=
  match fuel with
  | 0 => st
  | fuel' + 1 =>
    match findByBP st bp with
    | none => st
    | some targetMatch =>
      if playerId ∈ targetMatch.players.map (fun p => p.playerId) then st
      else
        let st1 := updateById st targetMatch.id (fun n =>
          { n with players := n.players ++ [{ playerId := playerId, position := pos }] })
        checkDoubleElimByeCascade fuel' st1 bp

/-- Translation of `_check_double_elim_bye_cascade`
(`backend/api/matches.py`): grand finals are never bye targets, nor is
winners round 1; otherwise, once all feeders are done, a pending match
with one occupant completes with that occupant as winner and advances,
and a pending empty match completes and cascades emptiness downstream. -/
def checkDoubleElimByeCascade (fuel : Nat) (st : TState) (bp : BracketPos) : TState :=
  match fuel with
  | 0 => st
  | fuel' + 1 =>
    match bp with
    | BracketPos.GF1 => st
    | BracketPos.GF2 => st
    | BracketPos.WR 1 _ => st
    | _ =>
      if ¬ allFeedersDone st bp then st
      else
        match findByBP st bp with
        | none => st
        | some mtch =>
          match mtch.players, mtch.status with
          | [p], MatchStatus.pending =>
            let st1 := updateById st mtch.id (fun n =>
              { n with status := MatchStatus.completed, winnerId := some p.playerId })
            match findById st1 mtch.id with
            | some refreshed => advanceDoubleElimWinner fuel' st1 refreshed
            | none => st1
          | [], MatchStatus.pending =>
            let st1 := updateById st mtch.id (fun n =>
              { n with status := MatchStatus.completed })
            match findById st1 mtch.id with
            | some refreshed => cascadeDoubleElimEmpty fuel' st1 refreshed
            | none => st1
          | _, _ => st

/-- Translation of `_cascade_double_elim_empty` (`backend/api/matches.py`):
after an empty double-elimination match completes, re-check each existing
downstream match (next winners-bracket slot and the loser drop-down for a
winners match; the next losers-bracket slot for a losers match). -/
def cascadeDoubleElimEmpty (fuel : Nat) (st : TState) (m : MatchRec) : TState :=
  match fuel with
  | 0 => st
  | fuel' + 1 =>
    match m.bracketPosition with
    | BracketPos.WR wr mi =>
      let firstPos := BracketPos.WR (wr + 1) ((mi + 1) / 2)
      let secondPos := if wr = 1 then BracketPos.LR 1 ((mi + 1) / 2)
                       else BracketPos.LR (2 * (wr - 1)) mi
      let st1 :=
        match findByBP st firstPos with
        | some _ => checkDoubleElimByeCascade fuel' st firstPos
        | none => st
      match findByBP st1 secondPos with
      | some _ => checkDoubleElimByeCascade fuel' st1 secondPos
      | none => st1
    | BracketPos.LR lr mi =>
      let nextPos := if lr % 2 = 1 then BracketPos.LR (lr + 1) mi
                     else BracketPos.LR (lr + 1) ((mi + 1) / 2)
      match findByBP st nextPos with
      | some _ => checkDoubleElimByeCascade fuel' st nextPos
      | none => st
    | _ => st

/-- Translation of `_advance_double_elim_winner` (`backend/api/matches.py`):
refresh the match and dispatch on the bracket-position grammar. -/
def advanceDoubleElimWinner (fuel : Nat) (st : TState) (m : MatchRec) : TState :=
  match fuel with
  | 0 => st
  | fuel' + 1 =>
    let refreshed := (findById st m.id).getD m
    match refreshed.bracketPosition with
    | BracketPos.WR _ _ => advanceWbMatch fuel' st refreshed
    | BracketPos.LR _ _ => advanceLbMatch fuel' st refreshed
    | BracketPos.GF1 => advanceGf1 fuel' st refreshed
    | BracketPos.GF2 => advanceGf2 st
    | _ => st

/-- Translation of `_advance_wb_match` (`backend/api/matches.py`): the
winner goes to the next winners-bracket round (or `GF1` slot 1 from the
winners final); the loser drops to `LR1M{ceil(m/2)}` from round 1, to the
losers-bracket final slot 2 from the winners final, and to
`LR{2(r-1)}M{m}` slot 2 otherwise. -/
def advanceWbMatch (fuel : Nat) (st : TState) (m : MatchRec) : TState :=
  match fuel with
  | 0 => st
  | fuel' + 1 =>
    match m.bracketPosition with
    | BracketPos.WR wr mi =>
      let winnerId := m.winnerId
      let loserId := getLoserId m
      let nextWbBp := BracketPos.WR (wr + 1) ((mi + 1) / 2)
      let nextWbPos := if mi % 2 = 1 then 1 else 2
      let nextWbExists := (findByBP st nextWbBp).isSome
      let st1 :=
        if nextWbExists then
          match winnerId with
          | some w => placePlayerInMatch fuel' st w nextWbBp nextWbPos
          | none => st
        else
          match winnerId with
          | some w => placePlayerInMatch fuel' st w BracketPos.GF1 1
          | none => st
      match loserId with
      | none => st1
      | some l =>
        if wr = 1 then
          let lr1Pos := if mi % 2 = 1 then 1 else 2
          placePlayerInMatch fuel' st1 l (BracketPos.LR 1 ((mi + 1) / 2)) lr1Pos
        else
          if ¬ nextWbExists then
            match firstByRoundDesc (st1.matchRows.filter isLB) with
            | some lbFinal => placePlayerInMatch fuel' st1 l lbFinal.bracketPosition 2
            | none => st1
          else
            placePlayerInMatch fuel' st1 l (BracketPos.LR (2 * (wr - 1)) mi) 2
    | _ => st

/-- Translation of `_advance_lb_match` (`backend/api/matches.py`): the
winner of an odd losers round goes to the next round's same index, slot 1;
of an even round to `LR{r+1}M{ceil(m/2)}`, slot by parity; from the losers
final (no next match) to `GF1` slot 2. -/
def advanceLbMatch (fuel : Nat) (st : TState) (m : MatchRec) : TState :=
  match fuel with
  | 0 => st
  | fuel' + 1 =>
    match m.bracketPosition with
    | BracketPos.LR lr mi =>
      match m.winnerId with
      | none => st
      | some w =>
        let nextBp := if lr % 2 = 1 then BracketPos.LR (lr + 1) mi
                      else BracketPos.LR (lr + 1) ((mi + 1) / 2)
        let nextPos := if lr % 2 = 1 then 1 else if mi % 2 = 1 then 1 else 2
        match findByBP st nextBp with
        | some _ => placePlayerInMatch fuel' st w nextBp nextPos
        | none => placePlayerInMatch fuel' st w BracketPos.GF1 2
    | _ => st

/-- Translation of `_advance_gf1` (`backend/api/matches.py`): if the slot-1
occupant (winners-bracket champion) won, cancel a still-pending `GF2` and
complete the tournament; otherwise populate the reset match `GF2` with the
grand-final loser at slot 1 and the winner at slot 2. -/
def advanceGf1 (fuel : Nat) (st : TState) (m : MatchRec) : TState :=
  match fuel with
  | 0 => st
  | fuel' + 1 =>
    match m.winnerId with
    | none => st
    | some w =>
      let winnerPosition := (m.players.find? (fun p => p.playerId == w)).map (fun p => p.position)
      if winnerPosition = some 1 then
        let st1 :=
          match findByBP st BracketPos.GF2 with
          | some gf2 =>
            if gf2.status = MatchStatus.pending then
              updateById st gf2.id (fun n => { n with status := MatchStatus.cancelled })
            else st
          | none => st
        autoCompleteTournament st1
      else
        let st1 :=
          match getLoserId m with
          | some l => placePlayerInMatch fuel' st l BracketPos.GF2 1
          | none => st
        placePlayerInMatch fuel' st1 w BracketPos.GF2 2

end

/-- Error taxonomy of the HTTP layer: 404, 400 and 403 responses.  The
board-unavailable and duplicate-report rejections are 400s in the code. -/
inductive ApiError where
  | notFound
  | badRequest
  | forbidden
deriving DecidableEq, Repr

/-- Ordering used by `_auto_assign_boards`:
`.order_by(Match.round_number, Match.match_number)`. -/
def matchOrder (a b : MatchRec) : Prop :=
  a.roundNumber < b.roundNumber ∨
    (a.roundNumber = b.roundNumber ∧ a.matchNumber ≤ b.matchNumber)

instance : DecidableRel matchOrder := fun a b => by
  unfold matchOrder; infer_instance

/-- Ordering used by the board queries: `.order_by(Dartboard.number)`. -/
def boardOrder (a b : Dartboard) : Prop :=
  a.number ≤ b.number

instance : DecidableRel boardOrder := fun a b => by
  unfold boardOrder; infer_instance

/-- Translation of `_auto_assign_boards` (`backend/api/matches.py`): the
pending, boardless matches with full occupancy (2 players, or 4 when any
occupant has a team — `player_id` is non-nullable, so the
`players_with_ids` filter keeps every row), in round/match-number order,
are zipped against the available boards in ascending number order and
each pair is assigned (board becomes unavailable).  Notifications are
external and not modeled. -/
def autoAssignBoards (st : TState) : TState :=
  let pendingMatches := List.insertionSort matchOrder (st.matchRows.filter (fun m =>
      m.status == MatchStatus.pending && m.dartboardId.isNone))
  let readyMatches := pendingMatches.filter (fun m =>
      let isDoubles := m.players.any (fun p => p.teamId.isSome)
      let required := if isDoubles then 4 else 2
      required ≤ m.players.length)
  if readyMatches.isEmpty then st
  else
    let availableBoards := List.insertionSort boardOrder
        (st.boards.filter (fun b => b.isAvailable))
    if availableBoards.isEmpty then st
    else
      (readyMatches.zip availableBoards).foldl (fun acc pair =>
        updateBoard
          (updateById acc pair.1.id (fun n => { n with dartboardId := some pair.2.id }))
          pair.2.id (fun b => { b with isAvailable := false })) st

/-- Translation of `assign_board_to_match` (`backend/api/dartboards.py`):
reject a missing match or board, a completed match, or an unavailable
board (checked again under the board's row lock — concurrent attempts on
one board serialize there, so the embedded sequential execution is the
serialized order); then release any previously held board, point the
match at the new board, and flip it unavailable. -/
def assignBoardToMatch (st : TState) (matchId dartboardId : Nat) : Except ApiError TState :=
  match findById st matchId with
  | none => Except.error ApiError.notFound
  | some mtch =>
    if mtch.status = MatchStatus.completed then Except.error ApiError.badRequest
    else
      match findBoard st dartboardId with
      | none => Except.error ApiError.notFound
      | some dartboard =>
        if ¬ dartboard.isAvailable then Except.error ApiError.badRequest
        else
          let st1 :=
            match mtch.dartboardId with
            | some oldId => updateBoard st oldId (fun b => { b with isAvailable := true })
            | none => st
          let st2 := updateById st1 matchId (fun n => { n with dartboardId := some dartboardId })
          Except.ok (updateBoard st2 dartboardId (fun b => { b with isAvailable := false }))

/-- Translation of `release_board_from_match` (`backend/api/dartboards.py`):
reject a missing match; reject (400) a match with no board assigned; else
set the board available and clear the match's `dartboard_id`. -/
def releaseBoardFromMatch (st : TState) (matchId : Nat) : Except ApiError TState :=
  match findById st matchId with
  | none => Except.error ApiError.notFound
  | some mtch =>
    match mtch.dartboardId with
    | none => Except.error ApiError.badRequest
    | some bid =>
      let st1 := updateBoard st bid (fun b => { b with isAvailable := true })
      Except.ok (updateById st1 matchId (fun n => { n with dartboardId := none }))

/-- The in-transaction board release performed when a match completes
(`if match.dartboard_id: … board.is_available = True` in
`report_match_result` and `update_match`); the match keeps its
`dartboard_id` there. -/
def releaseBoardIfAny (st : TState) (dartboardId : Option Nat) : TState :=
  match dartboardId with
  | some bid => updateBoard st bid (fun b => { b with isAvailable := true })
  | none => st

/-- Set one occupant's `reported_win` field. -/
def setReportedWin (st : TState) (matchId playerId : Nat) (v : Option Bool) : TState :=
  updateById st matchId (fun n =>
    { n with players := n.players.map (fun p =>
        if p.playerId = playerId then { p with reportedWin := v } else p) })

/-- The dispatch on `bracket_position` shared by `update_match` and
`report_match_result`: `WR`/`LR`/`GF` positions go to the
double-elimination engine, everything else to the single-elimination
advancement. -/
def advanceDispatch (fuel : Nat) (st : TState) (matchId : Nat) : TState :=
  match findById st matchId with
  | none => st
  | some m =>
    match m.bracketPosition with
    | BracketPos.WR _ _ => advanceDoubleElimWinner fuel st m
    | BracketPos.LR _ _ => advanceDoubleElimWinner fuel st m
    | BracketPos.GF1 => advanceDoubleElimWinner fuel st m
    | BracketPos.GF2 => advanceDoubleElimWinner fuel st m
    | _ => advanceWinnerInBracket fuel st m

/-- The tail of `report_match_result` after the flush: when the match is
now completed, run the board auto-assignment for the tournament. -/
def finishReport (st : TState) (matchId : Nat) : TState :=
  match findById st matchId with
  | some m => if m.status = MatchStatus.completed then autoAssignBoards st else st
  | none => st

/-- Translation of `report_match_result` (`backend/api/matches.py`), both
the doubles and the singles branch.  A report against a missing match is
404, against a completed match 400, by a non-occupant 403; a duplicate
report by the same side 400.  When the other side has not reported, the
claim is recorded and nothing else changes.  When it has: consistent
claims complete the match with the winning side recorded, release the
held board, and run the advancement engine; inconsistent claims mark the
match disputed and reset both reporters' claims.  Finally, a
now-completed match triggers board auto-assignment. -/
def reportMatchResult (fuel : Nat) (st : TState) (currentPlayerId : Nat) (iWon : Bool)
    (matchId : Nat) : Except ApiError TState :=
  match findById st matchId with
  | none => Except.error ApiError.notFound
  | some mtch =>
    if mtch.status = MatchStatus.completed then Except.error ApiError.badRequest
    else
      match mtch.players.find? (fun p => p.playerId == currentPlayerId) with
      | none => Except.error ApiError.forbidden
      | some reportingPlayer =>
        match reportingPlayer.teamId with
        | some myTeamId =>
          let teammates := mtch.players.filter (fun p => p.teamId == some myTeamId)
          if teammates.any (fun p => p.reportedWin.isSome) then Except.error ApiError.badRequest
          else
            let st1 := setReportedWin st matchId currentPlayerId (some iWon)
            let otherTeamPlayers := mtch.players.filter (fun p =>
                p.teamId.isSome && p.teamId != some myTeamId)
            match otherTeamPlayers.find? (fun p => p.reportedWin.isSome) with
            | none => Except.ok (finishReport st1 matchId)
            | some otherTeamReporter =>
              match otherTeamReporter.teamId, otherTeamReporter.reportedWin with
              | some otherTeamId, some otherWin =>
                if iWon && !otherWin then
                  let st2 := updateById st1 matchId (fun n =>
                    { n with status := MatchStatus.completed, winnerTeamId := some myTeamId })
                  let st3 :=
                    match findTeam st2 myTeamId with
                    | some winningTeam =>
                      updateById st2 matchId (fun n => { n with winnerId := some winningTeam.player1Id })
                    | none => st2
                  let st4 := releaseBoardIfAny st3 mtch.dartboardId
                  let st5 :=
                    match findById st4 matchId with
                    | some m2 => advanceTeamInBracket fuel st4 m2
                    | none => st4
                  Except.ok (finishReport st5 matchId)
                else if !iWon && otherWin then
                  let st2 := updateById st1 matchId (fun n =>
                    { n with status := MatchStatus.completed, winnerTeamId := some otherTeamId })
                  let st3 :=
                    match findTeam st2 otherTeamId with
                    | some winningTeam =>
                      updateById st2 matchId (fun n => { n with winnerId := some winningTeam.player1Id })
                    | none => st2
                  let st4 := releaseBoardIfAny st3 mtch.dartboardId
                  let st5 :=
                    match findById st4 matchId with
                    | some m2 => advanceTeamInBracket fuel st4 m2
                    | none => st4
                  Except.ok (finishReport st5 matchId)
                else
                  let st2 := updateById st1 matchId (fun n => { n with status := MatchStatus.disputed })
                  let st3 := setReportedWin st2 matchId currentPlayerId none
                  Except.ok (finishReport (setReportedWin st3 matchId otherTeamReporter.playerId none) matchId)
              | _, _ => Except.ok (finishReport st1 matchId)
        | none =>
          if reportingPlayer.reportedWin.isSome then Except.error ApiError.badRequest
          else
            let st1 := setReportedWin st matchId currentPlayerId (some iWon)
            match mtch.players.find? (fun p => p.playerId != currentPlayerId) with
            | none => Except.ok (finishReport st1 matchId)
            | some otherPlayer =>
              match otherPlayer.reportedWin with
              | none => Except.ok (finishReport st1 matchId)
              | some otherWin =>
                if iWon && !otherWin then
                  let st2 := updateById st1 matchId (fun n =>
                    { n with status := MatchStatus.completed, winnerId := some currentPlayerId })
                  let st3 := releaseBoardIfAny st2 mtch.dartboardId
                  Except.ok (finishReport (advanceDispatch fuel st3 matchId) matchId)
                else if !iWon && otherWin then
                  let st2 := updateById st1 matchId (fun n =>
                    { n with status := MatchStatus.completed, winnerId := some otherPlayer.playerId })
                  let st3 := releaseBoardIfAny st2 mtch.dartboardId
                  Except.ok (finishReport (advanceDispatch fuel st3 matchId) matchId)
                else
                  let st2 := updateById st1 matchId (fun n => { n with status := MatchStatus.disputed })
                  let st3 := setReportedWin st2 matchId currentPlayerId none
                  Except.ok (finishReport (setReportedWin st3 matchId otherPlayer.playerId none) matchId)

/-- The administrative completion path of `update_match`
(`backend/api/matches.py`) for a PATCH that sets `winner_id := w` and
`status := completed`: validate the winner is an occupant, write the
fields, release a held board, advance the winner (team branch first, then
the bracket-grammar dispatch), and auto-assign freed boards. -/
def playMatch (fuel : Nat) (st : TState) (mid w : Nat) : TState :=
  match findById st mid with
  | none => st
  | some m =>
    if w ∈ m.players.map (fun p => p.playerId) then
      let st1 := updateById st mid (fun n =>
        { n with winnerId := some w, status := MatchStatus.completed })
      let st2 := releaseBoardIfAny st1 m.dartboardId
      let st3 :=
        match findById st2 mid with
        | none => st2
        | some refreshed =>
          if refreshed.winnerTeamId.isSome then advanceTeamInBracket fuel st2 refreshed
          else
            match refreshed.winnerId with
            | some _ => advanceDispatch fuel st2 mid
            | none => st2
      autoAssignBoards st3
    else st

/-- The first pending match with both occupants present: the next match an
official would resolve.  Used by `playOut` to drive a tournament to
completion. -/
def firstPlayable (st : TState) : Option MatchRec :=
  st.matchRows.find? (fun m => m.status == MatchStatus.pending && m.players.length == 2)

/-- Drive the tournament: repeatedly resolve the first playable match,
choosing its winner by `choose`, until nothing is playable (or the step
budget runs out).  Each step is one `update_match` completion, so the
engine's cascades run inside each step exactly as in the source. -/
def playOut (fuel : Nat) (choose : MatchRec → Nat) : Nat → TState → TState
  | 0, st => st
  | steps + 1, st =>
    match firstPlayable st with
    | none => st
    | some m => playOut fuel choose steps (playMatch fuel st m.id (choose m))

/-- Translation of `_generate_double_elimination_bracket`
(`backend/api/tournaments.py`): the double-elimination branch of the
`generate_bracket` route generates the bracket as single elimination
("For now, generate as single elimination" in the source); no
winners/losers/grand-final structure is produced on this path. -/
def generateDoubleEliminationBracket (fuel : Nat) (entries : List Nat) (st : TState) : TState :=
  generateSingleEliminationBracket fuel entries st

/-- A match configuration dictionary as returned by
`BracketService.generate_double_elimination` (`backend/services/bracket.py`). -/
structure DEMatchConfig where
  round : Nat
  matchNumber : Nat
  player1Id : Nat
  player2Id : Nat
  bracketPosition : BracketPos
deriving DecidableEq, Repr

/-- The winners-bracket round-1 loop of
`BracketService.generate_double_elimination`: walk the padded slot list
two at a time; when either slot of a pair is a bye (`None`), skip the
pair; otherwise emit a match with `bracket_position = "W{1}M{i//2+1}"`.
`i` is the running slot index and `acc` the number of matches emitted so
far (used for `match_number = len(matches) + 1`). -/
def wbRound1Loop : List (Option Nat) → Nat → Nat → List DEMatchConfig
  | p1 :: p2 :: rest, i, acc =>
    match p1, p2 with
    | some a, some b =>
      { round := 1, matchNumber := acc + 1, player1Id := a, player2Id := b,
        bracketPosition := BracketPos.W 1 (i / 2 + 1) } :: wbRound1Loop rest (i + 2) (acc + 1)
    | _, _ => wbRound1Loop rest (i + 2) acc
  | _, _, _ => []

/-- Translation of `BracketService.generate_double_elimination`
(`backend/services/bracket.py`), without seeds (the `seeds=None` branch
keeps the input order): pad the entrant list to the next power of two
with byes, then emit winners-bracket round-1 matches only; the losers
bracket is left for later ("generated dynamically as matches complete")
and no grand-final configuration is emitted. -/
def ceilLog2Go (fuel n : Nat) : Nat :=
  match fuel with
  | 0 => 0
  | fuel' + 1 => if n ≤ 1 then 0 else ceilLog2Go fuel' ((n + 1) / 2) + 1

/-- Structural version of `ceil(log2(n))` (used as `num_rounds` by
`BracketService`), via the recurrence
`ceil(log2 n) = ceil(log2 (ceil(n / 2))) + 1` for `n > 1`. -/
def ceilLog2 (n : Nat) : Nat := ceilLog2Go n n

def generateDoubleEliminationService (playerIds : List Nat) : List DEMatchConfig :=
  let numRounds := ceilLog2 playerIds.length
  let bracketSize := 2 ^ numRounds
  let numByes := bracketSize - playerIds.length
  let playersWithByes := playerIds.map some ++ List.replicate numByes none
  wbRound1Loop playersWithByes 0 0

/-- Sequential execution of a batch of `assign(match, board)` requests for
the same board: the board row lock in `assign_board_to_match` serializes
concurrent requests, so their combined effect is that of running them one
after another in lock-acquisition order.  Returns the final state and the
number of requests that succeeded; a failed request leaves the state
untouched, because every check in `assign_board_to_match` precedes any
mutation. -/
def processAssignRequests (bid : Nat) : TState → List Nat → TState × Nat
  | st, [] => (st, 0)
  | st, mid :: rest =>
    match assignBoardToMatch st mid bid with
    | Except.ok st1 =>
      let r := processAssignRequests bid st1 rest
      (r.1, r.2 + 1)
    | Except.error _ => processAssignRequests bid st rest

/-! ## Store lemmas -/

/-- Whether a bracket position is an R-position of round at most r0
(non-R positions count as low: the singles engine never modifies them). -/
def bpRoundLe (bp : BracketPos) (r0 : Nat) : Prop :=
  match bp with
  | BracketPos.R r _ => r ≤ r0
  | _ => True

def WellKeyed (st : TState) : Prop :=
  (st.matchRows.map (fun m => m.id)).Nodup ∧
  (st.matchRows.map (fun m => m.bracketPosition)).Nodup ∧
  ∀ m ∈ st.matchRows, ∀ r i, m.bracketPosition = BracketPos.R r i → m.roundNumber = r

/-- Relation between a match row before and after a singles-engine step:
keys never change, occupant lists only grow, rows at R-positions of round
at most rfull are fully unchanged, and the occupant lists of rows at
R-positions of round at most rplay are unchanged. -/
def RowStep (rfull rplay : Nat) (a b : MatchRec) : Prop :=
  b.id = a.id ∧ b.bracketPosition = a.bracketPosition ∧ b.roundNumber = a.roundNumber ∧
  b.matchNumber = a.matchNumber ∧ (∃ s, b.players = a.players ++ s) ∧
  (bpRoundLe a.bracketPosition rfull → b = a) ∧
  (bpRoundLe a.bracketPosition rplay → b.players = a.players)

def StateStep (rfull rplay : Nat) (st st' : TState) : Prop :=
  st'.boards = st.boards ∧ st'.teams = st.teams ∧
  List.Forall₂ (RowStep rfull rplay) st.matchRows st'.matchRows

/-- The halving chain: `Chain prev l` says `l` is exactly the sequence of
per-round slot counts the `while remaining > 1` loop emits starting from
`prev` competitors. -/
def Chain : Nat → List Nat → Prop
  | prev, [] => prev ≤ 1
  | prev, s :: rest => 1 < prev ∧ s = (prev + 1) / 2 ∧ Chain s rest

/-- Sum of `⌊s/2⌋` over all but the last element of the chain: the number
of two-occupant matches contributed by rounds 2 and later. -/
def halvesButLast : List Nat → Nat
  | [] => 0
  | [_] => 0
  | s :: rest => s / 2 + halvesButLast rest

/-- Number of rounds of the generated single-elimination bracket. -/
def bracketT (N : Nat) : Nat := (roundSizes N).length

/-- Slot count of round `r` (1-indexed). -/
def sAt (N r : Nat) : Nat := (roundSizes N).getD (r - 1) 0

/-- A bracket coordinate `R{r}M{i}` that the generator creates. -/
def validPos (N r i : Nat) : Prop :=
  1 ≤ r ∧ r ≤ bracketT N ∧ 1 ≤ i ∧ i ≤ sAt N r

/-- The immutable identity of a match row: id, bracket position, round and
match number.  The advancement engine mutates statuses, winners, players
and board assignments but never these fields. -/
def skelProj (m : MatchRec) : Nat × BracketPos × Nat × Nat :=
  (m.id, m.bracketPosition, m.roundNumber, m.matchNumber)

/-- The rows `_generate_single_elimination_bracket` creates for `N`
entrants, before seeding. -/
def canonRows (N : Nat) : List MatchRec := mkAllMatches (roundSizes N) 1 1

/-- The state's rows carry exactly the generated bracket's skeleton. -/
def SkelOK (N : Nat) (st : TState) : Prop :=
  st.matchRows.map skelProj = (canonRows N).map skelProj

/-- Row statuses only ever progress towards `completed`; every state
mutation of the engine is an order- and key-preserving row map. -/
def RowsMono (st st' : TState) : Prop :=
  List.Forall₂ (fun a b => a.id = b.id ∧
    (a.status = MatchStatus.completed → b.status = MatchStatus.completed))
    st.matchRows st'.matchRows

/-- The occupants the round-1 seeding loop gives match `R1M{i}`: entrants
`2(i-1)` and `2(i-1)+1` of the sorted entry list (0-based), at positions 1
and 2, or a single entrant when the list runs out. -/
def seededAt (entries : List Nat) (i : Nat) : List MatchPlayerRec :=
  match entries.drop (2 * (i - 1)) with
  | [] => []
  | [a] => [{ playerId := a, position := 1 }]
  | a :: b :: _ => [{ playerId := a, position := 1 }, { playerId := b, position := 2 }]

/-- The occupant record a feeder match at `R{r}M{j}` has pushed into its
destination: one record carrying its winner when it is completed, nothing
otherwise. -/
def contribOf (st : TState) (r j pos : Nat) : List MatchPlayerRec :=
  match findByBP st (BracketPos.R r j) with
  | some f =>
    if f.status = MatchStatus.completed then
      match f.winnerId with
      | some w => [{ playerId := w, position := pos }]
      | none => []
    else []
  | none => []

/-- All occupant records the two feeders of `R{rr}M{j}` have pushed into
it: feeder `R{rr-1}M{2j-1}` fills slot 1 and `R{rr-1}M{2j}` slot 2. -/
def contribPair (st : TState) (rr j : Nat) : List MatchPlayerRec :=
  contribOf st (rr - 1) (2 * j - 1) 1 ++ contribOf st (rr - 1) (2 * j) 2

/-- The terminal match position of the generated bracket. -/
def finalBP (N : Nat) : BracketPos := BracketPos.R (bracketT N) 1

/-- The terminal match exists and is completed. -/
def finalCompleted (N : Nat) (st : TState) : Prop :=
  ∃ mf, findByBP st (finalBP N) = some mf ∧ mf.status = MatchStatus.completed

/-- Boundary invariant of the single-elimination engine over the generated
bracket, with the bye-resolution clause suspended at one position
`R{brr}M{bj}` (instantiating `brr = 0` suspends nothing, since every
quantified round is at least 2). -/
structure SEInvC (entries : List Nat) (st : TState) (brr bj : Nat) : Prop where
  skel : SkelOK entries.length st
  boardsNil : st.boards = []
  noBoard : ∀ m ∈ st.matchRows, m.dartboardId = none
  noTeam : ∀ m ∈ st.matchRows, m.winnerTeamId = none
  statusPC : ∀ m ∈ st.matchRows,
    m.status = MatchStatus.pending ∨ m.status = MatchStatus.completed
  winClosed : ∀ m ∈ st.matchRows, m.status = MatchStatus.completed →
    ∃ w, m.winnerId = some w ∧ w ∈ m.players.map (fun p => p.playerId)
  winOpen : ∀ m ∈ st.matchRows, m.status = MatchStatus.pending → m.winnerId = none
  seeded : ∀ i m, findByBP st (BracketPos.R 1 i) = some m → m.players = seededAt entries i
  destPlayers : ∀ rr j m, 2 ≤ rr → findByBP st (BracketPos.R rr j) = some m →
    m.players.Perm (contribPair st rr j)
  disj : ∀ r i i' m m', findByBP st (BracketPos.R r i) = some m →
    findByBP st (BracketPos.R r i') = some m' → i ≠ i' →
    ∀ p ∈ m.players, ∀ q ∈ m'.players, p.playerId ≠ q.playerId
  byeDone : ∀ rr i m, 2 ≤ rr → ¬(rr = brr ∧ i = bj) →
    findByBP st (BracketPos.R rr i) = some m → m.status = MatchStatus.pending →
    m.players.length = 2 ∨ ∃ j f, (j = 2 * i - 1 ∨ j = 2 * i) ∧
      findByBP st (BracketPos.R (rr - 1) j) = some f ∧ f.status ≠ MatchStatus.completed
  tstat : (st.tstatus = TournamentStatus.completed ↔ finalCompleted entries.length st) ∧
    st.tstatus ≠ TournamentStatus.cancelled

/-- Boundary invariant proper (no suspended position). -/
abbrev SEInv (entries : List Nat) (st : TState) : Prop := SEInvC entries st 0 0

/-- Round-1 byes are resolved: a pending first-round match is a full pair.
Holds from the end of bracket generation onwards. -/
def R1Done (st : TState) : Prop := ∀ i m, findByBP st (BracketPos.R 1 i) = some m →
  m.status = MatchStatus.pending → m.players.length = 2

/-- Mid-advancement invariant: `m` has just completed with winner `w` at
`R{r}M{i}` but `w` has not yet been pushed into the destination
`R{r+1}M{(i+1)/2}`; the destination-occupancy and bye clauses are
suspended there, and everything else holds. -/
structure SEInvA (entries : List Nat) (st : TState) (m : MatchRec) (w r i : Nat) : Prop where
  skel : SkelOK entries.length st
  boardsNil : st.boards = []
  noBoard : ∀ mm ∈ st.matchRows, mm.dartboardId = none
  noTeam : ∀ mm ∈ st.matchRows, mm.winnerTeamId = none
  statusPC : ∀ mm ∈ st.matchRows,
    mm.status = MatchStatus.pending ∨ mm.status = MatchStatus.completed
  winClosed : ∀ mm ∈ st.matchRows, mm.status = MatchStatus.completed →
    ∃ w', mm.winnerId = some w' ∧ w' ∈ mm.players.map (fun p => p.playerId)
  winOpen : ∀ mm ∈ st.matchRows, mm.status = MatchStatus.pending → mm.winnerId = none
  seeded : ∀ i' mm, findByBP st (BracketPos.R 1 i') = some mm → mm.players = seededAt entries i'
  cur : findById st m.id = some m
  mbp : m.bracketPosition = BracketPos.R r i
  mrn : m.roundNumber = r
  mdone : m.status = MatchStatus.completed
  mwin : m.winnerId = some w
  mwmem : w ∈ m.players.map (fun p => p.playerId)
  destAt : ∀ md : MatchRec, findByBP st (BracketPos.R (r + 1) ((i + 1) / 2)) = some md →
    (md.players ++ [({ playerId := w, position := if i % 2 = 1 then 1 else 2 } : MatchPlayerRec)]).Perm
      (contribPair st (r + 1) ((i + 1) / 2))
  destElse : ∀ rr' j' md, 2 ≤ rr' → ¬(rr' = r + 1 ∧ j' = (i + 1) / 2) →
    findByBP st (BracketPos.R rr' j') = some md → md.players.Perm (contribPair st rr' j')
  disj : ∀ r' i' i'' mm mm', findByBP st (BracketPos.R r' i') = some mm →
    findByBP st (BracketPos.R r' i'') = some mm' → i' ≠ i'' →
    ∀ p ∈ mm.players, ∀ q ∈ mm'.players, p.playerId ≠ q.playerId
  byeDoneElse : ∀ rr' i' mm, 2 ≤ rr' → ¬(rr' = r + 1 ∧ i' = (i + 1) / 2) →
    findByBP st (BracketPos.R rr' i') = some mm → mm.status = MatchStatus.pending →
    mm.players.length = 2 ∨ ∃ j f, (j = 2 * i' - 1 ∨ j = 2 * i') ∧
      findByBP st (BracketPos.R (rr' - 1) j) = some f ∧ f.status ≠ MatchStatus.completed
  tstatA : (m.bracketPosition ≠ finalBP entries.length →
      ((st.tstatus = TournamentStatus.completed ↔ finalCompleted entries.length st) ∧
        st.tstatus ≠ TournamentStatus.cancelled)) ∧
    (m.bracketPosition = finalBP entries.length → st.tstatus = TournamentStatus.inProgress)

/-- The bracket rows right after creation and seeding, before the round-1
bye pass. -/
def seededRows (entries : List Nat) : List MatchRec :=
  seedPlayers ((canonRows entries.length).take ((roundSizes entries.length).headD 0))
    entries ++
    (canonRows entries.length).drop ((roundSizes entries.length).headD 0)

/-- The tournament state right after creation and seeding. -/
def seededState (entries : List Nat) : TState :=
  { matchRows := seededRows entries, tstatus := TournamentStatus.registration }

/-- Pending matches remaining. -/
def pendCount (st : TState) : Nat :=
  st.matchRows.countP (fun mm => mm.status == MatchStatus.pending)

/-- Whether the bracket slot at a position receives two occupants when the
bracket for `N` entrants is played to completion: a round-1 match holds two
seeds iff `2*i ≤ N`, and a later match receives a winner from each existing
feeder, the second feeder existing iff `2*i` is within the previous round. -/
def occTwo (N : Nat) : BracketPos → Bool
  | BracketPos.R r i => decide (2 * i ≤ (if r = 1 then N else sAt N (r - 1)))
  | _ => false

/-- One-step unfolding of `roundSizesGo`. -/
theorem roundSizesGo_succ (fuel remaining : Nat) :
    roundSizesGo (fuel + 1) remaining =
      if remaining > 1 then ((remaining + 1) / 2) :: roundSizesGo fuel ((remaining + 1) / 2)
      else [] := rfl

/-- The fuel in `roundSizesGo` is irrelevant once it reaches `remaining`. -/
theorem roundSizesGo_fuel_irrelevant :
    ∀ fuel fuel2 remaining : Nat, remaining ≤ fuel → remaining ≤ fuel2 →
      roundSizesGo fuel remaining = roundSizesGo fuel2 remaining := by
  intro fuel
  induction fuel using Nat.strong_induction_on with
  | _ fuel ih =>
    intro fuel2 remaining h h2
    match fuel, fuel2, h, h2 with
    | 0, f2, h, h2 =>
      interval_cases remaining
      · match f2 with
        | 0 => rfl
        | g + 1 => rw [roundSizesGo_succ]; simp [roundSizesGo]
    | (f + 1), 0, h, h2 =>
      interval_cases remaining
      · rw [roundSizesGo_succ]; simp [roundSizesGo]
    | (f + 1), (g + 1), h, h2 =>
      rw [roundSizesGo_succ, roundSizesGo_succ]
      by_cases hr : remaining > 1
      · simp only [hr, if_true]
        have := ih f (by omega) g ((remaining + 1) / 2) (by omega) (by omega)
        rw [this]
      · simp [hr]

/-- Unfolding equation for `roundSizes`. -/
theorem roundSizes_eq (remaining : Nat) :
    roundSizes remaining =
      if remaining > 1 then ((remaining + 1) / 2) :: roundSizes ((remaining + 1) / 2)
      else [] := by
  match remaining with
  | 0 => rfl
  | 1 => rfl
  | (r + 2) =>
    show roundSizesGo (r + 2) (r + 2) = _
    rw [roundSizesGo_succ]
    simp only [show r + 2 > 1 by omega, if_true]
    rw [roundSizesGo_fuel_irrelevant (r + 1) ((r + 2 + 1) / 2) ((r + 2 + 1) / 2) (by omega) (by omega)]
    rfl

theorem findById_updateById (st : TState) (mid mid' : Nat) (f : MatchRec → MatchRec)
    (hf : ∀ a, (f a).id = a.id) :
    findById (updateById st mid f) mid' =
      (findById st mid').map (fun a => if a.id = mid then f a else a) := by
  show (st.matchRows.map _).find? _ = _
  rw [List.find?_map]
  have hp : ((fun m : MatchRec => m.id == mid') ∘ (fun m => if m.id = mid then f m else m)) =
      (fun m : MatchRec => m.id == mid') := by
    funext a
    by_cases h : a.id = mid <;> simp [Function.comp, h, hf]
  rw [hp]
  rfl

theorem findBoard_updateBoard (st : TState) (bid bid' : Nat) (f : Dartboard → Dartboard)
    (hf : ∀ b, (f b).id = b.id) :
    findBoard (updateBoard st bid f) bid' =
      (findBoard st bid').map (fun b => if b.id = bid then f b else b) := by
  show (st.boards.map _).find? _ = _
  rw [List.find?_map]
  have hp : ((fun b : Dartboard => b.id == bid') ∘ (fun b => if b.id = bid then f b else b)) =
      (fun b : Dartboard => b.id == bid') := by
    funext a
    by_cases h : a.id = bid <;> simp [Function.comp, h, hf]
  rw [hp]
  rfl

theorem findById_updateBoard (st : TState) (bid mid : Nat) (f : Dartboard → Dartboard) :
    findById (updateBoard st bid f) mid = findById st mid := rfl

theorem findBoard_updateById (st : TState) (mid bid : Nat) (f : MatchRec → MatchRec) :
    findBoard (updateById st mid f) bid = findBoard st bid := rfl

/-- Once every board row with the contested id is unavailable, each further
assign request for it fails the post-lock availability re-check with the
conflict error and changes nothing. -/
theorem assign_conflict_after_taken (bid : Nat) (mids : List Nat) :
    ∀ st : TState,
      (∀ b ∈ st.boards, b.id = bid → b.isAvailable = false) →
      (∃ b ∈ st.boards, b.id = bid) →
      (∀ mid ∈ mids, ∃ m, findById st mid = some m ∧ m.status ≠ MatchStatus.completed) →
      processAssignRequests bid st mids = (st, 0) ∧
        ∀ mid ∈ mids, assignBoardToMatch st mid bid = Except.error ApiError.badRequest := by
  induction mids with
  | nil => intro st _ _ _; exact ⟨rfl, by simp⟩
  | cons mid rest ih =>
    intro st hunavail hex hm
    obtain ⟨m, hfind, hst⟩ := hm mid (by simp)
    have hbex : (st.boards.find? (fun b => b.id == bid)).isSome := by
      rw [List.find?_isSome]
      obtain ⟨b, hb, hbid⟩ := hex
      exact ⟨b, hb, by simp [hbid]⟩
    obtain ⟨b, hb⟩ := Option.isSome_iff_exists.mp hbex
    have hbmem := List.mem_of_find?_eq_some hb
    have hbid : b.id = bid := by simpa using List.find?_some hb
    have hbun : b.isAvailable = false := hunavail b hbmem hbid
    have herr : assignBoardToMatch st mid bid = Except.error ApiError.badRequest := by
      have hfb : findBoard st bid = some b := hb
      simp [assignBoardToMatch, hfind, hst, hfb, hbun]
    have hrest := ih st hunavail hex (fun mid2 h2 => hm mid2 (by simp [h2]))
    refine ⟨?_, ?_⟩
    · show processAssignRequests bid st (mid :: rest) = (st, 0)
      unfold processAssignRequests
      rw [herr]
      exact hrest.1
    · intro mid2 h2
      rcases List.mem_cons.mp h2 with h2 | h2
      · rw [h2]; exact herr
      · exact hrest.2 mid2 h2

/-- Shape of a successful assignment: once `assign_board_to_match` has
committed (for whatever pre-state `stA` the optional old-board release
produced), the target match holds the board, every row of the contested
board id is unavailable, and all later requests for it conflict. -/
theorem assign_success_shape (st stA : TState) (bid mid0 : Nat) (rest : List Nat)
    (b : Dartboard) (m0 : MatchRec)
    (hrows : stA.matchRows = st.matchRows)
    (hbpres : ∀ b0 ∈ st.boards, ∃ bb ∈ stA.boards, bb.id = b0.id)
    (hboard : findBoard st bid = some b)
    (hfind0 : findById st mid0 = some m0)
    (hm : ∀ mid ∈ rest, ∃ m, findById st mid = some m ∧ m.status ≠ MatchStatus.completed)
    (hok : assignBoardToMatch st mid0 bid = Except.ok (updateBoard
      (updateById stA mid0 (fun n => { n with dartboardId := some bid })) bid
      (fun bb => { bb with isAvailable := false }))) :
    ∃ st1, assignBoardToMatch st mid0 bid = Except.ok st1 ∧
      processAssignRequests bid st (mid0 :: rest) = (st1, 1) ∧
      (∃ m1, findById st1 mid0 = some m1 ∧ m1.dartboardId = some bid) ∧
      (∀ bb ∈ st1.boards, bb.id = bid → bb.isAvailable = false) ∧
      (∀ mid ∈ rest, assignBoardToMatch st1 mid bid = Except.error ApiError.badRequest) := by
  have hid0 : m0.id = mid0 := by simpa using List.find?_some hfind0
  set st1 := updateBoard (updateById stA mid0 (fun n => { n with dartboardId := some bid })) bid
      (fun bb => { bb with isAvailable := false }) with hst1def
  have hAfind : ∀ mid', findById stA mid' = findById st mid' := by
    intro mid'
    show stA.matchRows.find? _ = st.matchRows.find? _
    rw [hrows]
  have hfind1 : ∀ mid', findById st1 mid' =
      (findById st mid').map (fun a => if a.id = mid0 then { a with dartboardId := some bid } else a) := by
    intro mid'
    rw [hst1def, findById_updateBoard,
      findById_updateById stA mid0 mid' (fun n => { n with dartboardId := some bid })
        (fun a => rfl),
      hAfind]
  have hb1 : ∀ bb ∈ st1.boards, bb.id = bid → bb.isAvailable = false := by
    intro bb hbb hbbid
    rw [hst1def] at hbb
    simp only [updateBoard, updateById, List.mem_map] at hbb
    obtain ⟨a, _, rfl⟩ := hbb
    by_cases h : a.id = bid <;> simp [h] at hbbid ⊢
  have hb1ex : ∃ bb ∈ st1.boards, bb.id = bid := by
    obtain ⟨bb, hbbmem, hbbid⟩ := hbpres b (List.mem_of_find?_eq_some hboard)
    have hbid : b.id = bid := by simpa using List.find?_some hboard
    have hbbid2 : bb.id = bid := hbbid.trans hbid
    refine ⟨if bb.id = bid then { bb with isAvailable := false } else bb, ?_, ?_⟩
    · rw [hst1def]
      exact List.mem_map_of_mem
        (fun x => if x.id = bid then { x with isAvailable := false } else x) hbbmem
    · simp [hbbid2]
  have hm1 : ∀ mid ∈ rest, ∃ m, findById st1 mid = some m ∧ m.status ≠ MatchStatus.completed := by
    intro mid hmid
    obtain ⟨m, hfm, hsm⟩ := hm mid hmid
    refine ⟨_, by rw [hfind1, hfm]; rfl, ?_⟩
    by_cases h : m.id = mid0 <;> simp [h, hsm]
  obtain ⟨htail, herrs⟩ := assign_conflict_after_taken bid rest st1 hb1 hb1ex hm1
  refine ⟨st1, hok, ?_, ?_, hb1, herrs⟩
  · show processAssignRequests bid st (mid0 :: rest) = (st1, 1)
    unfold processAssignRequests
    rw [hok]
    simp [htail]
  · refine ⟨_, by rw [hfind1, hfind0]; rfl, ?_⟩
    simp [hid0]

/-- C9: for every available board and a batch of assign requests for that
same board across distinct non-completed matches, executed in the
serialization order imposed by the board's row lock, exactly one request
(the first to take the lock) succeeds — flipping the board unavailable
and recording it on that match — and every other request receives the
conflict error with no state change. -/
theorem C9_assign_mutual_exclusion (st : TState) (bid : Nat) (b : Dartboard)
    (mid0 : Nat) (rest : List Nat)
    (hboard : findBoard st bid = some b) (hav : b.isAvailable = true)
    (hm : ∀ mid ∈ mid0 :: rest,
      ∃ m, findById st mid = some m ∧ m.status ≠ MatchStatus.completed) :
    ∃ st1, assignBoardToMatch st mid0 bid = Except.ok st1 ∧
      processAssignRequests bid st (mid0 :: rest) = (st1, 1) ∧
      (∃ m1, findById st1 mid0 = some m1 ∧ m1.dartboardId = some bid) ∧
      (∀ bb ∈ st1.boards, bb.id = bid → bb.isAvailable = false) ∧
      (∀ mid ∈ rest, assignBoardToMatch st1 mid bid = Except.error ApiError.badRequest) := by
  obtain ⟨m0, hfind0, hst0⟩ := hm mid0 (by simp)
  have hrest : ∀ mid ∈ rest, ∃ m, findById st mid = some m ∧ m.status ≠ MatchStatus.completed :=
    fun mid h => hm mid (by simp [h])
  rcases hdb0 : m0.dartboardId with _ | oldId
  · refine assign_success_shape st st bid mid0 rest b m0 rfl ?_ hboard hfind0 hrest ?_
    · intro b0 hb0; exact ⟨b0, hb0, rfl⟩
    · simp [assignBoardToMatch, hfind0, hst0, hboard, hav, hdb0]
  · refine assign_success_shape st
      (updateBoard st oldId (fun bb => { bb with isAvailable := true }))
      bid mid0 rest b m0 rfl ?_ hboard hfind0 hrest ?_
    · intro b0 hb0
      refine ⟨if b0.id = oldId then { b0 with isAvailable := true } else b0, ?_, ?_⟩
      · exact List.mem_map_of_mem _ hb0
      · by_cases h : b0.id = oldId <;> simp [h]
    · simp [assignBoardToMatch, hfind0, hst0, hboard, hav, hdb0]

/-- C9 witness: one available board, three pending matches, three
requests; the first succeeds and holds the board, the others conflict. -/
theorem C9_assign_mutual_exclusion_witness :
    ∃ st1, assignBoardToMatch
        { matchRows := [
            { id := 1, roundNumber := 1, matchNumber := 1,
              bracketPosition := BracketPos.R 1 1, status := MatchStatus.pending },
            { id := 2, roundNumber := 1, matchNumber := 2,
              bracketPosition := BracketPos.R 1 2, status := MatchStatus.pending },
            { id := 3, roundNumber := 1, matchNumber := 3,
              bracketPosition := BracketPos.R 1 3, status := MatchStatus.pending }],
          boards := [{ id := 9, number := 1, isAvailable := true }],
          tstatus := TournamentStatus.inProgress } 1 9 = Except.ok st1 ∧
      processAssignRequests 9
        { matchRows := [
            { id := 1, roundNumber := 1, matchNumber := 1,
              bracketPosition := BracketPos.R 1 1, status := MatchStatus.pending },
            { id := 2, roundNumber := 1, matchNumber := 2,
              bracketPosition := BracketPos.R 1 2, status := MatchStatus.pending },
            { id := 3, roundNumber := 1, matchNumber := 3,
              bracketPosition := BracketPos.R 1 3, status := MatchStatus.pending }],
          boards := [{ id := 9, number := 1, isAvailable := true }],
          tstatus := TournamentStatus.inProgress } [1, 2, 3] = (st1, 1) ∧
      (∃ m1, findById st1 1 = some m1 ∧ m1.dartboardId = some 9) ∧
      (∀ bb ∈ st1.boards, bb.id = 9 → bb.isAvailable = false) ∧
      (∀ mid ∈ [2, 3], assignBoardToMatch st1 mid 9 = Except.error ApiError.badRequest) := by
  obtain ⟨st1, h1, h2, h3, h4, h5⟩ := C9_assign_mutual_exclusion
    { matchRows := [
        { id := 1, roundNumber := 1, matchNumber := 1,
          bracketPosition := BracketPos.R 1 1, status := MatchStatus.pending },
        { id := 2, roundNumber := 1, matchNumber := 2,
          bracketPosition := BracketPos.R 1 2, status := MatchStatus.pending },
        { id := 3, roundNumber := 1, matchNumber := 3,
          bracketPosition := BracketPos.R 1 3, status := MatchStatus.pending }],
      boards := [{ id := 9, number := 1, isAvailable := true }],
      tstatus := TournamentStatus.inProgress } 9
    { id := 9, number := 1, isAvailable := true } 1 [2, 3] rfl rfl (by
      intro mid hmid
      fin_cases hmid
      · exact ⟨{ id := 1, roundNumber := 1, matchNumber := 1,
                 bracketPosition := BracketPos.R 1 1, status := MatchStatus.pending },
               rfl, by decide⟩
      · exact ⟨{ id := 2, roundNumber := 1, matchNumber := 2,
                 bracketPosition := BracketPos.R 1 2, status := MatchStatus.pending },
               rfl, by decide⟩
      · exact ⟨{ id := 3, roundNumber := 1, matchNumber := 3,
                 bracketPosition := BracketPos.R 1 3, status := MatchStatus.pending },
               rfl, by decide⟩)
  exact ⟨st1, h1, h2, h3, h4, h5⟩

/-! ## Claim theorems -/

/-- Only a pending destination is ever completed by the singles bye
cascade; any other status returns the state unchanged. -/
theorem checkByeCascade_nonpending (fuel : Nat) (st : TState) (bp : BracketPos)
    (m : MatchRec) (hfind : findByBP st bp = some m)
    (hne : m.status ≠ MatchStatus.pending) :
    checkByeCascade fuel st bp = st := by
  match fuel with
  | 0 => rfl
  | fuel' + 1 =>
    unfold checkByeCascade
    split
    · split
      · rfl
      · split
        · dsimp only
          split <;> rfl
        · rename_i nextMatch heq
          rw [hfind] at heq
          have hm : nextMatch = m := by injection heq with h; exact h.symm
          subst hm
          dsimp only
          split
          · rfl
          · split <;> first | rfl | simp_all
    · rfl

/-- Only a pending destination is ever completed by the doubles team bye
cascade. -/
theorem checkTeamByeCascade_nonpending (fuel : Nat) (st : TState) (bp : BracketPos)
    (m : MatchRec) (hfind : findByBP st bp = some m)
    (hne : m.status ≠ MatchStatus.pending) :
    checkTeamByeCascade fuel st bp = st := by
  match fuel with
  | 0 => rfl
  | fuel' + 1 =>
    unfold checkTeamByeCascade
    split
    · split
      · rfl
      · split
        · dsimp only
          split <;> rfl
        · rename_i nextMatch heq
          rw [hfind] at heq
          have hm : nextMatch = m := by injection heq with h; exact h.symm
          subst hm
          dsimp only
          split
          · rfl
          · split <;> first | rfl | simp_all
    · rfl

/-- Only a pending destination is ever completed by the double-elimination
bye cascade. -/
theorem checkDoubleElimByeCascade_nonpending (fuel : Nat) (st : TState) (bp : BracketPos)
    (m : MatchRec) (hfind : findByBP st bp = some m)
    (hne : m.status ≠ MatchStatus.pending) :
    checkDoubleElimByeCascade fuel st bp = st := by
  match fuel with
  | 0 => rfl
  | fuel' + 1 =>
    unfold checkDoubleElimByeCascade
    split <;> try rfl
    split
    · rfl
    · split
      · rfl
      · rename_i nextMatch heq
        rw [hfind] at heq
        have hm : nextMatch = m := by injection heq with h; exact h.symm
        subst hm
        dsimp only
        split <;> first | rfl | simp_all

/-- Single-bye step of `_check_bye_cascade`: with both existing feeders
completed and a pending 1-occupant destination, the destination is
completed with its sole occupant as winner and the advancement routine is
re-entered on the refreshed row. -/
theorem checkByeCascade_single_bye (fuel : Nat) (st : TState) (r i : Nat)
    (mtch : MatchRec) (p : MatchPlayerRec)
    (hr : 2 ≤ r)
    (hfind : findByBP st (BracketPos.R r i) = some mtch)
    (hfid : findById st mtch.id = some mtch)
    (hfne : st.matchRows.filter (fun f =>
        f.bracketPosition == BracketPos.R (r-1) (2*i-1) ||
        f.bracketPosition == BracketPos.R (r-1) (2*i)) ≠ [])
    (hfcomp : ∀ f ∈ st.matchRows.filter (fun f =>
        f.bracketPosition == BracketPos.R (r-1) (2*i-1) ||
        f.bracketPosition == BracketPos.R (r-1) (2*i)), f.status = MatchStatus.completed)
    (hpl : mtch.players = [p]) (hstat : mtch.status = MatchStatus.pending) :
    checkByeCascade (fuel+1) st (BracketPos.R r i) =
      advanceWinnerInBracket fuel
        (updateById st mtch.id (fun n =>
          { n with status := MatchStatus.completed, winnerId := some p.playerId }))
        { mtch with status := MatchStatus.completed, winnerId := some p.playerId } ∧
    findById (updateById st mtch.id (fun n =>
        { n with status := MatchStatus.completed, winnerId := some p.playerId })) mtch.id =
      some { mtch with status := MatchStatus.completed, winnerId := some p.playerId } := by
  have hrow : findById (updateById st mtch.id (fun n =>
      { n with status := MatchStatus.completed, winnerId := some p.playerId })) mtch.id =
      some { mtch with status := MatchStatus.completed, winnerId := some p.playerId } := by
    rw [findById_updateById st mtch.id mtch.id (fun n =>
      { n with status := MatchStatus.completed, winnerId := some p.playerId }) (fun a => rfl), hfid]
    simp
  refine ⟨?_, hrow⟩
  unfold checkByeCascade
  dsimp only
  rw [if_neg (by omega)]
  rw [if_neg (by
    push_neg
    exact ⟨fun hh => hfne (List.length_eq_zero.mp hh), hfcomp⟩)]
  rw [hfind]
  dsimp only
  conv_lhs => rw [hpl, hstat]
  dsimp only
  rw [hrow]

/-- Double-bye step of `_check_bye_cascade`: with all existing feeders
completed and a pending empty destination, the destination is completed
with no winner and emptiness is cascaded to the next round via
`_check_next_match_cascade`. -/
theorem checkByeCascade_double_bye (fuel : Nat) (st : TState) (r i : Nat)
    (mtch : MatchRec)
    (hr : 2 ≤ r)
    (hfind : findByBP st (BracketPos.R r i) = some mtch)
    (hfid : findById st mtch.id = some mtch)
    (hfne : st.matchRows.filter (fun f =>
        f.bracketPosition == BracketPos.R (r-1) (2*i-1) ||
        f.bracketPosition == BracketPos.R (r-1) (2*i)) ≠ [])
    (hfcomp : ∀ f ∈ st.matchRows.filter (fun f =>
        f.bracketPosition == BracketPos.R (r-1) (2*i-1) ||
        f.bracketPosition == BracketPos.R (r-1) (2*i)), f.status = MatchStatus.completed)
    (hpl : mtch.players = []) (hstat : mtch.status = MatchStatus.pending)
    (hwin : mtch.winnerId = none) :
    checkByeCascade (fuel+1) st (BracketPos.R r i) =
      checkNextMatchCascade fuel
        (updateById st mtch.id (fun n => { n with status := MatchStatus.completed }))
        { mtch with status := MatchStatus.completed } ∧
    findById (updateById st mtch.id (fun n =>
        { n with status := MatchStatus.completed })) mtch.id =
      some { mtch with status := MatchStatus.completed } ∧
    ({ mtch with status := MatchStatus.completed } : MatchRec).winnerId = none := by
  have hrow : findById (updateById st mtch.id (fun n =>
      { n with status := MatchStatus.completed })) mtch.id =
      some { mtch with status := MatchStatus.completed } := by
    rw [findById_updateById st mtch.id mtch.id (fun n =>
      { n with status := MatchStatus.completed }) (fun a => rfl), hfid]
    simp
  refine ⟨?_, hrow, hwin⟩
  unfold checkByeCascade
  dsimp only
  rw [if_neg (by omega)]
  rw [if_neg (by
    push_neg
    exact ⟨fun hh => hfne (List.length_eq_zero.mp hh), hfcomp⟩)]
  rw [hfind]
  dsimp only
  conv_lhs => rw [hpl, hstat]
  dsimp only
  rw [hrow]

/-- Round-1 positions are never bye targets in `_check_bye_cascade`. -/
theorem checkByeCascade_roundOne (fuel : Nat) (st : TState) (r i : Nat)
    (hr : r ≤ 1) :
    checkByeCascade fuel st (BracketPos.R r i) = st := by
  match fuel with
  | 0 => rfl
  | fuel' + 1 =>
    unfold checkByeCascade
    dsimp only
    rw [if_pos hr]

/-- C2: for a single-elimination match at `R{r}M{m}` with `r ≥ 2`, once
all of its existing feeder matches (`R{r-1}M{2m-1}` and `R{r-1}M{2m}`)
are completed: a pending 1-occupant destination auto-completes with the
sole occupant as winner and the advancement routine recurses on it; a
pending 0-occupant destination is marked completed with no winner and
emptiness is still cascaded forward; and a match with round ≤ 1 is never
treated as a bye target. -/
theorem C2_bye_cascade (fuel : Nat) (st : TState) (r i : Nat) (mtch : MatchRec)
    (hfind : findByBP st (BracketPos.R r i) = some mtch)
    (hfid : findById st mtch.id = some mtch) :
    (∀ p, 2 ≤ r →
      st.matchRows.filter (fun f =>
        f.bracketPosition == BracketPos.R (r-1) (2*i-1) ||
        f.bracketPosition == BracketPos.R (r-1) (2*i)) ≠ [] →
      (∀ f ∈ st.matchRows.filter (fun f =>
        f.bracketPosition == BracketPos.R (r-1) (2*i-1) ||
        f.bracketPosition == BracketPos.R (r-1) (2*i)), f.status = MatchStatus.completed) →
      mtch.players = [p] → mtch.status = MatchStatus.pending →
      checkByeCascade (fuel+1) st (BracketPos.R r i) =
        advanceWinnerInBracket fuel
          (updateById st mtch.id (fun n =>
            { n with status := MatchStatus.completed, winnerId := some p.playerId }))
          { mtch with status := MatchStatus.completed, winnerId := some p.playerId } ∧
      findById (updateById st mtch.id (fun n =>
          { n with status := MatchStatus.completed, winnerId := some p.playerId })) mtch.id =
        some { mtch with status := MatchStatus.completed, winnerId := some p.playerId }) ∧
    (2 ≤ r →
      st.matchRows.filter (fun f =>
        f.bracketPosition == BracketPos.R (r-1) (2*i-1) ||
        f.bracketPosition == BracketPos.R (r-1) (2*i)) ≠ [] →
      (∀ f ∈ st.matchRows.filter (fun f =>
        f.bracketPosition == BracketPos.R (r-1) (2*i-1) ||
        f.bracketPosition == BracketPos.R (r-1) (2*i)), f.status = MatchStatus.completed) →
      mtch.players = [] → mtch.status = MatchStatus.pending → mtch.winnerId = none →
      checkByeCascade (fuel+1) st (BracketPos.R r i) =
        checkNextMatchCascade fuel
          (updateById st mtch.id (fun n => { n with status := MatchStatus.completed }))
          { mtch with status := MatchStatus.completed } ∧
      findById (updateById st mtch.id (fun n =>
          { n with status := MatchStatus.completed })) mtch.id =
        some { mtch with status := MatchStatus.completed } ∧
      ({ mtch with status := MatchStatus.completed } : MatchRec).winnerId = none) ∧
    (r ≤ 1 → checkByeCascade (fuel+1) st (BracketPos.R r i) = st) := by
  refine ⟨?_, ?_, ?_⟩
  · intro p hr hfne hfcomp hpl hstat
    exact checkByeCascade_single_bye fuel st r i mtch p hr hfind hfid hfne hfcomp hpl hstat
  · intro hr hfne hfcomp hpl hstat hwin
    exact checkByeCascade_double_bye fuel st r i mtch hr hfind hfid hfne hfcomp hpl hstat hwin
  · intro hr
    exact checkByeCascade_roundOne (fuel+1) st r i hr

/-- C2 witness: a concrete `R2M1` with completed feeders `R1M1`, `R1M2`:
holding one occupant it completes with that occupant as winner and
re-enters advancement; holding none it completes winnerless and cascades
forward; and `R1M1` itself is never a bye target. -/
theorem C2_bye_cascade_witness :
    (checkByeCascade 6
        { matchRows := [
            { id := 1, roundNumber := 1, matchNumber := 1,
              bracketPosition := BracketPos.R 1 1, status := MatchStatus.completed,
              winnerId := some 10,
              players := [{ playerId := 10, position := 1 }, { playerId := 11, position := 2 }] },
            { id := 2, roundNumber := 1, matchNumber := 2,
              bracketPosition := BracketPos.R 1 2, status := MatchStatus.completed,
              winnerId := some 12, players := [{ playerId := 12, position := 1 }] },
            { id := 3, roundNumber := 2, matchNumber := 3,
              bracketPosition := BracketPos.R 2 1, status := MatchStatus.pending,
              players := [{ playerId := 12, position := 2 }] }],
          tstatus := TournamentStatus.inProgress } (BracketPos.R 2 1) =
      advanceWinnerInBracket 5
        (updateById
          { matchRows := [
              { id := 1, roundNumber := 1, matchNumber := 1,
                bracketPosition := BracketPos.R 1 1, status := MatchStatus.completed,
                winnerId := some 10,
                players := [{ playerId := 10, position := 1 }, { playerId := 11, position := 2 }] },
              { id := 2, roundNumber := 1, matchNumber := 2,
                bracketPosition := BracketPos.R 1 2, status := MatchStatus.completed,
                winnerId := some 12, players := [{ playerId := 12, position := 1 }] },
              { id := 3, roundNumber := 2, matchNumber := 3,
                bracketPosition := BracketPos.R 2 1, status := MatchStatus.pending,
                players := [{ playerId := 12, position := 2 }] }],
            tstatus := TournamentStatus.inProgress } 3
          (fun n => { n with status := MatchStatus.completed, winnerId := some 12 }))
        { id := 3, roundNumber := 2, matchNumber := 3,
          bracketPosition := BracketPos.R 2 1, status := MatchStatus.completed,
          winnerId := some 12,
          players := [{ playerId := 12, position := 2 }] }) ∧
    (checkByeCascade 6
        { matchRows := [
            { id := 1, roundNumber := 1, matchNumber := 1,
              bracketPosition := BracketPos.R 1 1, status := MatchStatus.completed },
            { id := 2, roundNumber := 1, matchNumber := 2,
              bracketPosition := BracketPos.R 1 2, status := MatchStatus.completed },
            { id := 3, roundNumber := 2, matchNumber := 3,
              bracketPosition := BracketPos.R 2 1, status := MatchStatus.pending }],
          tstatus := TournamentStatus.inProgress } (BracketPos.R 2 1) =
      checkNextMatchCascade 5
        (updateById
          { matchRows := [
              { id := 1, roundNumber := 1, matchNumber := 1,
                bracketPosition := BracketPos.R 1 1, status := MatchStatus.completed },
              { id := 2, roundNumber := 1, matchNumber := 2,
                bracketPosition := BracketPos.R 1 2, status := MatchStatus.completed },
              { id := 3, roundNumber := 2, matchNumber := 3,
                bracketPosition := BracketPos.R 2 1, status := MatchStatus.pending }],
            tstatus := TournamentStatus.inProgress } 3
          (fun n => { n with status := MatchStatus.completed }))
        { id := 3, roundNumber := 2, matchNumber := 3,
          bracketPosition := BracketPos.R 2 1, status := MatchStatus.completed }) ∧
    (checkByeCascade 6
        { matchRows := [
            { id := 1, roundNumber := 1, matchNumber := 1,
              bracketPosition := BracketPos.R 1 1, status := MatchStatus.pending,
              players := [{ playerId := 10, position := 1 }] }],
          tstatus := TournamentStatus.inProgress } (BracketPos.R 1 1) =
      { matchRows := [
          { id := 1, roundNumber := 1, matchNumber := 1,
            bracketPosition := BracketPos.R 1 1, status := MatchStatus.pending,
            players := [{ playerId := 10, position := 1 }] }],
        tstatus := TournamentStatus.inProgress }) := by
  refine ⟨?_, ?_, ?_⟩
  · exact ((C2_bye_cascade 5
      { matchRows := [
            { id := 1, roundNumber := 1, matchNumber := 1,
              bracketPosition := BracketPos.R 1 1, status := MatchStatus.completed,
              winnerId := some 10,
              players := [{ playerId := 10, position := 1 }, { playerId := 11, position := 2 }] },
            { id := 2, roundNumber := 1, matchNumber := 2,
              bracketPosition := BracketPos.R 1 2, status := MatchStatus.completed,
              winnerId := some 12, players := [{ playerId := 12, position := 1 }] },
            { id := 3, roundNumber := 2, matchNumber := 3,
              bracketPosition := BracketPos.R 2 1, status := MatchStatus.pending,
              players := [{ playerId := 12, position := 2 }] }],
          tstatus := TournamentStatus.inProgress } 2 1
      { id := 3, roundNumber := 2, matchNumber := 3,
        bracketPosition := BracketPos.R 2 1, status := MatchStatus.pending,
        players := [{ playerId := 12, position := 2 }] } rfl rfl).1
      { playerId := 12, position := 2 } (by omega) (by decide) (by decide) rfl rfl).1
  · exact (((C2_bye_cascade 5
      { matchRows := [
            { id := 1, roundNumber := 1, matchNumber := 1,
              bracketPosition := BracketPos.R 1 1, status := MatchStatus.completed },
            { id := 2, roundNumber := 1, matchNumber := 2,
              bracketPosition := BracketPos.R 1 2, status := MatchStatus.completed },
            { id := 3, roundNumber := 2, matchNumber := 3,
              bracketPosition := BracketPos.R 2 1, status := MatchStatus.pending }],
          tstatus := TournamentStatus.inProgress } 2 1
      { id := 3, roundNumber := 2, matchNumber := 3,
        bracketPosition := BracketPos.R 2 1, status := MatchStatus.pending } rfl rfl).2.1)
      (by omega) (by decide) (by decide) rfl rfl rfl).1
  · exact (C2_bye_cascade 5
      { matchRows := [
            { id := 1, roundNumber := 1, matchNumber := 1,
              bracketPosition := BracketPos.R 1 1, status := MatchStatus.pending,
              players := [{ playerId := 10, position := 1 }] }],
          tstatus := TournamentStatus.inProgress } 1 1
      { id := 1, roundNumber := 1, matchNumber := 1,
        bracketPosition := BracketPos.R 1 1, status := MatchStatus.pending,
        players := [{ playerId := 10, position := 1 }] } rfl rfl).2.2 (by omega)

/-- C10: bye auto-completion never overrides a started or resolved match:
each of the three bye-cascade routines (singles, doubles teams, double
elimination) leaves the state entirely unchanged whenever the match at
the destination bracket position is in in_progress, disputed, cancelled,
or completed status — whatever its feeders and occupancy; only a pending
match is ever auto-completed. -/
theorem C10_bye_cascade_leaves_nonpending (fuel : Nat) (st : TState) (bp : BracketPos)
    (m : MatchRec) (hfind : findByBP st bp = some m)
    (hst : m.status = MatchStatus.inProgress ∨ m.status = MatchStatus.disputed ∨
           m.status = MatchStatus.cancelled ∨ m.status = MatchStatus.completed) :
    checkByeCascade fuel st bp = st ∧ checkTeamByeCascade fuel st bp = st ∧
      checkDoubleElimByeCascade fuel st bp = st := by
  have hne : m.status ≠ MatchStatus.pending := by
    rcases hst with h | h | h | h <;> simp [h]
  exact ⟨checkByeCascade_nonpending fuel st bp m hfind hne,
    checkTeamByeCascade_nonpending fuel st bp m hfind hne,
    checkDoubleElimByeCascade_nonpending fuel st bp m hfind hne⟩

/-- C10 witness: an in-progress `R2M1` with exactly one occupant and both
feeders completed is left untouched by all three cascade routines. -/
theorem C10_bye_cascade_leaves_nonpending_witness :
    (let st : TState :=
      { matchRows := [
          { id := 1, roundNumber := 1, matchNumber := 1,
            bracketPosition := BracketPos.R 1 1, status := MatchStatus.completed,
            winnerId := some 4, players := [{ playerId := 3, position := 1 },
                                            { playerId := 4, position := 2 }] },
          { id := 2, roundNumber := 1, matchNumber := 2,
            bracketPosition := BracketPos.R 1 2, status := MatchStatus.completed,
            winnerId := some 5, players := [{ playerId := 5, position := 1 }] },
          { id := 3, roundNumber := 2, matchNumber := 3,
            bracketPosition := BracketPos.R 2 1, status := MatchStatus.inProgress,
            players := [{ playerId := 4, position := 1 }] }],
        tstatus := TournamentStatus.inProgress }
     checkByeCascade 5 st (BracketPos.R 2 1) = st ∧
       checkTeamByeCascade 5 st (BracketPos.R 2 1) = st ∧
       checkDoubleElimByeCascade 5 st (BracketPos.R 2 1) = st) :=
  C10_bye_cascade_leaves_nonpending 5 _ (BracketPos.R 2 1)
    { id := 3, roundNumber := 2, matchNumber := 3,
      bracketPosition := BracketPos.R 2 1, status := MatchStatus.inProgress,
      players := [{ playerId := 4, position := 1 }] } rfl (Or.inl rfl)

/-- C5: the claim says double-elimination bracket generation pre-creates
the losers-bracket and grand-final matches across all rounds implied by
`ceil(log2(N))` before play begins.  Evaluating the code at 4 entrants:
the API generator (`_generate_double_elimination_bracket`) emits only
single-elimination `R{r}M{m}` matches — in particular no `GF1`, `GF2` or
any losers-bracket match exists — and
`BracketService.generate_double_elimination` emits exactly the two
winners-round-1 configurations `W1M1`, `W1M2` and nothing else.  The
fully-routed advancement engine in `matches.py` (positions `WR`/`LR`/`GF`)
expects those matches to exist, so generation is the slip. -/
theorem C5_no_losers_or_grand_final_pregenerated :
    (generateDoubleEliminationService [1, 2, 3, 4]).map (fun c => c.bracketPosition) =
      [BracketPos.W 1 1, BracketPos.W 1 2] ∧
    (generateDoubleEliminationService [1, 2, 3, 4]).map (fun c => c.round) = [1, 1] ∧
    (let st := generateDoubleEliminationBracket 20 [1, 2, 3, 4]
        { matchRows := [], tstatus := TournamentStatus.registration }
     findByBP st BracketPos.GF1 = none ∧
     findByBP st BracketPos.GF2 = none ∧
     st.matchRows.all (fun m =>
       match m.bracketPosition with
       | BracketPos.R _ _ => true
       | _ => false) = true ∧
     st.matchRows.map (fun m => m.bracketPosition) =
       [BracketPos.R 1 1, BracketPos.R 1 2, BracketPos.R 2 1]) := by
  decide

/-- C8 counterexample: the claim says `release(match)` on a match with no
assigned board succeeds without error as a no-op; on a one-match state
whose match has `dartboard_id = None`, `release_board_from_match` instead
returns the 400 error ("Match has no dartboard assigned"), so in
particular it returns `Except.ok st'` for no state. -/
theorem C8_release_board_counterexample :
    releaseBoardFromMatch
      { matchRows := [{ id := 1, roundNumber := 1, matchNumber := 1,
                        bracketPosition := BracketPos.R 1 1, status := MatchStatus.pending }],
        tstatus := TournamentStatus.inProgress } 1 =
      Except.error ApiError.badRequest := rfl

/-- C8 (amended): for every match with no assigned board, `release(match)`
is rejected with a 400 error (and, the result being an error, no state is
committed); for every match holding board `bid`, release succeeds, the
resulting state sets every board row with id `bid` available and clears
`dartboard_id` on the match row. -/
theorem C8_release_board (st : TState) (mid : Nat) (m : MatchRec)
    (hfind : findById st mid = some m) :
    (m.dartboardId = none → releaseBoardFromMatch st mid = Except.error ApiError.badRequest) ∧
    (∀ bid, m.dartboardId = some bid →
      ∃ stf, releaseBoardFromMatch st mid = Except.ok stf ∧
        (∀ b ∈ stf.boards, b.id = bid → b.isAvailable = true) ∧
        (∀ mm ∈ stf.matchRows, mm.id = mid → mm.dartboardId = none) ∧
        stf = updateById (updateBoard st bid (fun b => { b with isAvailable := true })) mid
                (fun n => { n with dartboardId := none })) := by
  constructor
  · intro hdb
    simp [releaseBoardFromMatch, hfind, hdb]
  · intro bid hdb
    refine ⟨_, by simp [releaseBoardFromMatch, hfind, hdb], ?_, ?_, rfl⟩
    · intro b hb hbid
      simp only [updateById, updateBoard, List.mem_map] at hb
      obtain ⟨a, _, rfl⟩ := hb
      by_cases h : a.id = bid <;> simp [h] at hbid ⊢
    · intro mm hmm hmid
      simp only [updateById, updateBoard, List.mem_map] at hmm
      obtain ⟨a, _, rfl⟩ := hmm
      by_cases h : a.id = mid <;> simp [h] at hmid ⊢

/-- C8 witness: instantiating the amended release theorem on a two-row
state exercising both branches. -/
theorem C8_release_board_witness :
    (releaseBoardFromMatch
        { matchRows := [{ id := 1, roundNumber := 1, matchNumber := 1,
                          bracketPosition := BracketPos.R 1 1, status := MatchStatus.pending }],
          tstatus := TournamentStatus.inProgress } 1 =
      Except.error ApiError.badRequest) ∧
    (∃ stf, releaseBoardFromMatch
        { matchRows := [{ id := 1, roundNumber := 1, matchNumber := 1,
                          bracketPosition := BracketPos.R 1 1, status := MatchStatus.inProgress,
                          dartboardId := some 7 }],
          boards := [{ id := 7, number := 1, isAvailable := false }],
          tstatus := TournamentStatus.inProgress } 1 = Except.ok stf ∧
        (∀ b ∈ stf.boards, b.id = 7 → b.isAvailable = true) ∧
        (∀ mm ∈ stf.matchRows, mm.id = 1 → mm.dartboardId = none)) := by
  constructor
  · exact (C8_release_board
      { matchRows := [{ id := 1, roundNumber := 1, matchNumber := 1,
                        bracketPosition := BracketPos.R 1 1, status := MatchStatus.pending }],
        tstatus := TournamentStatus.inProgress } 1
      { id := 1, roundNumber := 1, matchNumber := 1,
        bracketPosition := BracketPos.R 1 1, status := MatchStatus.pending } rfl).1 rfl
  · obtain ⟨stf, h1, h2, h3, _⟩ := (C8_release_board
      { matchRows := [{ id := 1, roundNumber := 1, matchNumber := 1,
                        bracketPosition := BracketPos.R 1 1, status := MatchStatus.inProgress,
                        dartboardId := some 7 }],
        boards := [{ id := 7, number := 1, isAvailable := false }],
        tstatus := TournamentStatus.inProgress } 1
      { id := 1, roundNumber := 1, matchNumber := 1,
        bracketPosition := BracketPos.R 1 1, status := MatchStatus.inProgress,
        dartboardId := some 7 } rfl).2 7 rfl
    exact ⟨stf, h1, h2, h3⟩

theorem RowStep_rfl (rfull rplay : Nat) (a : MatchRec) : RowStep rfull rplay a a :=
  ⟨rfl, rfl, rfl, rfl, ⟨[], by simp⟩, fun _ => rfl, fun _ => rfl⟩

theorem StateStep_rfl (rfull rplay : Nat) (st : TState) : StateStep rfull rplay st st :=
  ⟨rfl, rfl, List.forall₂_same.mpr (fun a _ => RowStep_rfl rfull rplay a)⟩

theorem RowStep_trans {rfull rplay : Nat} {a b c : MatchRec}
    (h1 : RowStep rfull rplay a b) (h2 : RowStep rfull rplay b c) :
    RowStep rfull rplay a c := by
  obtain ⟨i1, b1, r1, n1, ⟨s1, p1⟩, f1, q1⟩ := h1
  obtain ⟨i2, b2, r2, n2, ⟨s2, p2⟩, f2, q2⟩ := h2
  refine ⟨i2.trans i1, b2.trans b1, r2.trans r1, n2.trans n1,
    ⟨s1 ++ s2, by rw [p2, p1, List.append_assoc]⟩, ?_, ?_⟩
  · intro hlow
    rw [f2 (by rw [b1]; exact hlow), f1 hlow]
  · intro hlow
    rw [q2 (by rw [b1]; exact hlow), q1 hlow]

theorem forall₂_trans {α : Type} (R : α → α → Prop)
    (htrans : ∀ a b c, R a b → R b c → R a c) :
    ∀ {l1 l2 l3 : List α}, List.Forall₂ R l1 l2 → List.Forall₂ R l2 l3 → List.Forall₂ R l1 l3 := by
  intro l1 l2 l3 h1 h2
  induction h1 generalizing l3 with
  | nil => cases h2; exact List.Forall₂.nil
  | cons hab htail ih =>
    cases h2 with
    | cons hbc htail2 => exact List.Forall₂.cons (htrans _ _ _ hab hbc) (ih htail2)

theorem StateStep_trans {rfull rplay : Nat} {st1 st2 st3 : TState}
    (h1 : StateStep rfull rplay st1 st2) (h2 : StateStep rfull rplay st2 st3) :
    StateStep rfull rplay st1 st3 :=
  ⟨h2.1.trans h1.1, h2.2.1.trans h1.2.1,
    forall₂_trans (RowStep rfull rplay) (fun _ _ _ hab hbc => RowStep_trans hab hbc) h1.2.2 h2.2.2⟩

theorem bpRoundLe_mono {bp : BracketPos} {r1 r2 : Nat} (h : r1 ≤ r2)
    (hl : bpRoundLe bp r1) : bpRoundLe bp r2 := by
  cases bp <;> simp [bpRoundLe] at hl ⊢ <;> omega

theorem RowStep_weaken {rfull rplay rfull' rplay' : Nat} {a b : MatchRec}
    (hf : rfull' ≤ rfull) (hp : rplay' ≤ rplay)
    (h : RowStep rfull rplay a b) : RowStep rfull' rplay' a b := by
  obtain ⟨i1, b1, r1, n1, hs, f1, q1⟩ := h
  exact ⟨i1, b1, r1, n1, hs, fun hl => f1 (bpRoundLe_mono hf hl),
    fun hl => q1 (bpRoundLe_mono hp hl)⟩

theorem StateStep_weaken {rfull rplay rfull' rplay' : Nat} {st st' : TState}
    (hf : rfull' ≤ rfull) (hp : rplay' ≤ rplay)
    (h : StateStep rfull rplay st st') : StateStep rfull' rplay' st st' :=
  ⟨h.1, h.2.1, List.Forall₂.imp (fun _ _ hr => RowStep_weaken hf hp hr) h.2.2⟩

theorem StateStep_updateById (st : TState) (X : Nat) (f : MatchRec → MatchRec)
    (rfull rplay : Nat)
    (hkeys : ∀ a, (f a).id = a.id ∧ (f a).bracketPosition = a.bracketPosition ∧
      (f a).roundNumber = a.roundNumber ∧ (f a).matchNumber = a.matchNumber)
    (happ : ∀ a, ∃ s, (f a).players = a.players ++ s)
    (hfull : ∀ a ∈ st.matchRows, a.id = X → ¬ bpRoundLe a.bracketPosition rfull)
    (hplay : ∀ a ∈ st.matchRows, a.id = X → bpRoundLe a.bracketPosition rplay →
      (f a).players = a.players) :
    StateStep rfull rplay st (updateById st X f) := by
  refine ⟨rfl, rfl, ?_⟩
  show List.Forall₂ _ st.matchRows (st.matchRows.map _)
  rw [List.forall₂_map_right_iff]
  rw [List.forall₂_same]
  intro a ha
  by_cases h : a.id = X
  · simp only [h, if_true]
    obtain ⟨k1, k2, k3, k4⟩ := hkeys a
    exact ⟨k1, k2, k3, k4, happ a,
      fun hl => absurd hl (hfull a ha h), fun hl => hplay a ha h hl⟩
  · simp only [h, if_false]
    exact RowStep_rfl rfull rplay a

theorem map_eq_of_forall₂ {α β : Type} (R : α → α → Prop) (f : α → β)
    (hf : ∀ a b, R a b → f b = f a) :
    ∀ {l1 l2 : List α}, List.Forall₂ R l1 l2 → l2.map f = l1.map f := by
  intro l1 l2 h
  induction h with
  | nil => rfl
  | cons hab htail ih => simp [hf _ _ hab, ih]

theorem find?_forall₂ {α : Type} (R : α → α → Prop) (p : α → Bool)
    (hp : ∀ a b, R a b → p b = p a) :
    ∀ {l1 l2 : List α}, List.Forall₂ R l1 l2 →
      (l1.find? p = none ∧ l2.find? p = none) ∨
      (∃ a b, l1.find? p = some a ∧ l2.find? p = some b ∧ R a b) := by
  intro l1 l2 h
  induction h with
  | nil => exact Or.inl ⟨rfl, rfl⟩
  | cons hab htail ih =>
    rename_i a b l1' l2'
    by_cases hpa : p a
    · exact Or.inr ⟨a, b, by simp [List.find?_cons, hpa],
        by simp [List.find?_cons, hp a b hab, hpa], hab⟩
    · have hpa' : p a = false := by simpa using hpa
      have hpb : p b = false := by rw [hp a b hab]; exact hpa'
      rcases ih with ⟨h1, h2⟩ | ⟨x, y, hx, hy, hxy⟩
      · exact Or.inl ⟨by simp [List.find?_cons, hpa', h1],
          by simp [List.find?_cons, hpb, h2]⟩
      · exact Or.inr ⟨x, y, by simp [List.find?_cons, hpa', hx],
          by simp [List.find?_cons, hpb, hy], hxy⟩

theorem WellKeyed_of_StateStep {rfull rplay : Nat} {st st' : TState} (hwk : WellKeyed st)
    (h : StateStep rfull rplay st st') : WellKeyed st' := by
  obtain ⟨hids, hbps, hrc⟩ := hwk
  have hid : st'.matchRows.map (fun m => m.id) = st.matchRows.map (fun m => m.id) :=
    map_eq_of_forall₂ _ _ (fun a b hr => hr.1) h.2.2
  have hbp : st'.matchRows.map (fun m => m.bracketPosition) =
      st.matchRows.map (fun m => m.bracketPosition) :=
    map_eq_of_forall₂ _ _ (fun a b hr => hr.2.1) h.2.2
  refine ⟨by rw [hid]; exact hids, by rw [hbp]; exact hbps, ?_⟩
  have : ∀ {l1 l2 : List MatchRec}, List.Forall₂ (RowStep rfull rplay) l1 l2 →
      (∀ m ∈ l1, ∀ r i, m.bracketPosition = BracketPos.R r i → m.roundNumber = r) →
      (∀ m ∈ l2, ∀ r i, m.bracketPosition = BracketPos.R r i → m.roundNumber = r) := by
    intro l1 l2 hf
    induction hf with
    | nil => intro _ m hm; simp at hm
    | cons hab htail ih =>
      rename_i a b l1' l2'
      intro hsrc m hm r i hmbp
      rcases List.mem_cons.mp hm with rfl | hm2
      · rw [hab.2.2.1]
        exact hsrc a (by simp) r i (by rw [← hab.2.1]; exact hmbp)
      · exact ih (fun x hx => hsrc x (by simp [hx])) m hm2 r i hmbp
  exact this h.2.2 hrc

theorem StateStep_autoComplete (rfull rplay : Nat) (st : TState) :
    StateStep rfull rplay st (autoCompleteTournament st) := by
  unfold autoCompleteTournament
  split
  · exact ⟨rfl, rfl, List.forall₂_same.mpr (fun a _ => RowStep_rfl rfull rplay a)⟩
  · exact StateStep_rfl rfull rplay st

theorem findByBP_eq_some_mem {st : TState} {bp : BracketPos} {a : MatchRec}
    (h : findByBP st bp = some a) : a ∈ st.matchRows ∧ a.bracketPosition = bp :=
  ⟨List.mem_of_find?_eq_some h, by simpa using List.find?_some h⟩

theorem findById_eq_some_mem {st : TState} {mid : Nat} {a : MatchRec}
    (h : findById st mid = some a) : a ∈ st.matchRows ∧ a.id = mid :=
  ⟨List.mem_of_find?_eq_some h, by simpa using List.find?_some h⟩

theorem find?_of_mem_nodup {α β : Type} [DecidableEq β] (f : α → β) :
    ∀ (l : List α), (l.map f).Nodup → ∀ a ∈ l, l.find? (fun x => f x == f a) = some a := by
  intro l
  induction l with
  | nil => intro _ a ha; simp at ha
  | cons b t ih =>
    intro hnd a ha
    rcases List.mem_cons.mp ha with rfl | hat
    · simp [List.find?_cons]
    · have hne : f b ≠ f a := by
        intro heq
        have : f a ∈ t.map f := List.mem_map_of_mem f hat
        rw [← heq] at this
        exact (List.nodup_cons.mp (by simpa using hnd)).1 this
      have : (f b == f a) = false := by simpa using hne
      simp only [List.find?_cons, this]
      exact ih (List.nodup_cons.mp (by simpa using hnd)).2 a hat

theorem findById_of_mem {st : TState} (hids : (st.matchRows.map (fun m => m.id)).Nodup)
    {a : MatchRec} (ha : a ∈ st.matchRows) : findById st a.id = some a := by
  have h := find?_of_mem_nodup (fun m => m.id) st.matchRows hids a ha
  simpa [findById] using h

theorem findByBP_of_mem {st : TState} (hbps : (st.matchRows.map (fun m => m.bracketPosition)).Nodup)
    {a : MatchRec} (ha : a ∈ st.matchRows) : findByBP st a.bracketPosition = some a := by
  have h := find?_of_mem_nodup (fun m => m.bracketPosition) st.matchRows hbps a ha
  simpa [findByBP] using h

theorem eq_of_id_eq {st : TState} (hids : (st.matchRows.map (fun m => m.id)).Nodup)
    {a b : MatchRec} (ha : a ∈ st.matchRows) (hb : b ∈ st.matchRows) (h : a.id = b.id) :
    a = b :=
  List.inj_on_of_nodup_map hids ha hb h

theorem singlesMono : ∀ fuel : Nat,
    (∀ st m, WellKeyed st →
      StateStep m.roundNumber m.roundNumber st (advanceWinnerInBracket fuel st m)) ∧
    (∀ st r i, WellKeyed st →
      StateStep (r-1) r st (checkByeCascade fuel st (BracketPos.R r i))) ∧
    (∀ st m, WellKeyed st →
      StateStep m.roundNumber m.roundNumber st (checkNextMatchCascade fuel st m)) := by
  intro fuel
  induction fuel with
  | zero =>
    exact ⟨fun st m _ => StateStep_rfl _ _ st, fun st r i _ => StateStep_rfl _ _ st,
      fun st m _ => StateStep_rfl _ _ st⟩
  | succ fuel ih =>
    obtain ⟨ihA, ihC, ihN⟩ := ih
    refine ⟨?_, ?_, ?_⟩
    · -- advanceWinnerInBracket
      intro st m hwk
      unfold advanceWinnerInBracket
      dsimp only
      cases hbp : m.bracketPosition with
      | R r cur =>
        dsimp only
        rcases hfind : findByBP st (BracketPos.R (m.roundNumber + 1) ((cur + 1) / 2)) with _ | nextMatch
        · exact StateStep_autoComplete _ _ st
        · dsimp only
          by_cases hmem : m.winnerId ∈ nextMatch.players.map (fun p => some p.playerId)
        
          · rw [if_pos hmem]
            exact StateStep_rfl _ _ st
          · rw [if_neg hmem]
            cases hw : m.winnerId with
            | none => exact StateStep_rfl _ _ st
            | some w =>
              dsimp only
              obtain ⟨hnm_mem, hnm_bp⟩ := findByBP_eq_some_mem hfind
              have step1 : StateStep m.roundNumber m.roundNumber st
                  (updateById st nextMatch.id (fun n =>
                    { n with players := n.players ++
                        [{ playerId := w, position := if cur % 2 = 1 then 1 else 2 }] })) := by
                apply StateStep_updateById
                · intro a; exact ⟨rfl, rfl, rfl, rfl⟩
                · intro a; exact ⟨_, rfl⟩
                · intro a ha haid
                  have ha2 : a = nextMatch := eq_of_id_eq hwk.1 ha hnm_mem haid
                  subst ha2
                  rw [hnm_bp]
                  simp [bpRoundLe]
                · intro a ha haid hlow
                  have ha2 : a = nextMatch := eq_of_id_eq hwk.1 ha hnm_mem haid
                  subst ha2
                  rw [hnm_bp] at hlow
                  simp [bpRoundLe] at hlow
              have hwk1 := WellKeyed_of_StateStep hwk step1
              have step2 := ihC _ (m.roundNumber + 1) ((cur + 1) / 2) hwk1
              exact StateStep_trans step1 (StateStep_weaken (by omega) (by omega) step2)
      | WR r i => exact StateStep_rfl _ _ st
      | LR r i => exact StateStep_rfl _ _ st
      | GF1 => exact StateStep_rfl _ _ st
      | GF2 => exact StateStep_rfl _ _ st
      | RR n => exact StateStep_rfl _ _ st
      | W r i => exact StateStep_rfl _ _ st
    · -- checkByeCascade
      intro st r i hwk
      unfold checkByeCascade
      dsimp only
      by_cases hr : r ≤ 1
      · rw [if_pos hr]; exact StateStep_rfl _ _ st
      · rw [if_neg hr]
        split
        · exact StateStep_rfl _ _ st
        · rcases hfind : findByBP st (BracketPos.R r i) with _ | mtch
          · exact StateStep_rfl _ _ st
          · dsimp only
            obtain ⟨hm_mem, hm_bp⟩ := findByBP_eq_some_mem hfind
            have hm_rn : mtch.roundNumber = r := hwk.2.2 mtch hm_mem r i hm_bp
            rcases hpl : mtch.players with _ | ⟨p, ptail⟩
            · -- players = []
              cases hstat : mtch.status with
              | waitingForPlayers => exact StateStep_rfl _ _ st
              | inProgress => exact StateStep_rfl _ _ st
              | completed => exact StateStep_rfl _ _ st
              | disputed => exact StateStep_rfl _ _ st
              | cancelled => exact StateStep_rfl _ _ st
              | pending =>
                have step1 : StateStep (r-1) r st
                    (updateById st mtch.id (fun n => { n with status := MatchStatus.completed })) := by
                  apply StateStep_updateById
                  · intro a; exact ⟨rfl, rfl, rfl, rfl⟩
                  · intro a; exact ⟨[], by simp⟩
                  · intro a ha haid
                    have ha2 : a = mtch := eq_of_id_eq hwk.1 ha hm_mem haid
                    subst ha2
                    rw [hm_bp]
                    simp [bpRoundLe]
                    omega
                  · intro a _ _ _; rfl
                have hwk1 := WellKeyed_of_StateStep hwk step1
                have hself : findById st mtch.id = some mtch := findById_of_mem hwk.1 hm_mem
                have hrefr : findById (updateById st mtch.id (fun n =>
                    { n with status := MatchStatus.completed })) mtch.id =
                    some { mtch with status := MatchStatus.completed } := by
                  rw [findById_updateById st mtch.id mtch.id
                    (fun n => { n with status := MatchStatus.completed }) (fun a => rfl), hself]
                  simp
                dsimp only
                rw [hrefr]
                have step2 := ihN _ { mtch with status := MatchStatus.completed } hwk1
                exact StateStep_trans step1 (StateStep_weaken
                  (show r - 1 ≤ mtch.roundNumber by rw [hm_rn]; omega)
                  (show r ≤ mtch.roundNumber by rw [hm_rn]) step2)
            · rcases ptail with _ | ⟨q, qtail⟩
              · -- players = [p]
                cases hstat : mtch.status with
                | waitingForPlayers => exact StateStep_rfl _ _ st
                | inProgress => exact StateStep_rfl _ _ st
                | completed => exact StateStep_rfl _ _ st
                | disputed => exact StateStep_rfl _ _ st
                | cancelled => exact StateStep_rfl _ _ st
                | pending =>
                  have step1 : StateStep (r-1) r st
                      (updateById st mtch.id (fun n =>
                        { n with status := MatchStatus.completed, winnerId := some p.playerId })) := by
                    apply StateStep_updateById
                    · intro a; exact ⟨rfl, rfl, rfl, rfl⟩
                    · intro a; exact ⟨[], by simp⟩
                    · intro a ha haid
                      have ha2 : a = mtch := eq_of_id_eq hwk.1 ha hm_mem haid
                      subst ha2
                      rw [hm_bp]
                      simp [bpRoundLe]
                      omega
                    · intro a _ _ _; rfl
                  have hwk1 := WellKeyed_of_StateStep hwk step1
                  have hself : findById st mtch.id = some mtch := findById_of_mem hwk.1 hm_mem
                  have hrefr : findById (updateById st mtch.id (fun n =>
                      { n with status := MatchStatus.completed, winnerId := some p.playerId })) mtch.id =
                      some { mtch with status := MatchStatus.completed, winnerId := some p.playerId } := by
                    rw [findById_updateById st mtch.id mtch.id
                      (fun n => { n with status := MatchStatus.completed, winnerId := some p.playerId })
                      (fun a => rfl), hself]
                    simp
                  dsimp only
                  rw [hrefr]
                  have step2 := ihA _ { mtch with status := MatchStatus.completed, winnerId := some p.playerId } hwk1
                  exact StateStep_trans step1 (StateStep_weaken
                    (show r - 1 ≤ mtch.roundNumber by rw [hm_rn]; omega)
                    (show r ≤ mtch.roundNumber by rw [hm_rn]) step2)
              · -- players has >= 2 entries
                cases hstat : mtch.status
                all_goals exact StateStep_rfl _ _ st
    · -- checkNextMatchCascade
      intro st m hwk
      unfold checkNextMatchCascade
      dsimp only
      cases hbp : m.bracketPosition with
      | R r cur =>
        dsimp only
        rcases hfind : findByBP st (BracketPos.R (m.roundNumber + 1) ((cur + 1) / 2)) with _ | nextMatch
        · exact StateStep_rfl _ _ st
        · dsimp only
          obtain ⟨hnm_mem, hnm_bp⟩ := findByBP_eq_some_mem hfind
          rw [hnm_bp]
          have step := ihC st (m.roundNumber + 1) ((cur + 1) / 2) hwk
          exact StateStep_weaken (by omega) (by omega) step
      | WR r i => exact StateStep_rfl _ _ st
      | LR r i => exact StateStep_rfl _ _ st
      | GF1 => exact StateStep_rfl _ _ st
      | GF2 => exact StateStep_rfl _ _ st
      | RR n => exact StateStep_rfl _ _ st
      | W r i => exact StateStep_rfl _ _ st

theorem findByBP_updateById (st : TState) (mid : Nat) (bp : BracketPos) (f : MatchRec → MatchRec)
    (hf : ∀ a, (f a).bracketPosition = a.bracketPosition) :
    findByBP (updateById st mid f) bp =
      (findByBP st bp).map (fun a => if a.id = mid then f a else a) := by
  show (st.matchRows.map _).find? _ = _
  rw [List.find?_map]
  have hp : ((fun m : MatchRec => m.bracketPosition == bp) ∘ (fun m => if m.id = mid then f m else m)) =
      (fun m : MatchRec => m.bracketPosition == bp) := by
    funext a
    by_cases h : a.id = mid <;> simp [Function.comp, h, hf]
  rw [hp]
  rfl

theorem findByBP_StateStep {rfull rplay : Nat} {st st' : TState}
    (h : StateStep rfull rplay st st') {bp : BracketPos} {a : MatchRec}
    (hfind : findByBP st bp = some a) :
    ∃ b, findByBP st' bp = some b ∧ RowStep rfull rplay a b := by
  rcases find?_forall₂ (RowStep rfull rplay) (fun m => m.bracketPosition == bp)
      (fun x y hr => by simp only [hr.2.1]) h.2.2 with ⟨h1, _⟩ | ⟨x, y, hx, hy, hxy⟩
  · rw [show findByBP st bp = st.matchRows.find? (fun m => m.bracketPosition == bp) from rfl] at hfind
    rw [h1] at hfind
    cases hfind
  · have hax : x = a := by
      rw [show findByBP st bp = st.matchRows.find? (fun m => m.bracketPosition == bp) from rfl] at hfind
      rw [hx] at hfind
      exact Option.some.inj hfind
    subst hax
    exact ⟨y, hy, hxy⟩

/-- Idempotence of the singles advancement: advancing the winner of a
completed match into its destination leaves exactly one occupant record
for that competitor there, and running the same advancement a second time
takes no further action (the state is unchanged, for any fuel). -/
theorem advanceWinner_idempotent (fuel fuel2 : Nat) (st : TState) (m : MatchRec)
    (r cur w : Nat) (dest : MatchRec)
    (hwk : WellKeyed st)
    (hbp : m.bracketPosition = BracketPos.R r cur)
    (hw : m.winnerId = some w)
    (hdest : findByBP st (BracketPos.R (m.roundNumber + 1) ((cur + 1) / 2)) = some dest)
    (hnotin : w ∉ dest.players.map (fun p => p.playerId)) :
    (∃ dest1, findByBP (advanceWinnerInBracket (fuel+1) st m)
        (BracketPos.R (m.roundNumber + 1) ((cur + 1) / 2)) = some dest1 ∧
      (dest1.players.filter (fun p => p.playerId == w)).length = 1) ∧
    advanceWinnerInBracket fuel2 (advanceWinnerInBracket (fuel+1) st m) m =
      advanceWinnerInBracket (fuel+1) st m := by
  obtain ⟨hdest_mem, hdest_bp⟩ := findByBP_eq_some_mem hdest
  have hmem' : m.winnerId ∉ dest.players.map (fun p => some p.playerId) := by
    rw [hw]
    intro hx
    apply hnotin
    simp only [List.mem_map] at hx ⊢
    obtain ⟨p, hp, hpe⟩ := hx
    exact ⟨p, hp, by injection hpe⟩
  have hstF : advanceWinnerInBracket (fuel+1) st m =
      checkByeCascade fuel
        (updateById st dest.id (fun n =>
          { n with players := n.players ++
              [{ playerId := w, position := if cur % 2 = 1 then 1 else 2 }] }))
        (BracketPos.R (m.roundNumber + 1) ((cur + 1) / 2)) := by
    unfold advanceWinnerInBracket
    dsimp only
    rw [hbp]
    dsimp only
    rw [hdest]
    dsimp only
    rw [if_neg hmem', hw]
  have step1 : StateStep m.roundNumber m.roundNumber st
      (updateById st dest.id (fun n =>
        { n with players := n.players ++
            [{ playerId := w, position := if cur % 2 = 1 then 1 else 2 }] })) := by
    apply StateStep_updateById
    · intro a; exact ⟨rfl, rfl, rfl, rfl⟩
    · intro a; exact ⟨_, rfl⟩
    · intro a ha haid
      have ha2 : a = dest := eq_of_id_eq hwk.1 ha hdest_mem haid
      subst ha2
      rw [hdest_bp]
      simp [bpRoundLe]
    · intro a ha haid hlow
      have ha2 : a = dest := eq_of_id_eq hwk.1 ha hdest_mem haid
      subst ha2
      rw [hdest_bp] at hlow
      simp [bpRoundLe] at hlow
  have hwk1 := WellKeyed_of_StateStep hwk step1
  have hf1 : findByBP (updateById st dest.id (fun n =>
      { n with players := n.players ++
          [{ playerId := w, position := if cur % 2 = 1 then 1 else 2 }] }))
      (BracketPos.R (m.roundNumber + 1) ((cur + 1) / 2)) =
      some { dest with players := dest.players ++
          [{ playerId := w, position := if cur % 2 = 1 then 1 else 2 }] } := by
    rw [findByBP_updateById st dest.id _ (fun n =>
      { n with players := n.players ++
          [{ playerId := w, position := if cur % 2 = 1 then 1 else 2 }] }) (fun a => rfl), hdest]
    simp
  have step2 := (singlesMono fuel).2.1
    (updateById st dest.id (fun n =>
      { n with players := n.players ++
          [{ playerId := w, position := if cur % 2 = 1 then 1 else 2 }] }))
    (m.roundNumber + 1) ((cur + 1) / 2) hwk1
  obtain ⟨dest2, hfin2, hrs2⟩ := findByBP_StateStep step2 hf1
  have hpl2 : dest2.players = dest.players ++
      [{ playerId := w, position := if cur % 2 = 1 then 1 else 2 }] := by
    have := hrs2.2.2.2.2.2.2
    rw [this]
    rw [hdest_bp]
    simp [bpRoundLe]
  have hcount : (dest2.players.filter (fun p => p.playerId == w)).length = 1 := by
    rw [hpl2, List.filter_append]
    have h0 : dest.players.filter (fun p => p.playerId == w) = [] := by
      rw [List.filter_eq_nil_iff]
      intro p hp
      simp only [beq_iff_eq]
      intro he
      exact hnotin (by simp only [List.mem_map]; exact ⟨p, hp, he⟩)
    rw [h0]
    simp
  constructor
  · exact ⟨dest2, by rw [hstF]; exact hfin2, hcount⟩
  · match fuel2 with
    | 0 => rfl
    | fuel2' + 1 =>
      rw [hstF]
      unfold advanceWinnerInBracket
      dsimp only
      rw [hbp]
      dsimp only
      rw [hfin2]
      dsimp only
      rw [if_pos (by
        rw [hw]
        simp only [List.mem_map]
        refine ⟨{ playerId := w, position := if cur % 2 = 1 then 1 else 2 }, ?_, rfl⟩
        rw [hpl2]
        simp)]

/-- C7: placement into a downstream match is idempotent: (1) advancing
the winner of a completed singles match into its destination twice leaves
exactly one occupant record for that competitor there, the second run
taking no further action; (2) `_place_player_in_match` with the player
already among the destination's occupants creates no duplicate record and
takes no further action; (3) `_advance_team_in_bracket` with the winning
team already in the destination likewise changes nothing. -/
theorem C7_placement_idempotent :
    (∀ (fuel fuel2 : Nat) (st : TState) (m : MatchRec) (r cur w : Nat) (dest : MatchRec),
      WellKeyed st →
      m.bracketPosition = BracketPos.R r cur →
      m.winnerId = some w →
      findByBP st (BracketPos.R (m.roundNumber + 1) ((cur + 1) / 2)) = some dest →
      w ∉ dest.players.map (fun p => p.playerId) →
      ((∃ dest1, findByBP (advanceWinnerInBracket (fuel+1) st m)
          (BracketPos.R (m.roundNumber + 1) ((cur + 1) / 2)) = some dest1 ∧
        (dest1.players.filter (fun p => p.playerId == w)).length = 1) ∧
      advanceWinnerInBracket fuel2 (advanceWinnerInBracket (fuel+1) st m) m =
        advanceWinnerInBracket (fuel+1) st m)) ∧
    (∀ (fuel : Nat) (st : TState) (pid pos : Nat) (bp : BracketPos) (target : MatchRec),
      findByBP st bp = some target →
      pid ∈ target.players.map (fun p => p.playerId) →
      placePlayerInMatch (fuel+1) st pid bp pos = st) ∧
    (∀ (fuel : Nat) (st : TState) (m : MatchRec) (wt r cur : Nat) (nextMatch : MatchRec),
      m.winnerTeamId = some wt →
      m.bracketPosition = BracketPos.R r cur →
      findByBP st (BracketPos.R (m.roundNumber + 1) ((cur + 1) / 2)) = some nextMatch →
      some wt ∈ nextMatch.players.filterMap (fun p => p.teamId.map some) →
      advanceTeamInBracket (fuel+1) st m = st) := by
  refine ⟨advanceWinner_idempotent, ?_, ?_⟩
  · intro fuel st pid pos bp target hfind hmem
    unfold placePlayerInMatch
    dsimp only
    rw [hfind]
    dsimp only
    rw [if_pos hmem]
  · intro fuel st m wt r cur nextMatch hwt hbp hfind hmem
    unfold advanceTeamInBracket
    dsimp only
    rw [hwt]
    dsimp only
    rw [hbp]
    dsimp only
    rw [hfind]
    dsimp only
    rw [if_pos hmem]

/-- C7 witness: advancing winner 1 of completed `R1M1` into empty `R2M1`
places exactly one record for player 1, a second advancement is a no-op;
placing an already-present player is a no-op; advancing an already-placed
winning team is a no-op. -/
theorem C7_placement_idempotent_witness :
    (placePlayerInMatch 4
      { matchRows := [
          { id := 1, roundNumber := 2, matchNumber := 1,
            bracketPosition := BracketPos.R 2 1, status := MatchStatus.pending,
            players := [{ playerId := 7, position := 1 }] }],
        tstatus := TournamentStatus.inProgress } 7 (BracketPos.R 2 1) 2 =
      { matchRows := [
          { id := 1, roundNumber := 2, matchNumber := 1,
            bracketPosition := BracketPos.R 2 1, status := MatchStatus.pending,
            players := [{ playerId := 7, position := 1 }] }],
        tstatus := TournamentStatus.inProgress }) ∧
    (advanceTeamInBracket 4
      { matchRows := [
          { id := 1, roundNumber := 1, matchNumber := 1,
            bracketPosition := BracketPos.R 1 1, status := MatchStatus.completed,
            winnerTeamId := some 5,
            players := [{ playerId := 7, position := 1, teamId := some 5, teamPosition := some 1 },
                        { playerId := 8, position := 1, teamId := some 5, teamPosition := some 2 }] },
          { id := 2, roundNumber := 2, matchNumber := 2,
            bracketPosition := BracketPos.R 2 1, status := MatchStatus.pending,
            players := [{ playerId := 7, position := 1, teamId := some 5, teamPosition := some 1 },
                        { playerId := 8, position := 1, teamId := some 5, teamPosition := some 2 }] }],
        tstatus := TournamentStatus.inProgress }
      { id := 1, roundNumber := 1, matchNumber := 1,
        bracketPosition := BracketPos.R 1 1, status := MatchStatus.completed,
        winnerTeamId := some 5,
        players := [{ playerId := 7, position := 1, teamId := some 5, teamPosition := some 1 },
                    { playerId := 8, position := 1, teamId := some 5, teamPosition := some 2 }] } =
      { matchRows := [
          { id := 1, roundNumber := 1, matchNumber := 1,
            bracketPosition := BracketPos.R 1 1, status := MatchStatus.completed,
            winnerTeamId := some 5,
            players := [{ playerId := 7, position := 1, teamId := some 5, teamPosition := some 1 },
                        { playerId := 8, position := 1, teamId := some 5, teamPosition := some 2 }] },
          { id := 2, roundNumber := 2, matchNumber := 2,
            bracketPosition := BracketPos.R 2 1, status := MatchStatus.pending,
            players := [{ playerId := 7, position := 1, teamId := some 5, teamPosition := some 1 },
                        { playerId := 8, position := 1, teamId := some 5, teamPosition := some 2 }] }],
        tstatus := TournamentStatus.inProgress }) ∧
    (∃ dest1, findByBP (advanceWinnerInBracket 4
        { matchRows := [
            { id := 1, roundNumber := 1, matchNumber := 1,
              bracketPosition := BracketPos.R 1 1, status := MatchStatus.completed,
              winnerId := some 1,
              players := [{ playerId := 1, position := 1 }, { playerId := 2, position := 2 }] },
            { id := 2, roundNumber := 1, matchNumber := 2,
              bracketPosition := BracketPos.R 1 2, status := MatchStatus.pending,
              players := [{ playerId := 3, position := 1 }, { playerId := 4, position := 2 }] },
            { id := 3, roundNumber := 2, matchNumber := 3,
              bracketPosition := BracketPos.R 2 1, status := MatchStatus.pending }],
          tstatus := TournamentStatus.inProgress }
        { id := 1, roundNumber := 1, matchNumber := 1,
          bracketPosition := BracketPos.R 1 1, status := MatchStatus.completed,
          winnerId := some 1,
          players := [{ playerId := 1, position := 1 }, { playerId := 2, position := 2 }] })
        (BracketPos.R 2 1) = some dest1 ∧
      (dest1.players.filter (fun p => p.playerId == 1)).length = 1) ∧
    advanceWinnerInBracket 9 (advanceWinnerInBracket 4
        { matchRows := [
            { id := 1, roundNumber := 1, matchNumber := 1,
              bracketPosition := BracketPos.R 1 1, status := MatchStatus.completed,
              winnerId := some 1,
              players := [{ playerId := 1, position := 1 }, { playerId := 2, position := 2 }] },
            { id := 2, roundNumber := 1, matchNumber := 2,
              bracketPosition := BracketPos.R 1 2, status := MatchStatus.pending,
              players := [{ playerId := 3, position := 1 }, { playerId := 4, position := 2 }] },
            { id := 3, roundNumber := 2, matchNumber := 3,
              bracketPosition := BracketPos.R 2 1, status := MatchStatus.pending }],
          tstatus := TournamentStatus.inProgress }
        { id := 1, roundNumber := 1, matchNumber := 1,
          bracketPosition := BracketPos.R 1 1, status := MatchStatus.completed,
          winnerId := some 1,
          players := [{ playerId := 1, position := 1 }, { playerId := 2, position := 2 }] })
      { id := 1, roundNumber := 1, matchNumber := 1,
        bracketPosition := BracketPos.R 1 1, status := MatchStatus.completed,
        winnerId := some 1,
        players := [{ playerId := 1, position := 1 }, { playerId := 2, position := 2 }] } =
      advanceWinnerInBracket 4
        { matchRows := [
            { id := 1, roundNumber := 1, matchNumber := 1,
              bracketPosition := BracketPos.R 1 1, status := MatchStatus.completed,
              winnerId := some 1,
              players := [{ playerId := 1, position := 1 }, { playerId := 2, position := 2 }] },
            { id := 2, roundNumber := 1, matchNumber := 2,
              bracketPosition := BracketPos.R 1 2, status := MatchStatus.pending,
              players := [{ playerId := 3, position := 1 }, { playerId := 4, position := 2 }] },
            { id := 3, roundNumber := 2, matchNumber := 3,
              bracketPosition := BracketPos.R 2 1, status := MatchStatus.pending }],
          tstatus := TournamentStatus.inProgress }
        { id := 1, roundNumber := 1, matchNumber := 1,
          bracketPosition := BracketPos.R 1 1, status := MatchStatus.completed,
          winnerId := some 1,
          players := [{ playerId := 1, position := 1 }, { playerId := 2, position := 2 }] } := by
  refine ⟨?_, ?_, ?_⟩
  · exact C7_placement_idempotent.2.1 3
      { matchRows := [
          { id := 1, roundNumber := 2, matchNumber := 1,
            bracketPosition := BracketPos.R 2 1, status := MatchStatus.pending,
            players := [{ playerId := 7, position := 1 }] }],
        tstatus := TournamentStatus.inProgress } 7 2 (BracketPos.R 2 1)
      { id := 1, roundNumber := 2, matchNumber := 1,
        bracketPosition := BracketPos.R 2 1, status := MatchStatus.pending,
        players := [{ playerId := 7, position := 1 }] } rfl (by decide)
  · exact C7_placement_idempotent.2.2 3
      { matchRows := [
          { id := 1, roundNumber := 1, matchNumber := 1,
            bracketPosition := BracketPos.R 1 1, status := MatchStatus.completed,
            winnerTeamId := some 5,
            players := [{ playerId := 7, position := 1, teamId := some 5, teamPosition := some 1 },
                        { playerId := 8, position := 1, teamId := some 5, teamPosition := some 2 }] },
          { id := 2, roundNumber := 2, matchNumber := 2,
            bracketPosition := BracketPos.R 2 1, status := MatchStatus.pending,
            players := [{ playerId := 7, position := 1, teamId := some 5, teamPosition := some 1 },
                        { playerId := 8, position := 1, teamId := some 5, teamPosition := some 2 }] }],
        tstatus := TournamentStatus.inProgress }
      { id := 1, roundNumber := 1, matchNumber := 1,
        bracketPosition := BracketPos.R 1 1, status := MatchStatus.completed,
        winnerTeamId := some 5,
        players := [{ playerId := 7, position := 1, teamId := some 5, teamPosition := some 1 },
                    { playerId := 8, position := 1, teamId := some 5, teamPosition := some 2 }] }
      5 1 1
      { id := 2, roundNumber := 2, matchNumber := 2,
        bracketPosition := BracketPos.R 2 1, status := MatchStatus.pending,
        players := [{ playerId := 7, position := 1, teamId := some 5, teamPosition := some 1 },
                    { playerId := 8, position := 1, teamId := some 5, teamPosition := some 2 }] }
      rfl rfl rfl (by decide)
  · exact C7_placement_idempotent.1 3 9
      { matchRows := [
          { id := 1, roundNumber := 1, matchNumber := 1,
            bracketPosition := BracketPos.R 1 1, status := MatchStatus.completed,
            winnerId := some 1,
            players := [{ playerId := 1, position := 1 }, { playerId := 2, position := 2 }] },
          { id := 2, roundNumber := 1, matchNumber := 2,
            bracketPosition := BracketPos.R 1 2, status := MatchStatus.pending,
            players := [{ playerId := 3, position := 1 }, { playerId := 4, position := 2 }] },
          { id := 3, roundNumber := 2, matchNumber := 3,
            bracketPosition := BracketPos.R 2 1, status := MatchStatus.pending }],
        tstatus := TournamentStatus.inProgress }
      { id := 1, roundNumber := 1, matchNumber := 1,
        bracketPosition := BracketPos.R 1 1, status := MatchStatus.completed,
        winnerId := some 1,
        players := [{ playerId := 1, position := 1 }, { playerId := 2, position := 2 }] }
      1 1 1
      { id := 3, roundNumber := 2, matchNumber := 3,
        bracketPosition := BracketPos.R 2 1, status := MatchStatus.pending }
      (by
        refine ⟨by decide, by decide, ?_⟩
        intro m hm r i hbp
        fin_cases hm <;> simp_all)
      rfl rfl rfl (by decide)

/-- C3: for a not-yet-completed match where the other side has already
reported, a report such that exactly one side claims win completes the match
with winner_id set to the side that claimed win, releases the assigned board
(if any) by setting it available, and invokes the advancement engine
(`advanceDispatch`).  The first conjunct covers the reporter claiming win
against an opponent who reported loss; the second the symmetric case. -/
theorem C3_report_consistent (fuel : Nat) (st : TState) (matchId b : Nat)
    (mtch : MatchRec) (rp op : MatchPlayerRec) (ow : Bool)
    (hfind : findById st matchId = some mtch)
    (hnc : mtch.status ≠ MatchStatus.completed)
    (hrp : mtch.players.find? (fun p => p.playerId == b) = some rp)
    (hteam : rp.teamId = none)
    (hnorep : rp.reportedWin = none)
    (hop : mtch.players.find? (fun p => p.playerId != b) = some op)
    (how : op.reportedWin = some ow) :
    (ow = false →
      reportMatchResult fuel st b true matchId =
        Except.ok (finishReport (advanceDispatch fuel
          (releaseBoardIfAny
            (updateById (setReportedWin st matchId b (some true)) matchId
              (fun n => { n with status := MatchStatus.completed, winnerId := some b }))
            mtch.dartboardId) matchId) matchId) ∧
      (∀ mm ∈ (updateById (setReportedWin st matchId b (some true)) matchId
          (fun n => { n with status := MatchStatus.completed, winnerId := some b })).matchRows,
        mm.id = matchId → mm.status = MatchStatus.completed ∧ mm.winnerId = some b) ∧
      (∀ bid, mtch.dartboardId = some bid →
        ∀ bb ∈ (releaseBoardIfAny
            (updateById (setReportedWin st matchId b (some true)) matchId
              (fun n => { n with status := MatchStatus.completed, winnerId := some b }))
            mtch.dartboardId).boards, bb.id = bid → bb.isAvailable = true)) ∧
    (ow = true →
      reportMatchResult fuel st b false matchId =
        Except.ok (finishReport (advanceDispatch fuel
          (releaseBoardIfAny
            (updateById (setReportedWin st matchId b (some false)) matchId
              (fun n => { n with status := MatchStatus.completed, winnerId := some op.playerId }))
            mtch.dartboardId) matchId) matchId) ∧
      (∀ mm ∈ (updateById (setReportedWin st matchId b (some false)) matchId
          (fun n => { n with status := MatchStatus.completed, winnerId := some op.playerId })).matchRows,
        mm.id = matchId → mm.status = MatchStatus.completed ∧ mm.winnerId = some op.playerId) ∧
      (∀ bid, mtch.dartboardId = some bid →
        ∀ bb ∈ (releaseBoardIfAny
            (updateById (setReportedWin st matchId b (some false)) matchId
              (fun n => { n with status := MatchStatus.completed, winnerId := some op.playerId }))
            mtch.dartboardId).boards, bb.id = bid → bb.isAvailable = true)) := by
  have hrowfact : ∀ (v : Option Bool) (wv : Option Nat),
      ∀ mm ∈ (updateById (setReportedWin st matchId b v) matchId
          (fun n => { n with status := MatchStatus.completed, winnerId := wv })).matchRows,
        mm.id = matchId → mm.status = MatchStatus.completed ∧ mm.winnerId = wv := by
    intro v wv mm hmm hid
    simp only [updateById, setReportedWin, List.mem_map] at hmm
    obtain ⟨a, _, rfl⟩ := hmm
    by_cases h : a.id = matchId <;> simp [h] at hid ⊢
  have hboardfact : ∀ (st2 : TState) (bid : Nat), mtch.dartboardId = some bid →
      ∀ bb ∈ (releaseBoardIfAny st2 mtch.dartboardId).boards, bb.id = bid → bb.isAvailable = true := by
    intro st2 bid hdb bb hbb hbid
    rw [hdb] at hbb
    simp only [releaseBoardIfAny, updateBoard, List.mem_map] at hbb
    obtain ⟨a, _, rfl⟩ := hbb
    by_cases h : a.id = bid <;> simp [h] at hbid ⊢
  constructor
  · intro how2
    subst how2
    refine ⟨?_, hrowfact (some true) (some b), fun bid hdb => hboardfact _ bid hdb⟩
    unfold reportMatchResult
    rw [hfind]
    dsimp only
    rw [if_neg hnc, hrp]
    dsimp only
    rw [hteam]
    dsimp only
    rw [if_neg (by rw [hnorep]; simp), hop]
    dsimp only
    rw [how]
    dsimp only
    simp
  · intro how2
    subst how2
    refine ⟨?_, hrowfact (some false) (some op.playerId), fun bid hdb => hboardfact _ bid hdb⟩
    unfold reportMatchResult
    rw [hfind]
    dsimp only
    rw [if_neg hnc, hrp]
    dsimp only
    rw [hteam]
    dsimp only
    rw [if_neg (by rw [hnorep]; simp), hop]
    dsimp only
    rw [how]
    dsimp only
    simp

/-- C3 witness: in a one-match state where side 2 has already reported a
loss, side 1 reporting a win completes the match: the endpoint returns
success with the completed state. -/
theorem C3_report_consistent_witness :
    ∃ stf, reportMatchResult 5
      { matchRows := [
          { id := 1, roundNumber := 1, matchNumber := 1,
            bracketPosition := BracketPos.R 1 1, status := MatchStatus.inProgress,
            dartboardId := some 7,
            players := [
              { playerId := 1, position := 1 },
              { playerId := 2, position := 2, reportedWin := some false }] }],
        boards := [{ id := 7, number := 1, isAvailable := false }],
        tstatus := TournamentStatus.inProgress } 1 true 1 = Except.ok stf :=
  ⟨_, ((C3_report_consistent 5
      { matchRows := [
          { id := 1, roundNumber := 1, matchNumber := 1,
            bracketPosition := BracketPos.R 1 1, status := MatchStatus.inProgress,
            dartboardId := some 7,
            players := [
              { playerId := 1, position := 1 },
              { playerId := 2, position := 2, reportedWin := some false }] }],
        boards := [{ id := 7, number := 1, isAvailable := false }],
        tstatus := TournamentStatus.inProgress } 1 1
      { id := 1, roundNumber := 1, matchNumber := 1,
        bracketPosition := BracketPos.R 1 1, status := MatchStatus.inProgress,
        dartboardId := some 7,
        players := [
          { playerId := 1, position := 1 },
          { playerId := 2, position := 2, reportedWin := some false }] }
      { playerId := 1, position := 1 }
      { playerId := 2, position := 2, reportedWin := some false }
      false rfl (by decide) rfl rfl rfl rfl rfl).1 rfl).1⟩

/-- C4: for a not-yet-completed match where the other side has already
reported, a report agreeing with the other side (both claim win, or both claim
loss) transitions the match to `disputed` and resets both sides' reported_win
to none.  First conjunct: singles path; second conjunct: doubles (team) path
where the opposing team's reporter is found and no teammate has reported. -/
theorem C4_report_dispute (fuel : Nat) (st : TState) (matchId b : Nat)
    (mtch : MatchRec) (ow : Bool)
    (hfind : findById st matchId = some mtch)
    (hnc : mtch.status ≠ MatchStatus.completed) :
    (∀ (rp op : MatchPlayerRec),
      mtch.players.find? (fun p => p.playerId == b) = some rp →
      rp.teamId = none →
      rp.reportedWin = none →
      mtch.players.find? (fun p => p.playerId != b) = some op →
      op.reportedWin = some ow →
      reportMatchResult fuel st b ow matchId =
        Except.ok (finishReport
          (setReportedWin
            (setReportedWin
              (updateById (setReportedWin st matchId b (some ow)) matchId
                (fun n => { n with status := MatchStatus.disputed }))
              matchId b none)
            matchId op.playerId none) matchId) ∧
      (∀ mm ∈ (setReportedWin
            (setReportedWin
              (updateById (setReportedWin st matchId b (some ow)) matchId
                (fun n => { n with status := MatchStatus.disputed }))
              matchId b none)
            matchId op.playerId none).matchRows,
        mm.id = matchId → mm.status = MatchStatus.disputed ∧
          ∀ p ∈ mm.players, (p.playerId = b ∨ p.playerId = op.playerId) →
            p.reportedWin = none)) ∧
    (∀ (rp otr : MatchPlayerRec) (myTeamId otherTeamId : Nat),
      mtch.players.find? (fun p => p.playerId == b) = some rp →
      rp.teamId = some myTeamId →
      (mtch.players.filter (fun p => p.teamId == some myTeamId)).any
        (fun p => p.reportedWin.isSome) = false →
      (mtch.players.filter (fun p => p.teamId.isSome && p.teamId != some myTeamId)).find?
        (fun p => p.reportedWin.isSome) = some otr →
      otr.teamId = some otherTeamId →
      otr.reportedWin = some ow →
      reportMatchResult fuel st b ow matchId =
        Except.ok (finishReport
          (setReportedWin
            (setReportedWin
              (updateById (setReportedWin st matchId b (some ow)) matchId
                (fun n => { n with status := MatchStatus.disputed }))
              matchId b none)
            matchId otr.playerId none) matchId) ∧
      (∀ mm ∈ (setReportedWin
            (setReportedWin
              (updateById (setReportedWin st matchId b (some ow)) matchId
                (fun n => { n with status := MatchStatus.disputed }))
              matchId b none)
            matchId otr.playerId none).matchRows,
        mm.id = matchId → mm.status = MatchStatus.disputed ∧
          ∀ p ∈ mm.players, (p.playerId = b ∨ p.playerId = otr.playerId) →
            p.reportedWin = none)) := by
  have hrowfact : ∀ (oid : Nat),
      ∀ mm ∈ (setReportedWin
            (setReportedWin
              (updateById (setReportedWin st matchId b (some ow)) matchId
                (fun n => { n with status := MatchStatus.disputed }))
              matchId b none)
            matchId oid none).matchRows,
        mm.id = matchId → mm.status = MatchStatus.disputed ∧
          ∀ p ∈ mm.players, (p.playerId = b ∨ p.playerId = oid) →
            p.reportedWin = none := by
    intro oid mm hmm hid
    simp only [setReportedWin, updateById, List.mem_map] at hmm
    obtain ⟨a, ⟨a2, ⟨a3, ⟨a4, ha4, rfl⟩, rfl⟩, rfl⟩, rfl⟩ := hmm
    by_cases h : a4.id = matchId
    · refine ⟨by simp [h], ?_⟩
      intro p hp hpid
      simp only [h, if_true, List.mem_map] at hp
      obtain ⟨q, ⟨q2, ⟨q3, hq3, rfl⟩, rfl⟩, rfl⟩ := hp
      by_cases hb : q3.playerId = b <;> by_cases ho : q3.playerId = oid <;>
        simp_all
    · simp only [h, if_false] at hid
  constructor
  · intro rp op hrp hteam hnorep hop how
    refine ⟨?_, hrowfact op.playerId⟩
    unfold reportMatchResult
    rw [hfind]
    dsimp only
    rw [if_neg hnc, hrp]
    dsimp only
    rw [hteam]
    dsimp only
    rw [if_neg (by rw [hnorep]; simp), hop]
    dsimp only
    rw [how]
    dsimp only
    cases ow <;> simp
  · intro rp otr myTeamId otherTeamId hrp hteam hnoteam hotr hotid hoow
    refine ⟨?_, hrowfact otr.playerId⟩
    unfold reportMatchResult
    rw [hfind]
    dsimp only
    rw [if_neg hnc, hrp]
    dsimp only
    rw [hteam]
    dsimp only
    rw [if_neg (by rw [hnoteam]; simp), hotr]
    dsimp only
    rw [hotid, hoow]
    dsimp only
    cases ow <;> simp

theorem C4_report_dispute_witness :
    ∃ stf, reportMatchResult 5
      { matchRows := [
          { id := 1, roundNumber := 1, matchNumber := 1,
            bracketPosition := BracketPos.R 1 1, status := MatchStatus.inProgress,
            dartboardId := none,
            players := [
              { playerId := 1, position := 1 },
              { playerId := 2, position := 2, reportedWin := some true }] }],
        boards := [],
        tstatus := TournamentStatus.inProgress } 1 true 1 = Except.ok stf :=
  ⟨_, ((C4_report_dispute 5
      { matchRows := [
          { id := 1, roundNumber := 1, matchNumber := 1,
            bracketPosition := BracketPos.R 1 1, status := MatchStatus.inProgress,
            dartboardId := none,
            players := [
              { playerId := 1, position := 1 },
              { playerId := 2, position := 2, reportedWin := some true }] }],
        boards := [],
        tstatus := TournamentStatus.inProgress } 1 1
      { id := 1, roundNumber := 1, matchNumber := 1,
        bracketPosition := BracketPos.R 1 1, status := MatchStatus.inProgress,
        dartboardId := none,
        players := [
          { playerId := 1, position := 1 },
          { playerId := 2, position := 2, reportedWin := some true }] }
      true rfl (by decide)).1
      { playerId := 1, position := 1 }
      { playerId := 2, position := 2, reportedWin := some true }
      rfl rfl rfl rfl rfl).1⟩

theorem checkDoubleElimByeCascade_gf2 (fuel : Nat) (st : TState) :
    checkDoubleElimByeCascade fuel st BracketPos.GF2 = st := by
  cases fuel <;> rfl

theorem autoCompleteTournament_matchRows (st : TState) :
    (autoCompleteTournament st).matchRows = st.matchRows := by
  unfold autoCompleteTournament
  split <;> rfl

/-- C6: grand-final protocol.  If the completed `GF1` match's winner occupied
slot 1 (winners-bracket side), the pending `GF2` is cancelled and the
tournament auto-completes.  If the winner occupied slot 2 (losers-bracket
side), the loser is placed into `GF2` slot 1 and the winner into `GF2`
slot 2.  Completing `GF2` (`advanceGf2`) completes the tournament, making
its winner champion. -/
theorem C6_grand_final (fuel : Nat) (st : TState) (m gf2 : MatchRec) (w : Nat)
    (hw : m.winnerId = some w)
    (hgf2 : findByBP st BracketPos.GF2 = some gf2) :
    (∀ wp, m.players.find? (fun p => p.playerId == w) = some wp →
      wp.position = 1 →
      gf2.status = MatchStatus.pending →
      advanceGf1 (fuel + 1) st m =
        autoCompleteTournament
          (updateById st gf2.id (fun n => { n with status := MatchStatus.cancelled })) ∧
      (st.tstatus = TournamentStatus.inProgress →
        (advanceGf1 (fuel + 1) st m).tstatus = TournamentStatus.completed) ∧
      (∀ mm ∈ (advanceGf1 (fuel + 1) st m).matchRows, mm.id = gf2.id →
        mm.status = MatchStatus.cancelled)) ∧
    (∀ wp l, m.players.find? (fun p => p.playerId == w) = some wp →
      wp.position = 2 →
      getLoserId m = some l →
      gf2.players = [] →
      l ≠ w →
      advanceGf1 (fuel + 2) st m =
        updateById
          (updateById st gf2.id (fun n =>
            { n with players := n.players ++ [{ playerId := l, position := 1 }] }))
          gf2.id (fun n =>
            { n with players := n.players ++ [{ playerId := w, position := 2 }] }) ∧
      findByBP (advanceGf1 (fuel + 2) st m) BracketPos.GF2 =
        some { gf2 with players :=
          [{ playerId := l, position := 1 }, { playerId := w, position := 2 }] }) ∧
    advanceGf2 st = autoCompleteTournament st := by
  refine ⟨?_, ?_, rfl⟩
  · intro wp hfw hwp1 hpend
    have heq : advanceGf1 (fuel + 1) st m =
        autoCompleteTournament
          (updateById st gf2.id (fun n => { n with status := MatchStatus.cancelled })) := by
      unfold advanceGf1
      rw [hw]
      dsimp only
      rw [hfw]
      rw [if_pos (by simp [hwp1]), hgf2]
      dsimp only
      rw [if_pos hpend]
    refine ⟨heq, ?_, ?_⟩
    · intro hst
      rw [heq]
      simp [autoCompleteTournament, updateById, hst]
    · intro mm hmm hid
      rw [heq, autoCompleteTournament_matchRows] at hmm
      simp only [updateById, List.mem_map] at hmm
      obtain ⟨a, ha, rfl⟩ := hmm
      by_cases h : a.id = gf2.id
      · simp [h]
      · simp only [h, if_false] at hid
  · intro wp l hfw hwp2 hl hempty hlw
    have h1 : placePlayerInMatch (fuel + 1) st l BracketPos.GF2 1 =
        updateById st gf2.id (fun n =>
          { n with players := n.players ++ [{ playerId := l, position := 1 }] }) := by
      unfold placePlayerInMatch
      rw [hgf2]
      dsimp only
      rw [if_neg (by rw [hempty]; simp)]
      exact checkDoubleElimByeCascade_gf2 fuel _
    have h2 : findByBP (updateById st gf2.id (fun n =>
          { n with players := n.players ++ [{ playerId := l, position := 1 }] }))
        BracketPos.GF2 =
        some { gf2 with players := gf2.players ++ [{ playerId := l, position := 1 }] } := by
      rw [findByBP_updateById st gf2.id BracketPos.GF2 (fun n =>
        { n with players := n.players ++ [{ playerId := l, position := 1 }] })
        (fun a => rfl), hgf2]
      simp
    have heq : advanceGf1 (fuel + 2) st m =
        updateById
          (updateById st gf2.id (fun n =>
            { n with players := n.players ++ [{ playerId := l, position := 1 }] }))
          gf2.id (fun n =>
            { n with players := n.players ++ [{ playerId := w, position := 2 }] }) := by
      unfold advanceGf1
      rw [hw]
      dsimp only
      rw [hfw]
      rw [if_neg (by simp [hwp2]), hl]
      dsimp only
      rw [h1]
      unfold placePlayerInMatch
      rw [h2]
      dsimp only
      rw [if_neg (by simp [hempty]; exact fun h => hlw h.symm)]
      exact checkDoubleElimByeCascade_gf2 fuel _
    refine ⟨heq, ?_⟩
    rw [heq]
    rw [findByBP_updateById _ gf2.id BracketPos.GF2 (fun n =>
      { n with players := n.players ++ [{ playerId := w, position := 2 }] })
      (fun a => rfl)]
    rw [findByBP_updateById st gf2.id BracketPos.GF2 (fun n =>
      { n with players := n.players ++ [{ playerId := l, position := 1 }] })
      (fun a => rfl), hgf2]
    simp [hempty]

theorem C6_grand_final_witness :
    (advanceGf1 3
      { matchRows := [
          { id := 1, roundNumber := 1, matchNumber := 1,
            bracketPosition := BracketPos.GF1, status := MatchStatus.completed,
            winnerId := some 10,
            players := [
              { playerId := 10, position := 1 },
              { playerId := 20, position := 2 }] },
          { id := 2, roundNumber := 1, matchNumber := 2,
            bracketPosition := BracketPos.GF2, status := MatchStatus.pending }],
        tstatus := TournamentStatus.inProgress }
      { id := 1, roundNumber := 1, matchNumber := 1,
        bracketPosition := BracketPos.GF1, status := MatchStatus.completed,
        winnerId := some 10,
        players := [
          { playerId := 10, position := 1 },
          { playerId := 20, position := 2 }] }).tstatus =
      TournamentStatus.completed :=
  ((C6_grand_final 2
      { matchRows := [
          { id := 1, roundNumber := 1, matchNumber := 1,
            bracketPosition := BracketPos.GF1, status := MatchStatus.completed,
            winnerId := some 10,
            players := [
              { playerId := 10, position := 1 },
              { playerId := 20, position := 2 }] },
          { id := 2, roundNumber := 1, matchNumber := 2,
            bracketPosition := BracketPos.GF2, status := MatchStatus.pending }],
        tstatus := TournamentStatus.inProgress }
      { id := 1, roundNumber := 1, matchNumber := 1,
        bracketPosition := BracketPos.GF1, status := MatchStatus.completed,
        winnerId := some 10,
        players := [
          { playerId := 10, position := 1 },
          { playerId := 20, position := 2 }] }
      { id := 2, roundNumber := 1, matchNumber := 2,
        bracketPosition := BracketPos.GF2, status := MatchStatus.pending }
      10 rfl rfl).1
    { playerId := 10, position := 1 } rfl rfl rfl).2.1 rfl

/-- C1 counterexample: with 3 entrants the halving chain is `[2, 1]` (three
matches: `R1M1`, `R1M2`, `R2M1`); the bye `R1M2` auto-completes with its
sole occupant as winner, so after play-out every one of the 3 matches is
completed with a winner: 3 decisive matches, not `N - 1 = 2`. -/
theorem C1_decisive_count_counterexample :
    ((playOut 8 (fun m => (m.players.map (fun p => p.playerId)).headD 0) 8
        (startTournament 8 [1, 2, 3])).matchRows.filter
      (fun m => m.winnerId.isSome)).length = 3 ∧
    ((playOut 8 (fun m => (m.players.map (fun p => p.playerId)).headD 0) 8
        (startTournament 8 [1, 2, 3])).matchRows.all
      (fun m => m.status == MatchStatus.completed)) = true ∧
    3 ≠ 3 - 1 := by
  refine ⟨by decide, by decide, by decide⟩

theorem chain_roundSizes (N : Nat) : Chain N (roundSizes N) := by
  induction N using Nat.strong_induction_on with
  | _ N ih =>
    rw [roundSizes_eq]
    by_cases h : N > 1
    · simp only [h, if_true]
      exact ⟨h, rfl, ih ((N + 1) / 2) (by omega)⟩
    · simp only [h, if_false]
      show N ≤ 1
      omega

theorem chain_pos : ∀ (l : List Nat) (prev : Nat), Chain prev l →
    ∀ s ∈ l, 1 ≤ s := by
  intro l
  induction l with
  | nil => intro prev _ s hs; simp at hs
  | cons a t ih =>
    intro prev hc s hs
    obtain ⟨h1, rfl, hct⟩ := hc
    rcases List.mem_cons.mp hs with rfl | hst
    · omega
    · exact ih _ hct s hst

theorem chain_count : ∀ (l : List Nat) (prev : Nat), Chain prev l → 1 ≤ prev →
    prev / 2 + halvesButLast l = prev - 1 := by
  intro l
  induction l with
  | nil =>
    intro prev hc h1
    show prev / 2 + 0 = prev - 1
    have : prev ≤ 1 := hc
    omega
  | cons s rest ih =>
    intro prev hc _
    obtain ⟨hp, rfl, hcr⟩ := hc
    match rest, hcr with
    | [], hcr =>
      have : (prev + 1) / 2 ≤ 1 := hcr
      show prev / 2 + 0 = prev - 1
      omega
    | r :: rest', hcr =>
      have h1s : 1 ≤ (prev + 1) / 2 := by omega
      have := ih ((prev + 1) / 2) hcr h1s
      show prev / 2 + ((prev + 1) / 2 / 2 + halvesButLast (r :: rest')) = prev - 1
      omega

theorem chain_last_one : ∀ (l : List Nat) (prev : Nat), Chain prev l → l ≠ [] →
    l.getD (l.length - 1) 0 = 1 := by
  intro l
  induction l with
  | nil => intro prev _ h; exact absurd rfl h
  | cons s rest ih =>
    intro prev hc _
    obtain ⟨hp, rfl, hcr⟩ := hc
    match rest, hcr with
    | [], hcr =>
      have : (prev + 1) / 2 ≤ 1 := hcr
      simp only [List.length_cons, List.length_nil]
      show (prev + 1) / 2 = 1
      omega
    | r :: rest', hcr =>
      have := ih ((prev + 1) / 2) hcr (by simp)
      simpa using this

theorem chain_getD_succ : ∀ (l : List Nat) (prev : Nat), Chain prev l →
    ∀ k, k + 1 < l.length → l.getD (k + 1) 0 = (l.getD k 0 + 1) / 2 := by
  intro l
  induction l with
  | nil => intro prev _ k hk; simp at hk
  | cons s rest ih =>
    intro prev hc k hk
    obtain ⟨hp, rfl, hcr⟩ := hc
    match k with
    | 0 =>
      match rest, hcr, hk with
      | r :: rest', hcr, _ =>
        obtain ⟨_, rfl, _⟩ := hcr
        rfl
    | k' + 1 =>
      have := ih ((prev + 1) / 2) hcr k' (by simpa using hk)
      simpa using this

theorem chain_getD_gt_one : ∀ (l : List Nat) (prev : Nat), Chain prev l →
    ∀ k, k + 1 < l.length → 1 < l.getD k 0 := by
  intro l
  induction l with
  | nil => intro prev _ k hk; simp at hk
  | cons s rest ih =>
    intro prev hc k hk
    obtain ⟨hp, rfl, hcr⟩ := hc
    match k with
    | 0 =>
      match rest, hcr, hk with
      | r :: rest', hcr, _ =>
        obtain ⟨h1, _, _⟩ := hcr
        simpa using h1
    | k' + 1 =>
      have := ih ((prev + 1) / 2) hcr k' (by simpa using hk)
      simpa using this

theorem chain_head : ∀ (rest : List Nat) (s prev : Nat), Chain prev (s :: rest) →
    s = (prev + 1) / 2 := by
  intro rest s prev hc
  exact hc.2.1

theorem sAt_succ {N r : Nat} (h1 : 1 ≤ r) (h2 : r + 1 ≤ bracketT N) :
    sAt N (r + 1) = (sAt N r + 1) / 2 := by
  have := chain_getD_succ (roundSizes N) N (chain_roundSizes N) (r - 1)
    (by unfold bracketT at h2; omega)
  unfold sAt
  have hr : r + 1 - 1 = r - 1 + 1 := by omega
  rw [hr, this]

theorem sAt_last {N : Nat} (hN : 2 ≤ N) : sAt N (bracketT N) = 1 := by
  have hne : roundSizes N ≠ [] := by
    rw [roundSizes_eq]
    simp only [show N > 1 by omega, if_true]
    simp
  exact chain_last_one (roundSizes N) N (chain_roundSizes N) hne

theorem sAt_gt_one {N r : Nat} (h1 : 1 ≤ r) (h2 : r < bracketT N) :
    1 < sAt N r := by
  have := chain_getD_gt_one (roundSizes N) N (chain_roundSizes N) (r - 1)
    (by unfold bracketT at h2; omega)
  unfold sAt
  exact this

theorem chain_getD_pos : ∀ (l : List Nat) (prev : Nat), Chain prev l →
    ∀ k, k < l.length → 1 ≤ l.getD k 0 := by
  intro l
  induction l with
  | nil => intro prev _ k hk; simp at hk
  | cons s rest ih =>
    intro prev hc k hk
    obtain ⟨hp, rfl, hcr⟩ := hc
    match k with
    | 0 =>
      show 1 ≤ (prev + 1) / 2
      omega
    | k' + 1 =>
      have := ih ((prev + 1) / 2) hcr k' (by simpa using hk)
      simpa using this

theorem sAt_pos {N r : Nat} (h1 : 1 ≤ r) (h2 : r ≤ bracketT N) :
    1 ≤ sAt N r := by
  have := chain_getD_pos (roundSizes N) N (chain_roundSizes N) (r - 1)
    (by unfold bracketT at h2; omega)
  exact this

theorem sAt_one {N : Nat} (hN : 2 ≤ N) : sAt N 1 = (N + 1) / 2 := by
  unfold sAt
  rw [roundSizes_eq]
  simp only [show N > 1 by omega, if_true]
  rfl

theorem bracketT_pos {N : Nat} (hN : 2 ≤ N) : 1 ≤ bracketT N := by
  unfold bracketT
  rw [roundSizes_eq]
  simp only [show N > 1 by omega, if_true]
  simp

theorem mkAllMatches_cons (s : Nat) (rest : List Nat) (r0 n0 : Nat) :
    mkAllMatches (s :: rest) r0 n0 =
      mkRoundMatches r0 s n0 ++ mkAllMatches rest (r0 + 1) (n0 + s) := rfl

theorem mkAllMatches_mem_shape : ∀ (ss : List Nat) (r0 n0 : Nat) (m : MatchRec),
    m ∈ mkAllMatches ss r0 n0 → ∃ k i, k < ss.length ∧ 1 ≤ i ∧ i ≤ ss.getD k 0 ∧
      m.bracketPosition = BracketPos.R (r0 + k) i ∧ m.roundNumber = r0 + k := by
  intro ss
  induction ss with
  | nil => intro r0 n0 m hm; simp [mkAllMatches] at hm
  | cons s rest ih =>
    intro r0 n0 m hm
    rw [mkAllMatches_cons] at hm
    rcases List.mem_append.mp hm with h | h
    · unfold mkRoundMatches at h
      obtain ⟨k, hk, rfl⟩ := List.mem_map.mp h
      refine ⟨0, k + 1, by simp, by omega, ?_, by simp, by simp⟩
      show k + 1 ≤ s
      have := List.mem_range.mp hk
      omega
    · obtain ⟨k, i, hk, h1, h2, h3, h4⟩ := ih (r0 + 1) (n0 + s) m h
      refine ⟨k + 1, i, by simpa using hk, h1, by simpa using h2, ?_, ?_⟩
      · rw [h3]
        congr 1
        omega
      · rw [h4]
        omega

theorem mkAllMatches_mem_fields : ∀ (ss : List Nat) (r0 n0 : Nat) (m : MatchRec),
    m ∈ mkAllMatches ss r0 n0 → m.status = MatchStatus.pending ∧ m.winnerId = none ∧
      m.winnerTeamId = none ∧ m.dartboardId = none ∧ m.players = [] ∧
      m.matchNumber = m.id := by
  intro ss
  induction ss with
  | nil => intro r0 n0 m hm; simp [mkAllMatches] at hm
  | cons s rest ih =>
    intro r0 n0 m hm
    rw [mkAllMatches_cons] at hm
    rcases List.mem_append.mp hm with h | h
    · unfold mkRoundMatches at h
      obtain ⟨k, hk, rfl⟩ := List.mem_map.mp h
      exact ⟨rfl, rfl, rfl, rfl, rfl, rfl⟩
    · exact ih (r0 + 1) (n0 + s) m h

theorem mkAllMatches_bp_mem : ∀ (ss : List Nat) (r0 n0 k i : Nat), k < ss.length →
    1 ≤ i → i ≤ ss.getD k 0 →
    BracketPos.R (r0 + k) i ∈ (mkAllMatches ss r0 n0).map (fun m => m.bracketPosition) := by
  intro ss
  induction ss with
  | nil => intro r0 n0 k i hk; simp at hk
  | cons s rest ih =>
    intro r0 n0 k i hk h1 h2
    rw [mkAllMatches_cons, List.map_append]
    apply List.mem_append.mpr
    match k with
    | 0 =>
      left
      have h2' : i ≤ s := by simpa using h2
      unfold mkRoundMatches
      rw [List.map_map]
      apply List.mem_map.mpr
      refine ⟨i - 1, List.mem_range.mpr (by omega), ?_⟩
      show BracketPos.R r0 (i - 1 + 1) = BracketPos.R (r0 + 0) i
      congr 1 <;> omega
    | k' + 1 =>
      right
      have := ih (r0 + 1) (n0 + s) k' i (by simpa using hk) h1 (by simpa using h2)
      have heq : r0 + 1 + k' = r0 + (k' + 1) := by omega
      rw [heq] at this
      exact this

theorem mkAllMatches_bps_nodup : ∀ (ss : List Nat) (r0 n0 : Nat),
    ((mkAllMatches ss r0 n0).map (fun m => m.bracketPosition)).Nodup := by
  intro ss
  induction ss with
  | nil => intro r0 n0; simp [mkAllMatches]
  | cons s rest ih =>
    intro r0 n0
    rw [mkAllMatches_cons, List.map_append]
    apply List.Nodup.append
    · unfold mkRoundMatches
      rw [List.map_map]
      apply List.Nodup.map
      · intro a b hab
        simpa using hab
      · exact List.nodup_range s
    · exact ih (r0 + 1) (n0 + s)
    · intro bp hbp1 hbp2
      unfold mkRoundMatches at hbp1
      rw [List.map_map] at hbp1
      obtain ⟨k, _, rfl⟩ := List.mem_map.mp hbp1
      obtain ⟨m, hm, hmbp⟩ := List.mem_map.mp hbp2
      obtain ⟨k', i', _, _, _, h3, _⟩ := mkAllMatches_mem_shape rest (r0 + 1) (n0 + s) m hm
      rw [hmbp] at h3
      have : r0 = r0 + 1 + k' := by
        have := (BracketPos.R.injEq _ _ _ _).mp h3
        omega
      omega

theorem mkRoundMatches_ids (r0 s n0 : Nat) :
    (mkRoundMatches r0 s n0).map (fun m => m.id) = (List.range s).map (fun k => n0 + k) := by
  unfold mkRoundMatches
  rw [List.map_map]
  rfl

theorem mkAllMatches_id_ge : ∀ (ss : List Nat) (r0 n0 : Nat) (m : MatchRec),
    m ∈ mkAllMatches ss r0 n0 → n0 ≤ m.id := by
  intro ss
  induction ss with
  | nil => intro r0 n0 m hm; simp [mkAllMatches] at hm
  | cons s rest ih =>
    intro r0 n0 m hm
    rw [mkAllMatches_cons] at hm
    rcases List.mem_append.mp hm with h | h
    · unfold mkRoundMatches at h
      obtain ⟨k, hk, rfl⟩ := List.mem_map.mp h
      show n0 ≤ n0 + k
      omega
    · have := ih (r0 + 1) (n0 + s) m h
      omega

theorem mkAllMatches_ids_nodup : ∀ (ss : List Nat) (r0 n0 : Nat),
    ((mkAllMatches ss r0 n0).map (fun m => m.id)).Nodup := by
  intro ss
  induction ss with
  | nil => intro r0 n0; simp [mkAllMatches]
  | cons s rest ih =>
    intro r0 n0
    rw [mkAllMatches_cons, List.map_append]
    apply List.Nodup.append
    · rw [mkRoundMatches_ids]
      apply List.Nodup.map
      · intro a b hab
        dsimp only at hab
        omega
      · exact List.nodup_range s
    · exact ih (r0 + 1) (n0 + s)
    · intro x hx1 hx2
      rw [mkRoundMatches_ids] at hx1
      obtain ⟨k, hk, rfl⟩ := List.mem_map.mp hx1
      have hk' := List.mem_range.mp hk
      obtain ⟨m, hm, hmid⟩ := List.mem_map.mp hx2
      have hge := mkAllMatches_id_ge rest (r0 + 1) (n0 + s) m hm
      have hmid' : m.id = n0 + k := hmid
      omega

theorem skel_bps {N : Nat} {st : TState} (hs : SkelOK N st) :
    st.matchRows.map (fun m => m.bracketPosition) =
      (canonRows N).map (fun m => m.bracketPosition) := by
  have h2 := congrArg (List.map (fun t : Nat × BracketPos × Nat × Nat => t.2.1)) hs
  rw [List.map_map, List.map_map] at h2
  exact h2

theorem skel_ids {N : Nat} {st : TState} (hs : SkelOK N st) :
    st.matchRows.map (fun m => m.id) = (canonRows N).map (fun m => m.id) := by
  have h2 := congrArg (List.map (fun t : Nat × BracketPos × Nat × Nat => t.1)) hs
  rw [List.map_map, List.map_map] at h2
  exact h2

theorem skel_bps_nodup {N : Nat} {st : TState} (hs : SkelOK N st) :
    (st.matchRows.map (fun m => m.bracketPosition)).Nodup := by
  rw [skel_bps hs]
  exact mkAllMatches_bps_nodup (roundSizes N) 1 1

theorem skel_ids_nodup {N : Nat} {st : TState} (hs : SkelOK N st) :
    (st.matchRows.map (fun m => m.id)).Nodup := by
  rw [skel_ids hs]
  exact mkAllMatches_ids_nodup (roundSizes N) 1 1

theorem skel_length {N : Nat} {st : TState} (hs : SkelOK N st) :
    st.matchRows.length = (canonRows N).length := by
  have h1 := congrArg List.length hs
  rw [List.length_map, List.length_map] at h1
  exact h1

theorem canon_bp_valid {N r i : Nat}
    (h : BracketPos.R r i ∈ (canonRows N).map (fun m => m.bracketPosition)) :
    validPos N r i := by
  obtain ⟨m, hm, hbp⟩ := List.mem_map.mp h
  obtain ⟨k, i', hk, h1, h2, h3, _⟩ := mkAllMatches_mem_shape (roundSizes N) 1 1 m hm
  rw [h3] at hbp
  obtain ⟨hr, hi⟩ := (BracketPos.R.injEq _ _ _ _).mp hbp
  refine ⟨by omega, by unfold bracketT; omega, by omega, ?_⟩
  unfold sAt
  subst hi
  have : r - 1 = k := by omega
  rw [this]
  exact h2

theorem canon_bp_of_valid {N r i : Nat} (h : validPos N r i) :
    BracketPos.R r i ∈ (canonRows N).map (fun m => m.bracketPosition) := by
  obtain ⟨h1, h2, h3, h4⟩ := h
  have := mkAllMatches_bp_mem (roundSizes N) 1 1 (r - 1) i
    (by unfold bracketT at h2; omega) h3 (by unfold sAt at h4; exact h4)
  have heq : 1 + (r - 1) = r := by omega
  rw [heq] at this
  exact this

theorem skel_mem_shape {N : Nat} {st : TState} (hs : SkelOK N st) {m : MatchRec}
    (hm : m ∈ st.matchRows) :
    ∃ r i, validPos N r i ∧ m.bracketPosition = BracketPos.R r i ∧ m.roundNumber = r := by
  have hproj : skelProj m ∈ (canonRows N).map skelProj := by
    rw [← hs]
    exact List.mem_map_of_mem skelProj hm
  obtain ⟨c, hc, hcm⟩ := List.mem_map.mp hproj
  obtain ⟨k, i, hk, h1, h2, h3, h4⟩ := mkAllMatches_mem_shape (roundSizes N) 1 1 c hc
  have hbp : m.bracketPosition = c.bracketPosition := by
    have := congrArg (fun t : Nat × BracketPos × Nat × Nat => t.2.1) hcm
    exact this.symm
  have hrn : m.roundNumber = c.roundNumber := by
    have := congrArg (fun t : Nat × BracketPos × Nat × Nat => t.2.2.1) hcm
    exact this.symm
  refine ⟨1 + k, i, ?_, by rw [hbp, h3], by rw [hrn, h4]⟩
  apply canon_bp_valid
  rw [← h3]
  exact List.mem_map_of_mem _ hc

theorem skel_findByBP_isSome {N r i : Nat} {st : TState} (hs : SkelOK N st)
    (h : validPos N r i) : ∃ m, findByBP st (BracketPos.R r i) = some m := by
  have hmem := canon_bp_of_valid h
  rw [← skel_bps hs] at hmem
  obtain ⟨m, hm, hbp⟩ := List.mem_map.mp hmem
  have : (st.matchRows.find? (fun x => x.bracketPosition == BracketPos.R r i)).isSome := by
    rw [List.find?_isSome]
    exact ⟨m, hm, by simp [hbp]⟩
  obtain ⟨a, ha⟩ := Option.isSome_iff_exists.mp this
  exact ⟨a, ha⟩

theorem skel_findByBP_some {N r i : Nat} {s : TState} {m : MatchRec} (hs : SkelOK N s)
    (h : findByBP s (BracketPos.R r i) = some m) :
    m ∈ s.matchRows ∧ m.bracketPosition = BracketPos.R r i ∧ m.roundNumber = r ∧
      validPos N r i := by
  obtain ⟨hmem, hbp⟩ := findByBP_eq_some_mem h
  obtain ⟨r', i', hv, hbp', hrn⟩ := skel_mem_shape hs hmem
  rw [hbp] at hbp'
  obtain ⟨hr, hi⟩ := (BracketPos.R.injEq _ _ _ _).mp hbp'
  subst hr
  subst hi
  exact ⟨hmem, hbp, hrn, hv⟩

theorem skel_findByBP_self {N : Nat} {st : TState} (hs : SkelOK N st) {m : MatchRec}
    (hm : m ∈ st.matchRows) : findByBP st m.bracketPosition = some m :=
  findByBP_of_mem (skel_bps_nodup hs) hm

theorem skel_findById_self {N : Nat} {st : TState} (hs : SkelOK N st) {m : MatchRec}
    (hm : m ∈ st.matchRows) : findById st m.id = some m :=
  findById_of_mem (skel_ids_nodup hs) hm

theorem SkelOK_updateById {N : Nat} {st : TState} (hs : SkelOK N st) (mid : Nat)
    (f : MatchRec → MatchRec) (hf : ∀ a, skelProj (f a) = skelProj a) :
    SkelOK N (updateById st mid f) := by
  show ((st.matchRows.map fun m => if m.id = mid then f m else m).map skelProj) = _
  rw [List.map_map]
  have : (skelProj ∘ fun m => if m.id = mid then f m else m) = skelProj := by
    funext a
    by_cases h : a.id = mid <;> simp [Function.comp, h, hf]
  rw [this]
  exact hs

theorem forall₂_self {α : Type} (R : α → α → Prop) (h : ∀ a, R a a) :
    ∀ l : List α, List.Forall₂ R l l := by
  intro l
  induction l with
  | nil => exact List.Forall₂.nil
  | cons a t ih => exact List.Forall₂.cons (h a) ih

theorem forall₂_map_self {α : Type} (R : α → α → Prop) (g : α → α) :
    ∀ l : List α, (∀ a ∈ l, R a (g a)) → List.Forall₂ R l (l.map g) := by
  intro l
  induction l with
  | nil => intro _; exact List.Forall₂.nil
  | cons a t ih =>
    intro h
    exact List.Forall₂.cons (h a (by simp)) (ih (fun x hx => h x (by simp [hx])))

theorem RowsMono_rfl (st : TState) : RowsMono st st :=
  forall₂_self _ (fun a => ⟨rfl, fun h => h⟩) st.matchRows

theorem RowsMono_trans {s1 s2 s3 : TState} (h1 : RowsMono s1 s2) (h2 : RowsMono s2 s3) :
    RowsMono s1 s3 :=
  forall₂_trans _ (fun a b c hab hbc => ⟨hab.1.trans hbc.1, fun h => hbc.2 (hab.2 h)⟩)
    h1 h2

theorem RowsMono_updateById (st : TState) (mid : Nat) (f : MatchRec → MatchRec)
    (hf : ∀ a, (f a).id = a.id ∧
      (a.status = MatchStatus.completed → (f a).status = MatchStatus.completed)) :
    RowsMono st (updateById st mid f) := by
  apply forall₂_map_self
  intro a _
  by_cases h : a.id = mid
  · rw [if_pos h]
    exact ⟨((hf a).1).symm, (hf a).2⟩
  · rw [if_neg h]
    exact ⟨rfl, fun hx => hx⟩

theorem RowsMono_rows_eq {st st' : TState} (h : st.matchRows = st'.matchRows) :
    RowsMono st st' := by
  unfold RowsMono
  rw [h]
  exact forall₂_self _ (fun a => ⟨rfl, fun h => h⟩) st'.matchRows

theorem drop_two_cons (a b : Nat) (l : List Nat) (n : Nat) :
    (a :: b :: l).drop (n + 2) = l.drop n := rfl

theorem seedPlayers_get? : ∀ (ms : List MatchRec) (es : List Nat) (k : Nat),
    (seedPlayers ms es).get? k =
      (ms.get? k).map (fun m => { m with players := m.players ++ seededAt es (k + 1) }) := by
  intro ms
  induction ms with
  | nil => intro es k; cases es <;> rfl
  | cons m rest ih =>
    intro es k
    match es with
    | [] =>
      match k with
      | 0 =>
        show some m = some { m with players := m.players ++ seededAt [] 1 }
        have h : seededAt [] 1 = [] := rfl
        rw [h, List.append_nil]
      | k' + 1 =>
        show (seedPlayers rest []).get? k' = _
        rw [ih [] k']
        have h1 : seededAt [] (k' + 1) = [] := by
          unfold seededAt
          rw [List.drop_nil]
        have h2 : seededAt [] (k' + 1 + 1) = [] := by
          unfold seededAt
          rw [List.drop_nil]
        rw [h1, h2]
        rfl
    | [e1] =>
      match k with
      | 0 => rfl
      | k' + 1 =>
        show (seedPlayers rest []).get? k' = _
        rw [ih [] k']
        have h1 : seededAt [] (k' + 1) = [] := by
          unfold seededAt
          rw [List.drop_nil]
        have h2 : seededAt [e1] (k' + 1 + 1) = [] := by
          unfold seededAt
          rw [List.drop_eq_nil_of_le (by simp; omega)]
        rw [h1, h2]
        rfl
    | e1 :: e2 :: es' =>
      match k with
      | 0 => rfl
      | k' + 1 =>
        show (seedPlayers rest es').get? k' = _
        rw [ih es' k']
        have h2 : seededAt (e1 :: e2 :: es') (k' + 1 + 1) = seededAt es' (k' + 1) := by
          unfold seededAt
          have h3 : 2 * (k' + 1 + 1 - 1) = 2 * (k' + 1 - 1) + 2 := by omega
          rw [h3, drop_two_cons]
        rw [h2]
        rfl

theorem seededAt_mem_get? (entries : List Nat) (i : Nat) (p : MatchPlayerRec)
    (hp : p ∈ seededAt entries i) :
    (entries.get? (2 * (i - 1)) = some p.playerId ∧ p.position = 1) ∨
      (entries.get? (2 * (i - 1) + 1) = some p.playerId ∧ p.position = 2) := by
  unfold seededAt at hp
  have hd0 : (entries.drop (2 * (i - 1))).get? 0 = entries.get? (2 * (i - 1)) := by
    rw [List.get?_drop]
    rfl
  have hd1 : (entries.drop (2 * (i - 1))).get? 1 = entries.get? (2 * (i - 1) + 1) := by
    rw [List.get?_drop]
  match hdrop : entries.drop (2 * (i - 1)), hp with
  | [], hp => simp at hp
  | [a], hp =>
    rw [hdrop] at hd0
    simp at hp
    subst hp
    left
    exact ⟨by simpa using hd0.symm, rfl⟩
  | a :: b :: rest, hp =>
    rw [hdrop] at hd0 hd1
    rcases List.mem_cons.mp hp with rfl | hp2
    · left
      exact ⟨by simpa using hd0.symm, rfl⟩
    · rcases List.mem_cons.mp hp2 with rfl | hp3
      · right
        exact ⟨by simpa using hd1.symm, rfl⟩
      · simp at hp3

theorem seededAt_teamId (entries : List Nat) (i : Nat) (p : MatchPlayerRec)
    (hp : p ∈ seededAt entries i) : p.teamId = none := by
  unfold seededAt at hp
  match entries.drop (2 * (i - 1)), hp with
  | [], hp => simp at hp
  | [a], hp =>
    simp at hp
    subst hp
    rfl
  | a :: b :: rest, hp =>
    rcases List.mem_cons.mp hp with rfl | hp2
    · rfl
    · rcases List.mem_cons.mp hp2 with rfl | hp3
      · rfl
      · simp at hp3

theorem seededAt_length (entries : List Nat) (i : Nat) :
    (seededAt entries i).length = min 2 (entries.length - 2 * (i - 1)) := by
  unfold seededAt
  have hlen : (entries.drop (2 * (i - 1))).length = entries.length - 2 * (i - 1) :=
    List.length_drop _ _
  match hdrop : entries.drop (2 * (i - 1)) with
  | [] =>
    rw [hdrop] at hlen
    simp at hlen
    simp
    omega
  | [a] =>
    rw [hdrop] at hlen
    simp at hlen
    simp
    omega
  | a :: b :: rest =>
    rw [hdrop] at hlen
    simp at hlen
    simp
    omega

theorem seededAt_disjoint (entries : List Nat) (hnd : entries.Nodup) (i i' : Nat)
    (hne : i ≠ i') (h1 : 1 ≤ i) (h1' : 1 ≤ i') (p q : MatchPlayerRec)
    (hp : p ∈ seededAt entries i) (hq : q ∈ seededAt entries i') :
    p.playerId ≠ q.playerId := by
  intro heq
  rcases seededAt_mem_get? entries i p hp with ⟨hg, _⟩ | ⟨hg, _⟩ <;>
    rcases seededAt_mem_get? entries i' q hq with ⟨hg', _⟩ | ⟨hg', _⟩ <;>
    [skip; skip; skip; skip] <;>
    · rw [heq] at hg
      have := List.get?_inj (by
        have := List.get?_eq_some.mp hg
        exact this.1) hnd (hg.trans hg'.symm)
      omega

theorem SEInv_weaken {entries : List Nat} {st : TState} (h : SEInv entries st)
    (brr bj : Nat) : SEInvC entries st brr bj :=
  ⟨h.skel, h.boardsNil, h.noBoard, h.noTeam, h.statusPC, h.winClosed, h.winOpen,
    h.seeded, h.destPlayers, h.disj,
    fun rr i m h2 _ hf hp => h.byeDone rr i m h2 (by omega) hf hp, h.tstat⟩

theorem updateById_rows (st : TState) (mid : Nat) (f : MatchRec → MatchRec) :
    (updateById st mid f).matchRows =
      st.matchRows.map (fun a => if a.id = mid then f a else a) := rfl

theorem mem_updateById {st : TState} {mid : Nat} {f : MatchRec → MatchRec} {m' : MatchRec}
    (h : m' ∈ (updateById st mid f).matchRows) :
    ∃ a ∈ st.matchRows, m' = if a.id = mid then f a else a := by
  rw [updateById_rows] at h
  obtain ⟨a, ha, rfl⟩ := List.mem_map.mp h
  exact ⟨a, ha, rfl⟩

theorem updateById_tstatus (st : TState) (mid : Nat) (f : MatchRec → MatchRec) :
    (updateById st mid f).tstatus = st.tstatus := rfl

theorem updateById_boards (st : TState) (mid : Nat) (f : MatchRec → MatchRec) :
    (updateById st mid f).boards = st.boards := rfl

/-- `findByBP` after an id-keyed update on a unique-key state: the row at
an unrelated position is untouched; the updated row's position returns its
image. -/
theorem findByBP_updateById_of_ne {N : Nat} {st : TState} (hs : SkelOK N st)
    {m0 : MatchRec} (hm0 : m0 ∈ st.matchRows) (f : MatchRec → MatchRec)
    (hf : ∀ a, (f a).bracketPosition = a.bracketPosition) (bp : BracketPos)
    (hne : m0.bracketPosition ≠ bp) :
    findByBP (updateById st m0.id f) bp = findByBP st bp := by
  rw [findByBP_updateById st m0.id bp f hf]
  match hfind : findByBP st bp with
  | none => rfl
  | some a =>
    obtain ⟨hamem, habp⟩ := findByBP_eq_some_mem hfind
    have : ¬(a.id = m0.id) := by
      intro hid
      have := eq_of_id_eq (skel_ids_nodup hs) hamem hm0 hid
      rw [this] at habp
      exact hne habp
    simp [this]

theorem findByBP_updateById_self {N : Nat} {st : TState} (hs : SkelOK N st)
    {m0 : MatchRec} (hm0 : m0 ∈ st.matchRows) (f : MatchRec → MatchRec)
    (hf : ∀ a, (f a).bracketPosition = a.bracketPosition) :
    findByBP (updateById st m0.id f) m0.bracketPosition = some (f m0) := by
  rw [findByBP_updateById st m0.id m0.bracketPosition f hf,
    skel_findByBP_self hs hm0]
  simp

/-- A contribution is unchanged by an update that keeps status, winner and
position of every row. -/
theorem contribOf_players_update {N : Nat} {st : TState} (hs : SkelOK N st)
    {m0 : MatchRec} (hm0 : m0 ∈ st.matchRows) (f : MatchRec → MatchRec)
    (hf : ∀ a, (f a).bracketPosition = a.bracketPosition)
    (hfs : ∀ a, (f a).status = a.status) (hfw : ∀ a, (f a).winnerId = a.winnerId)
    (r j pos : Nat) :
    contribOf (updateById st m0.id f) r j pos = contribOf st r j pos := by
  unfold contribOf
  cases hfind : findByBP st (BracketPos.R r j) with
  | none => rw [findByBP_updateById st m0.id _ f hf, hfind]; rfl
  | some a =>
    rw [findByBP_updateById st m0.id _ f hf, hfind]
    by_cases h : a.id = m0.id
    · simp [h, hfs, hfw]
    · simp [h]

/-- A contribution at positions other than the updated row's is unchanged
by any position-preserving keyed update. -/
theorem contribOf_update_ne {N : Nat} {st : TState} (hs : SkelOK N st)
    {m0 : MatchRec} (hm0 : m0 ∈ st.matchRows) (f : MatchRec → MatchRec)
    (hf : ∀ a, (f a).bracketPosition = a.bracketPosition)
    (r j pos : Nat) (hne : m0.bracketPosition ≠ BracketPos.R r j) :
    contribOf (updateById st m0.id f) r j pos = contribOf st r j pos := by
  unfold contribOf
  rw [findByBP_updateById_of_ne hs hm0 f hf _ hne]

theorem contribOf_none {st : TState} {r j pos : Nat}
    (hfind : findByBP st (BracketPos.R r j) = none) :
    contribOf st r j pos = [] := by
  unfold contribOf
  rw [hfind]

theorem contribOf_completed {st : TState} {r j q : Nat} {f : MatchRec}
    (hfind : findByBP st (BracketPos.R r j) = some f)
    (hs : f.status = MatchStatus.completed) {w : Nat} (hw : f.winnerId = some w) :
    contribOf st r j q = [{ playerId := w, position := q }] := by
  unfold contribOf
  rw [hfind]
  dsimp only
  rw [if_pos hs, hw]

theorem contribOf_pending {st : TState} {r j pos : Nat} {f : MatchRec}
    (hfind : findByBP st (BracketPos.R r j) = some f)
    (hs : f.status ≠ MatchStatus.completed) :
    contribOf st r j pos = [] := by
  unfold contribOf
  rw [hfind]
  dsimp only
  rw [if_neg hs]

theorem contribOf_completed_nowin {st : TState} {r j pos : Nat} {f : MatchRec}
    (hfind : findByBP st (BracketPos.R r j) = some f)
    (hs : f.status = MatchStatus.completed) (hw : f.winnerId = none) :
    contribOf st r j pos = [] := by
  unfold contribOf
  rw [hfind]
  dsimp only
  rw [if_pos hs, hw]

theorem contribOf_mem {st : TState} {r j pos : Nat} {p : MatchPlayerRec}
    (hp : p ∈ contribOf st r j pos) :
    ∃ f, findByBP st (BracketPos.R r j) = some f ∧ f.status = MatchStatus.completed ∧
      f.winnerId = some p.playerId ∧ p.position = pos := by
  cases hfind : findByBP st (BracketPos.R r j) with
  | none => rw [contribOf_none hfind] at hp; simp at hp
  | some f =>
    by_cases hs : f.status = MatchStatus.completed
    · cases hw : f.winnerId with
      | none => rw [contribOf_completed_nowin hfind hs hw] at hp; simp at hp
      | some w =>
        rw [contribOf_completed hfind hs hw] at hp
        simp at hp
        subst hp
        exact ⟨f, rfl, hs, hw, rfl⟩
    · rw [contribOf_pending hfind hs] at hp
      simp at hp

theorem contribPair_mem {st : TState} {rr j : Nat} {p : MatchPlayerRec}
    (hp : p ∈ contribPair st rr j) :
    ∃ jx f, (jx = 2 * j - 1 ∨ jx = 2 * j) ∧ findByBP st (BracketPos.R (rr - 1) jx) = some f ∧
      f.status = MatchStatus.completed ∧ f.winnerId = some p.playerId := by
  unfold contribPair at hp
  rcases List.mem_append.mp hp with h | h
  · obtain ⟨f, h1, h2, h3, _⟩ := contribOf_mem h
    exact ⟨2 * j - 1, f, Or.inl rfl, h1, h2, h3⟩
  · obtain ⟨f, h1, h2, h3, _⟩ := contribOf_mem h
    exact ⟨2 * j, f, Or.inr rfl, h1, h2, h3⟩

theorem contribOf_length {s : TState} (r j pos : Nat) :
    (contribOf s r j pos).length ≤ 1 := by
  cases hfind : findByBP s (BracketPos.R r j) with
  | none => rw [contribOf_none hfind]; simp
  | some f =>
    by_cases hs : f.status = MatchStatus.completed
    · cases hw : f.winnerId with
      | none => rw [contribOf_completed_nowin hfind hs hw]; simp
      | some w => rw [contribOf_completed hfind hs hw]; simp
    · rw [contribOf_pending hfind hs]; simp

theorem contribPair_length {s : TState} (rr j : Nat) :
    (contribPair s rr j).length ≤ 2 := by
  unfold contribPair
  rw [List.length_append]
  have h1 := contribOf_length (s := s) (rr - 1) (2 * j - 1) 1
  have h2 := contribOf_length (s := s) (rr - 1) (2 * j) 2
  omega

theorem skel_N_ge_two {N : Nat} {st : TState} (hs : SkelOK N st) {m : MatchRec}
    (hm : m ∈ st.matchRows) : 2 ≤ N := by
  by_contra h
  have hsz : roundSizes N = [] := by
    rw [roundSizes_eq]
    simp only [show ¬(N > 1) by omega, if_false]
  have : (canonRows N) = [] := by
    unfold canonRows
    rw [hsz]
    rfl
  have hlen := skel_length hs
  rw [this] at hlen
  simp at hlen
  rw [hlen] at hm
  simp at hm

theorem feeder1_valid {N rr j : Nat} (hv : validPos N rr j) (h2 : 2 ≤ rr) :
    validPos N (rr - 1) (2 * j - 1) := by
  obtain ⟨ha, hb, hc, hd⟩ := hv
  have hstep : sAt N (rr - 1 + 1) = (sAt N (rr - 1) + 1) / 2 :=
    sAt_succ (by omega) (by omega)
  have : rr - 1 + 1 = rr := by omega
  rw [this] at hstep
  exact ⟨by omega, by omega, by omega, by omega⟩

theorem feeder2_valid {N rr j : Nat} (hv : validPos N rr j) (h2 : 2 ≤ rr)
    (hle : 2 * j ≤ sAt N (rr - 1)) : validPos N (rr - 1) (2 * j) := by
  obtain ⟨ha, hb, hc, hd⟩ := hv
  exact ⟨by omega, by omega, by omega, hle⟩

theorem dest_valid {N r i : Nat} (hv : validPos N r i) (hlt : r < bracketT N) :
    validPos N (r + 1) ((i + 1) / 2) := by
  obtain ⟨ha, hb, hc, hd⟩ := hv
  have hstep : sAt N (r + 1) = (sAt N r + 1) / 2 := sAt_succ (by omega) (by omega)
  exact ⟨by omega, by omega, by omega, by omega⟩

theorem idx_parity (i : Nat) (h : 1 ≤ i) :
    (i % 2 = 1 ∧ i = 2 * ((i + 1) / 2) - 1) ∨ (i % 2 = 0 ∧ i = 2 * ((i + 1) / 2)) := by
  omega

theorem finalCompleted_update {N : Nat} {st : TState} (hs : SkelOK N st)
    (mid : Nat) (f : MatchRec → MatchRec)
    (hf : ∀ a, (f a).bracketPosition = a.bracketPosition)
    (hfs : ∀ a, (f a).status = a.status) :
    finalCompleted N (updateById st mid f) ↔ finalCompleted N st := by
  unfold finalCompleted finalBP
  rw [findByBP_updateById st mid _ f hf]
  match hfind : findByBP st (BracketPos.R (bracketT N) 1) with
  | none => simp
  | some a =>
    by_cases h : a.id = mid
    · simp only [Option.map, h, if_true]
      constructor
      · rintro ⟨mf, hmf, hmfs⟩
        have heq : f a = mf := Option.some.inj hmf
        rw [← heq, hfs] at hmfs
        exact ⟨a, rfl, hmfs⟩
      · rintro ⟨mf, hmf, hmfs⟩
        have heq : a = mf := Option.some.inj hmf
        rw [← heq] at hmfs
        exact ⟨f a, rfl, by rw [hfs]; exact hmfs⟩
    · simp only [Option.map, h, if_false]

theorem finalCompleted_rows_eq {N : Nat} {st st' : TState}
    (h : st.matchRows = st'.matchRows) :
    finalCompleted N st ↔ finalCompleted N st' := by
  unfold finalCompleted findByBP
  rw [h]

/-- Completing a pending match with a winner drawn from its occupants
turns the boundary invariant into the mid-advancement invariant: the new
winner is owed to the destination one round up. -/
theorem SEInv_complete {entries : List Nat} {st : TState} {mtch : MatchRec}
    {brr bj rr j w : Nat}
    (A : SEInvC entries st brr bj) (hexc : (brr = rr ∧ bj = j) ∨ brr = 0)
    (hfind : findByBP st (BracketPos.R rr j) = some mtch)
    (hpend : mtch.status = MatchStatus.pending)
    (hw : w ∈ mtch.players.map (fun p => p.playerId))
    (hfin : mtch.bracketPosition = finalBP entries.length →
      st.tstatus = TournamentStatus.inProgress) :
    SEInvA entries
      (updateById st mtch.id
        (fun n => { n with status := MatchStatus.completed, winnerId := some w }))
      { mtch with status := MatchStatus.completed, winnerId := some w } w rr j := by
  obtain ⟨hmem, hbp, hrn, hval⟩ := skel_findByBP_some A.skel hfind
  have hids := skel_ids_nodup A.skel
  set fC : MatchRec → MatchRec :=
    fun n => { n with status := MatchStatus.completed, winnerId := some w } with hfC
  set st1 := updateById st mtch.id fC with hst1
  have hfbp : ∀ a, (fC a).bracketPosition = a.bracketPosition := fun a => rfl
  have hrow : ∀ mm ∈ st1.matchRows, mm = fC mtch ∨ (mm ∈ st.matchRows ∧ mm ≠ fC mtch ∨ mm ∈ st.matchRows) := by
    intro mm hmm
    obtain ⟨a, ha, rfl⟩ := mem_updateById hmm
    by_cases h : a.id = mtch.id
    · left
      rw [if_pos h, eq_of_id_eq hids ha hmem h]
    · right
      right
      rw [if_neg h]
      exact ha
  have hrow' : ∀ mm ∈ st1.matchRows, mm = fC mtch ∨ mm ∈ st.matchRows := by
    intro mm hmm
    rcases hrow mm hmm with h | h | h
    · exact Or.inl h
    · exact Or.inr h.1
    · exact Or.inr h
  have hfind1 : findByBP st1 (BracketPos.R rr j) = some (fC mtch) := by
    rw [← hbp]
    exact findByBP_updateById_self A.skel hmem fC hfbp
  have hfind1_ne : ∀ bp, bp ≠ BracketPos.R rr j → findByBP st1 bp = findByBP st bp := by
    intro bp hne
    exact findByBP_updateById_of_ne A.skel hmem fC hfbp bp (by rw [hbp]; exact fun h => hne h.symm)
  have hrow_players : ∀ bp mm, findByBP st1 bp = some mm →
      ∃ mm0, findByBP st bp = some mm0 ∧ mm.players = mm0.players := by
    intro bp mm hmm
    by_cases h : bp = BracketPos.R rr j
    · subst h
      rw [hfind1] at hmm
      exact ⟨mtch, hfind, by rw [← Option.some.inj hmm]⟩
    · rw [hfind1_ne bp h] at hmm
      exact ⟨mm, hmm, rfl⟩
  have hbyeA : ∀ rr' i' mm, 2 ≤ rr' → ¬(rr' = rr ∧ i' = j) →
      findByBP st (BracketPos.R rr' i') = some mm → mm.status = MatchStatus.pending →
      mm.players.length = 2 ∨ ∃ jx f, (jx = 2 * i' - 1 ∨ jx = 2 * i') ∧
        findByBP st (BracketPos.R (rr' - 1) jx) = some f ∧
          f.status ≠ MatchStatus.completed := by
    intro rr' i' mm h2 hne hmmf hmmp
    rcases hexc with ⟨he1, he2⟩ | he
    · exact A.byeDone rr' i' mm h2 (by omega) hmmf hmmp
    · exact A.byeDone rr' i' mm h2 (by omega) hmmf hmmp
  refine
    { skel := SkelOK_updateById A.skel mtch.id fC (fun a => rfl)
      boardsNil := by rw [hst1, updateById_boards]; exact A.boardsNil
      noBoard := ?_
      noTeam := ?_
      statusPC := ?_
      winClosed := ?_
      winOpen := ?_
      seeded := ?_
      cur := ?_
      mbp := hbp
      mrn := hrn
      mdone := rfl
      mwin := rfl
      mwmem := hw
      destAt := ?_
      destElse := ?_
      disj := ?_
      byeDoneElse := ?_
      tstatA := ?_ }
  · intro mm hmm
    rcases hrow' mm hmm with rfl | h
    · exact A.noBoard mtch hmem
    · exact A.noBoard mm h
  · intro mm hmm
    rcases hrow' mm hmm with rfl | h
    · exact A.noTeam mtch hmem
    · exact A.noTeam mm h
  · intro mm hmm
    rcases hrow' mm hmm with rfl | h
    · right; rfl
    · exact A.statusPC mm h
  · intro mm hmm hc
    rcases hrow' mm hmm with rfl | h
    · exact ⟨w, rfl, hw⟩
    · exact A.winClosed mm h hc
  · intro mm hmm hp
    rcases hrow' mm hmm with rfl | h
    · exact absurd hp (by simp)
    · exact A.winOpen mm h hp
  · intro i' mm hmm
    by_cases h : BracketPos.R 1 i' = BracketPos.R rr j
    · rw [h, hfind1] at hmm
      rw [← Option.some.inj hmm]
      show mtch.players = seededAt entries i'
      obtain ⟨hr1, hj1⟩ := (BracketPos.R.injEq _ _ _ _).mp h
      subst hr1
      subst hj1
      exact A.seeded i' mtch hfind
    · rw [hfind1_ne _ h] at hmm
      exact A.seeded i' mm hmm
  · show findById st1 (fC mtch).id = some (fC mtch)
    have : (fC mtch).id = mtch.id := rfl
    rw [this, hst1, findById_updateById st mtch.id mtch.id fC (fun a => rfl),
      skel_findById_self A.skel hmem]
    simp
  · -- destAt
    intro md hmd
    have hne_dest : BracketPos.R (rr + 1) ((j + 1) / 2) ≠ BracketPos.R rr j := by
      intro h
      have := (BracketPos.R.injEq _ _ _ _).mp h
      omega
    rw [hfind1_ne _ hne_dest] at hmd
    have h2d : 2 ≤ rr + 1 := by
      have := hval.1
      omega
    have hA := A.destPlayers (rr + 1) ((j + 1) / 2) md h2d hmd
    have hj1 : 1 ≤ j := hval.2.2.1
    have hrr1 : rr + 1 - 1 = rr := by omega
    rcases idx_parity j hj1 with ⟨hodd, hjeq⟩ | ⟨heven, hjeq⟩
    · -- j = 2 * jd - 1 : slot 1
      have hc1' : contribOf st1 rr (2 * ((j + 1) / 2) - 1) 1 =
          [{ playerId := w, position := 1 }] := by
        rw [← hjeq]
        exact contribOf_completed hfind1 rfl rfl
      have hc1 : contribOf st rr (2 * ((j + 1) / 2) - 1) 1 = [] := by
        rw [← hjeq]
        exact contribOf_pending hfind (by rw [hpend]; simp)
      have hc2 : contribOf st1 rr (2 * ((j + 1) / 2)) 2 =
          contribOf st rr (2 * ((j + 1) / 2)) 2 := by
        apply contribOf_update_ne A.skel hmem fC hfbp
        rw [hbp]
        intro h
        have := (BracketPos.R.injEq _ _ _ _).mp h
        omega
      unfold contribPair
      rw [hrr1, hc1', hc2]
      unfold contribPair at hA
      rw [hrr1, hc1] at hA
      rw [List.nil_append] at hA
      have hpos : (if j % 2 = 1 then 1 else 2) = 1 := by rw [if_pos hodd]
      rw [hpos]
      exact List.Perm.trans List.perm_append_comm (List.Perm.append_left _ hA)
    · -- j = 2 * jd : slot 2
      have hc2' : contribOf st1 rr (2 * ((j + 1) / 2)) 2 =
          [{ playerId := w, position := 2 }] := by
        rw [← hjeq]
        exact contribOf_completed hfind1 rfl rfl
      have hc2 : contribOf st rr (2 * ((j + 1) / 2)) 2 = [] := by
        rw [← hjeq]
        exact contribOf_pending hfind (by rw [hpend]; simp)
      have hc1 : contribOf st1 rr (2 * ((j + 1) / 2) - 1) 1 =
          contribOf st rr (2 * ((j + 1) / 2) - 1) 1 := by
        apply contribOf_update_ne A.skel hmem fC hfbp
        rw [hbp]
        intro h
        have := (BracketPos.R.injEq _ _ _ _).mp h
        omega
      unfold contribPair
      rw [hrr1, hc2', hc1]
      unfold contribPair at hA
      rw [hrr1, hc2] at hA
      rw [List.append_nil] at hA
      have hpos : (if j % 2 = 1 then 1 else 2) = 2 := by
        rw [if_neg (by omega)]
      rw [hpos]
      exact List.Perm.append_right _ hA
  · -- destElse
    intro rr' j' md h2 hne hmd
    by_cases hposeq : BracketPos.R rr' j' = BracketPos.R rr j
    · obtain ⟨hr1, hj1⟩ := (BracketPos.R.injEq _ _ _ _).mp hposeq
      subst hr1
      subst hj1
      rw [hfind1] at hmd
      rw [← Option.some.inj hmd]
      show (fC mtch).players.Perm (contribPair st1 rr' j')
      have hpl : (fC mtch).players = mtch.players := rfl
      rw [hpl]
      have hA := A.destPlayers rr' j' mtch h2 hfind
      have hc1 : contribOf st1 (rr' - 1) (2 * j' - 1) 1 =
          contribOf st (rr' - 1) (2 * j' - 1) 1 := by
        apply contribOf_update_ne A.skel hmem fC hfbp
        rw [hbp]
        intro h
        have := (BracketPos.R.injEq _ _ _ _).mp h
        omega
      have hc2 : contribOf st1 (rr' - 1) (2 * j') 2 =
          contribOf st (rr' - 1) (2 * j') 2 := by
        apply contribOf_update_ne A.skel hmem fC hfbp
        rw [hbp]
        intro h
        have := (BracketPos.R.injEq _ _ _ _).mp h
        omega
      unfold contribPair
      rw [hc1, hc2]
      exact hA
    · rw [hfind1_ne _ hposeq] at hmd
      have hA := A.destPlayers rr' j' md h2 hmd
      have hnoteq : ¬(rr' = rr + 1 ∧ j' = (j + 1) / 2) := hne
      have hc1 : contribOf st1 (rr' - 1) (2 * j' - 1) 1 =
          contribOf st (rr' - 1) (2 * j' - 1) 1 := by
        apply contribOf_update_ne A.skel hmem fC hfbp
        rw [hbp]
        intro h
        have h3 := (BracketPos.R.injEq _ _ _ _).mp h
        apply hnoteq
        constructor
        · omega
        · omega
      have hc2 : contribOf st1 (rr' - 1) (2 * j') 2 =
          contribOf st (rr' - 1) (2 * j') 2 := by
        apply contribOf_update_ne A.skel hmem fC hfbp
        rw [hbp]
        intro h
        have h3 := (BracketPos.R.injEq _ _ _ _).mp h
        apply hnoteq
        constructor
        · omega
        · omega
      unfold contribPair
      rw [hc1, hc2]
      exact hA
  · -- disj
    intro r' i' i'' mm mm' hmm hmm' hne p hp q hq
    obtain ⟨mm0, hmm0, hpl⟩ := hrow_players _ mm hmm
    obtain ⟨mm0', hmm0', hpl'⟩ := hrow_players _ mm' hmm'
    rw [hpl] at hp
    rw [hpl'] at hq
    exact A.disj r' i' i'' mm0 mm0' hmm0 hmm0' hne p hp q hq
  · -- byeDoneElse
    intro rr' i' mm h2 hne hmm hpend'
    by_cases hposeq : BracketPos.R rr' i' = BracketPos.R rr j
    · rw [hposeq, hfind1] at hmm
      have : mm = fC mtch := (Option.some.inj hmm).symm
      rw [this] at hpend'
      exact absurd hpend' (by simp)
    · rw [hfind1_ne _ hposeq] at hmm
      have hA := hbyeA rr' i' mm h2 (by
        intro ⟨h1, h2'⟩
        exact hposeq (by rw [h1, h2'])) hmm hpend'
      rcases hA with h | ⟨jx, f, hjx, hf, hfs⟩
      · exact Or.inl h
      · right
        refine ⟨jx, f, hjx, ?_, hfs⟩
        rw [hfind1_ne _ ?_]
        · exact hf
        · intro heq
          have h3 := (BracketPos.R.injEq _ _ _ _).mp heq
          apply hne
          constructor
          · omega
          · omega
    -- done byeDoneElse
  · -- tstatA
    constructor
    · intro hnf
      have hnf' : mtch.bracketPosition ≠ finalBP entries.length := hnf
      have htrans : finalCompleted entries.length st1 ↔ finalCompleted entries.length st := by
        unfold finalCompleted
        rw [hfind1_ne (finalBP entries.length) (by rw [← hbp]; exact fun h => hnf' h.symm)]
      have hts : st1.tstatus = st.tstatus := rfl
      rw [hts]
      constructor
      · rw [htrans]
        exact A.tstat.1
      · exact A.tstat.2
    · intro hf
      have : st.tstatus = TournamentStatus.inProgress := hfin hf
      show st1.tstatus = TournamentStatus.inProgress
      rw [show st1.tstatus = st.tstatus from rfl]
      exact this

/-- Pushing the owed winner into the destination's occupant list restores
the boundary invariant, with the bye-resolution clause left suspended at
the destination (the caller re-checks it for a cascading bye). -/
theorem SEInvA_place {entries : List Nat} {st : TState} {m : MatchRec} {w r i : Nat}
    (A : SEInvA entries st m w r i) {nm : MatchRec}
    (hnm : findByBP st (BracketPos.R (r + 1) ((i + 1) / 2)) = some nm) :
    SEInvC entries
      (updateById st nm.id (fun n => { n with players := n.players ++
        [{ playerId := w, position := if i % 2 = 1 then 1 else 2 }] }))
      (r + 1) ((i + 1) / 2) := by
  obtain ⟨hnm_mem, hnm_bp, hnm_rn, hnm_val⟩ := skel_findByBP_some A.skel hnm
  have hm_mem : m ∈ st.matchRows := (findById_eq_some_mem A.cur).1
  have hm_find : findByBP st (BracketPos.R r i) = some m := by
    rw [← A.mbp]
    exact skel_findByBP_self A.skel hm_mem
  obtain ⟨_, _, _, hm_val⟩ := skel_findByBP_some A.skel hm_find
  have hr1 : 1 ≤ r := hm_val.1
  have hi1 : 1 ≤ i := hm_val.2.2.1
  have hids := skel_ids_nodup A.skel
  set wrec : MatchPlayerRec :=
    { playerId := w, position := if i % 2 = 1 then 1 else 2 } with hwrec
  set fP : MatchRec → MatchRec :=
    fun n => { n with players := n.players ++ [wrec] } with hfP
  set st1 := updateById st nm.id fP with hst1
  have hfbp : ∀ a, (fP a).bracketPosition = a.bracketPosition := fun a => rfl
  have hrow' : ∀ mm ∈ st1.matchRows, mm = fP nm ∨ mm ∈ st.matchRows := by
    intro mm hmm
    obtain ⟨a, ha, rfl⟩ := mem_updateById hmm
    by_cases h : a.id = nm.id
    · left
      rw [if_pos h, eq_of_id_eq hids ha hnm_mem h]
    · right
      rw [if_neg h]
      exact ha
  have hfind1 : findByBP st1 (BracketPos.R (r + 1) ((i + 1) / 2)) = some (fP nm) := by
    rw [← hnm_bp]
    exact findByBP_updateById_self A.skel hnm_mem fP hfbp
  have hfind1_ne : ∀ bp, bp ≠ BracketPos.R (r + 1) ((i + 1) / 2) →
      findByBP st1 bp = findByBP st bp := by
    intro bp hne
    exact findByBP_updateById_of_ne A.skel hnm_mem fP hfbp bp
      (by rw [hnm_bp]; exact fun h => hne h.symm)
  have hcontrib : ∀ r' j' pos, contribOf st1 r' j' pos = contribOf st r' j' pos :=
    fun r' j' pos =>
      contribOf_players_update A.skel hnm_mem fP hfbp (fun a => rfl) (fun a => rfl) r' j' pos
  have hcpair : ∀ rr' j', contribPair st1 rr' j' = contribPair st rr' j' := by
    intro rr' j'
    unfold contribPair
    rw [hcontrib, hcontrib]
  have hrow_find : ∀ r' i' mm, findByBP st1 (BracketPos.R r' i') = some mm →
      (mm = fP nm ∧ r' = r + 1 ∧ i' = (i + 1) / 2) ∨
        (¬(r' = r + 1 ∧ i' = (i + 1) / 2) ∧ findByBP st (BracketPos.R r' i') = some mm) := by
    intro r' i' mm hmm
    by_cases h : BracketPos.R r' i' = BracketPos.R (r + 1) ((i + 1) / 2)
    · left
      rw [h, hfind1] at hmm
      obtain ⟨h1, h2⟩ := (BracketPos.R.injEq _ _ _ _).mp h
      exact ⟨(Option.some.inj hmm).symm, h1, h2⟩
    · right
      refine ⟨fun hc => h (by rw [hc.1, hc.2]), ?_⟩
      rw [hfind1_ne _ h] at hmm
      exact hmm
  have hmnf : m.bracketPosition ≠ finalBP entries.length := by
    rw [A.mbp]
    unfold finalBP
    intro h
    obtain ⟨h1, h2⟩ := (BracketPos.R.injEq _ _ _ _).mp h
    have := hnm_val.2.1
    omega
  have htstat := A.tstatA.1 hmnf
  -- disjointness helper: the new occupant differs from every occupant of
  -- every other match in the destination round
  have hdisj_new : ∀ i'' mm' q, i'' ≠ (i + 1) / 2 →
      findByBP st (BracketPos.R (r + 1) i'') = some mm' → q ∈ mm'.players →
      w ≠ q.playerId := by
    intro i'' mm' q hne hmm' hq
    have hperm := A.destElse (r + 1) i'' mm' (by omega) (by
      intro ⟨_, h2⟩
      exact hne h2) hmm'
    have hqc := hperm.mem_iff.mp hq
    obtain ⟨jx, f'', hjx, hf''0, hf''c, hf''w⟩ := contribPair_mem hqc
    have hf'' : findByBP st (BracketPos.R r jx) = some f'' := hf''0
    have hqmem : q.playerId ∈ f''.players.map (fun p => p.playerId) := by
      obtain ⟨w'', hw1, hw2⟩ := A.winClosed f'' (findByBP_eq_some_mem hf'').1 hf''c
      have heq : w'' = q.playerId := by
        rw [hf''w] at hw1
        exact Option.some.inj hw1.symm
      rw [← heq]
      exact hw2
    obtain ⟨qf, hqf, hqfid⟩ := List.mem_map.mp hqmem
    obtain ⟨pm, hpm, hpmid⟩ := List.mem_map.mp A.mwmem
    have hine : i ≠ jx := by
      rcases idx_parity i hi1 with ⟨_, hieq⟩ | ⟨_, hieq⟩ <;> rcases hjx with rfl | rfl <;> omega
    have := A.disj r i jx m f'' hm_find hf'' hine pm hpm qf hqf
    rw [hpmid, hqfid] at this
    exact this
  refine
    { skel := SkelOK_updateById A.skel nm.id fP (fun a => rfl)
      boardsNil := by rw [hst1, updateById_boards]; exact A.boardsNil
      noBoard := ?_
      noTeam := ?_
      statusPC := ?_
      winClosed := ?_
      winOpen := ?_
      seeded := ?_
      destPlayers := ?_
      disj := ?_
      byeDone := ?_
      tstat := ?_ }
  · intro mm hmm
    rcases hrow' mm hmm with rfl | h
    · exact A.noBoard nm hnm_mem
    · exact A.noBoard mm h
  · intro mm hmm
    rcases hrow' mm hmm with rfl | h
    · exact A.noTeam nm hnm_mem
    · exact A.noTeam mm h
  · intro mm hmm
    rcases hrow' mm hmm with rfl | h
    · exact A.statusPC nm hnm_mem
    · exact A.statusPC mm h
  · intro mm hmm hc
    rcases hrow' mm hmm with rfl | h
    · obtain ⟨w', hw1, hw2⟩ := A.winClosed nm hnm_mem hc
      refine ⟨w', hw1, ?_⟩
      show w' ∈ (nm.players ++ [wrec]).map (fun p => p.playerId)
      rw [List.map_append]
      exact List.mem_append_left _ hw2
    · exact A.winClosed mm h hc
  · intro mm hmm hp
    rcases hrow' mm hmm with rfl | h
    · exact A.winOpen nm hnm_mem hp
    · exact A.winOpen mm h hp
  · intro i' mm hmm
    have hne1 : BracketPos.R 1 i' ≠ BracketPos.R (r + 1) ((i + 1) / 2) := by
      intro h
      obtain ⟨h1, _⟩ := (BracketPos.R.injEq _ _ _ _).mp h
      omega
    rw [hfind1_ne _ hne1] at hmm
    exact A.seeded i' mm hmm
  · intro rr' j' md h2 hmd
    rcases hrow_find rr' j' md hmd with ⟨rfl, rfl, rfl⟩ | ⟨hne', hmd'⟩
    · show (nm.players ++ [wrec]).Perm (contribPair st1 (r + 1) ((i + 1) / 2))
      rw [hcpair]
      exact A.destAt nm hnm
    · rw [hcpair]
      exact A.destElse rr' j' md h2 hne' hmd'
  · intro r' i' i'' mm mm' hmm hmm' hne p hp q hq
    rcases hrow_find r' i' mm hmm with ⟨rfl, rfl, rfl⟩ | ⟨hnee, hmm0⟩
    · -- mm is the updated destination
      rcases List.mem_append.mp hp with hpold | hpnew
      · rcases hrow_find _ i'' mm' hmm' with ⟨rfl, _, rfl⟩ | ⟨_, hmm0'⟩
        · exact absurd rfl hne
        · exact A.disj _ _ i'' nm mm' hnm hmm0' hne p hpold q hq
      · have hpw : p = wrec := by simpa using hpnew
        rcases hrow_find _ i'' mm' hmm' with ⟨rfl, _, rfl⟩ | ⟨hnee', hmm0'⟩
        · exact absurd rfl hne
        · rw [hpw]
          show wrec.playerId ≠ q.playerId
          exact hdisj_new i'' mm' q (fun h => hnee' ⟨rfl, h⟩) hmm0' hq
    · rcases hrow_find r' i'' mm' hmm' with ⟨rfl, rfl, rfl⟩ | ⟨_, hmm0'⟩
      · rcases List.mem_append.mp hq with hqold | hqnew
        · exact A.disj _ i' _ mm nm hmm0 hnm hne p hp q hqold
        · have hqw : q = wrec := by simpa using hqnew
          rw [hqw]
          intro h
          exact hdisj_new i' mm p (fun hh => hnee ⟨rfl, hh⟩) hmm0 hp h.symm
      · exact A.disj r' i' i'' mm mm' hmm0 hmm0' hne p hp q hq
  · intro rr' i' mm h2 hneexc hmm hpend
    rcases hrow_find rr' i' mm hmm with ⟨rfl, rfl, rfl⟩ | ⟨_, hmm0⟩
    · exact absurd ⟨rfl, rfl⟩ hneexc
    · have hA := A.byeDoneElse rr' i' mm h2 hneexc hmm0 hpend
      rcases hA with h | ⟨jx, f, hjx, hf, hfs⟩
      · exact Or.inl h
      · right
        by_cases hfeq : BracketPos.R (rr' - 1) jx = BracketPos.R (r + 1) ((i + 1) / 2)
        · refine ⟨jx, fP f, hjx, ?_, hfs⟩
          rw [hfeq, hfind1]
          rw [hfeq] at hf
          rw [hnm] at hf
          rw [Option.some.inj hf]
        · refine ⟨jx, f, hjx, ?_, hfs⟩
          rw [hfind1_ne _ hfeq]
          exact hf
  · constructor
    · have hts : st1.tstatus = st.tstatus := rfl
      rw [hts]
      have htrans : finalCompleted entries.length st1 ↔ finalCompleted entries.length st :=
        finalCompleted_update A.skel nm.id fP hfbp (fun a => rfl)
      rw [htrans]
      exact htstat.1
    · show st1.tstatus ≠ TournamentStatus.cancelled
      rw [show st1.tstatus = st.tstatus from rfl]
      exact htstat.2

theorem sePreserve : ∀ fuel : Nat,
    (∀ entries st m w r i, SEInvA entries st m w r i →
      2 * (bracketT entries.length - r) + 1 ≤ fuel →
      SEInv entries (advanceWinnerInBracket fuel st m) ∧
      RowsMono st (advanceWinnerInBracket fuel st m) ∧
      ((advanceWinnerInBracket fuel st m).tstatus = st.tstatus ∨
        (st.tstatus = TournamentStatus.inProgress ∧
          (advanceWinnerInBracket fuel st m).tstatus = TournamentStatus.completed)) ∧
      (∀ i', findByBP (advanceWinnerInBracket fuel st m) (BracketPos.R 1 i') =
        findByBP st (BracketPos.R 1 i'))) ∧
    (∀ entries st rr j, SEInvC entries st rr j → 2 ≤ rr →
      2 * (bracketT entries.length - rr) + 2 ≤ fuel →
      SEInv entries (checkByeCascade fuel st (BracketPos.R rr j)) ∧
      RowsMono st (checkByeCascade fuel st (BracketPos.R rr j)) ∧
      ((checkByeCascade fuel st (BracketPos.R rr j)).tstatus = st.tstatus ∨
        (st.tstatus = TournamentStatus.inProgress ∧
          (checkByeCascade fuel st (BracketPos.R rr j)).tstatus =
            TournamentStatus.completed)) ∧
      (∀ i', findByBP (checkByeCascade fuel st (BracketPos.R rr j)) (BracketPos.R 1 i') =
        findByBP st (BracketPos.R 1 i'))) := by
  intro fuel
  induction fuel with
  | zero =>
    constructor
    · intro entries st m w r i _ hb
      omega
    · intro entries st rr j _ _ hb
      omega
  | succ fuel' ih =>
    obtain ⟨ihAW, ihCBC⟩ := ih
    constructor
    · -- advanceWinnerInBracket
      intro entries st m w r i A hfuel
      have hm_mem : m ∈ st.matchRows := (findById_eq_some_mem A.cur).1
      have hm_find : findByBP st (BracketPos.R r i) = some m := by
        rw [← A.mbp]
        exact skel_findByBP_self A.skel hm_mem
      obtain ⟨_, _, _, hval⟩ := skel_findByBP_some A.skel hm_find
      have hN2 : 2 ≤ entries.length := skel_N_ge_two A.skel hm_mem
      have hi1 : 1 ≤ i := hval.2.2.1
      have hr1 : 1 ≤ r := hval.1
      unfold advanceWinnerInBracket
      rw [A.mbp]
      dsimp only
      rw [A.mrn]
      cases hdest : findByBP st (BracketPos.R (r + 1) ((i + 1) / 2)) with
      | none =>
        have hrT : r = bracketT entries.length ∧ i = 1 := by
          rcases Nat.lt_or_ge r (bracketT entries.length) with hlt | hge
          · exfalso
            obtain ⟨mm, hmm⟩ := skel_findByBP_isSome A.skel (dest_valid hval hlt)
            rw [hmm] at hdest
            cases hdest
          · have hr1 : r = bracketT entries.length := by
              have := hval.2.1
              omega
            have hi : i ≤ sAt entries.length (bracketT entries.length) := by
              rw [← hr1]
              exact hval.2.2.2
            rw [sAt_last hN2] at hi
            exact ⟨hr1, by omega⟩
        have hmfinal : m.bracketPosition = finalBP entries.length := by
          rw [A.mbp, hrT.1, hrT.2]
          rfl
        have hts := A.tstatA.2 hmfinal
        have hauto : autoCompleteTournament st =
            { st with tstatus := TournamentStatus.completed } := by
          unfold autoCompleteTournament
          rw [if_pos hts]
        rw [hauto]
        refine ⟨?_, RowsMono_rows_eq rfl, Or.inr ⟨hts, rfl⟩, fun i' => rfl⟩
        have hfinC : finalCompleted entries.length
            { st with tstatus := TournamentStatus.completed } := by
          refine ⟨m, ?_, A.mdone⟩
          show findByBP st (finalBP entries.length) = some m
          rw [← hmfinal]
          exact skel_findByBP_self A.skel hm_mem
        refine
          { skel := A.skel
            boardsNil := A.boardsNil
            noBoard := A.noBoard
            noTeam := A.noTeam
            statusPC := A.statusPC
            winClosed := A.winClosed
            winOpen := A.winOpen
            seeded := A.seeded
            destPlayers := ?_
            disj := A.disj
            byeDone := ?_
            tstat := ⟨⟨fun _ => hfinC, fun _ => rfl⟩, by simp⟩ }
        · intro rr' j' md h2 hmd
          by_cases hcase : rr' = r + 1 ∧ j' = (i + 1) / 2
          · exfalso
            obtain ⟨rfl, rfl⟩ := hcase
            have := (skel_findByBP_some A.skel (s := st) hmd).2.2.2.2.1
            omega
          · exact A.destElse rr' j' md h2 hcase hmd
        · intro rr' i' mm h2 _ hf hp
          by_cases hcase : rr' = r + 1 ∧ i' = (i + 1) / 2
          · exfalso
            obtain ⟨rfl, rfl⟩ := hcase
            have := (skel_findByBP_some A.skel (s := st) hf).2.2.2.2.1
            omega
          · exact A.byeDoneElse rr' i' mm h2 hcase hf hp
      | some nm =>
        dsimp only
        have hrlt : r < bracketT entries.length := by
          have := (skel_findByBP_some A.skel hdest).2.2.2.2.1
          omega
        have hnotmem : m.winnerId ∉ nm.players.map (fun p => some p.playerId) := by
          rw [A.mwin]
          intro hmem'
          obtain ⟨pq, hpq, hpqid⟩ := List.mem_map.mp hmem'
          have hpqw : pq.playerId = w := Option.some.inj hpqid
          have hperm := A.destAt nm hdest
          set pw : MatchPlayerRec → Bool := fun q => q.playerId == w with hpw
          have hcnt := hperm.countP_eq pw
          rw [List.countP_append] at hcnt
          have hwrec : List.countP pw
              [({ playerId := w, position := if i % 2 = 1 then 1 else 2 } : MatchPlayerRec)] = 1 := by
            simp [hpw]
          rw [hwrec] at hcnt
          have hother : ∀ i2, i ≠ i2 → ∀ pos,
              List.countP pw (contribOf st r i2 pos) = 0 := by
            intro i2 hine pos
            rw [List.countP_eq_zero]
            intro q hq
            obtain ⟨f2, hf2, hf2c, hf2w, _⟩ := contribOf_mem hq
            obtain ⟨w2', hw1, hw2⟩ := A.winClosed f2 (findByBP_eq_some_mem hf2).1 hf2c
            have hw2q : w2' = q.playerId := by
              rw [hf2w] at hw1
              exact Option.some.inj hw1.symm
            obtain ⟨qf, hqf, hqfid⟩ := List.mem_map.mp hw2
            obtain ⟨pm, hpm, hpmid⟩ := List.mem_map.mp A.mwmem
            have hne := A.disj r i i2 m f2 hm_find hf2 hine pm hpm qf hqf
            rw [hpmid, hqfid, hw2q] at hne
            simp [hpw]
            omega
          have hself : List.countP pw (contribOf st r i
              (if i % 2 = 1 then 1 else 2)) = 1 := by
            rw [contribOf_completed hm_find A.mdone A.mwin]
            simp [hpw]
          have hcount_pair : List.countP pw (contribPair st (r + 1) ((i + 1) / 2)) = 1 := by
            unfold contribPair
            rw [List.countP_append]
            have hr1 : r + 1 - 1 = r := by omega
            rw [hr1]
            rcases idx_parity i hi1 with ⟨hodd, hieq⟩ | ⟨heven, hieq⟩
            · have h1 : List.countP pw (contribOf st r (2 * ((i + 1) / 2) - 1) 1) = 1 := by
                rw [← hieq]
                have := hself
                rw [if_pos hodd] at this
                exact this
              have h2 : List.countP pw (contribOf st r (2 * ((i + 1) / 2)) 2) = 0 := by
                apply hother
                omega
              omega
            · have h1 : List.countP pw (contribOf st r (2 * ((i + 1) / 2) - 1) 1) = 0 := by
                apply hother
                omega
              have h2 : List.countP pw (contribOf st r (2 * ((i + 1) / 2)) 2) = 1 := by
                rw [← hieq]
                have := hself
                rw [if_neg (by omega)] at this
                exact this
              omega
          rw [hcount_pair] at hcnt
          have hzero : List.countP pw nm.players = 0 := by omega
          have := List.countP_eq_zero.mp hzero pq hpq
          simp [hpw] at this
          exact this hpqw
        rw [if_neg hnotmem, A.mwin]
        dsimp only
        have hC := SEInvA_place A hdest
        have hfuel' : 2 * (bracketT entries.length - (r + 1)) + 2 ≤ fuel' := by omega
        have hres := ihCBC entries
          (updateById st nm.id (fun n => { n with players := n.players ++
            [{ playerId := w, position := if i % 2 = 1 then 1 else 2 }] }))
          (r + 1) ((i + 1) / 2) hC (by omega) hfuel'
        have hnm_mem' : nm ∈ st.matchRows := (findByBP_eq_some_mem hdest).1
        have hnm_bp' : nm.bracketPosition = BracketPos.R (r + 1) ((i + 1) / 2) :=
          (findByBP_eq_some_mem hdest).2
        refine ⟨hres.1, ?_, ?_, ?_⟩
        · refine RowsMono_trans ?_ hres.2.1
          exact RowsMono_updateById st nm.id _ (fun a => ⟨rfl, fun h => h⟩)
        · have hts1 : (updateById st nm.id (fun n => { n with players := n.players ++
              [{ playerId := w, position := if i % 2 = 1 then 1 else 2 }] })).tstatus =
              st.tstatus := rfl
          rcases hres.2.2.1 with h | ⟨h1, h2⟩
          · left
            rw [h, hts1]
          · right
            rw [hts1] at h1
            exact ⟨h1, h2⟩
        · intro i'
          rw [hres.2.2.2 i']
          apply findByBP_updateById_of_ne A.skel hnm_mem' (fun n =>
            { n with players := n.players ++
              [{ playerId := w, position := if i % 2 = 1 then 1 else 2 }] }) (fun a => rfl)
          rw [hnm_bp']
          intro hcontra
          have := (BracketPos.R.injEq _ _ _ _).mp hcontra
          omega
    · -- checkByeCascade
      intro entries st rr j C hrr hfuel
      unfold checkByeCascade
      dsimp only
      rw [if_neg (show ¬ rr ≤ 1 by omega)]
      have hmkInv : (∀ mm, findByBP st (BracketPos.R rr j) = some mm →
          mm.status = MatchStatus.pending →
          mm.players.length = 2 ∨ ∃ jx f, (jx = 2 * j - 1 ∨ jx = 2 * j) ∧
            findByBP st (BracketPos.R (rr - 1) jx) = some f ∧
            f.status ≠ MatchStatus.completed) → SEInv entries st := by
        intro hfix
        refine
          { skel := C.skel
            boardsNil := C.boardsNil
            noBoard := C.noBoard
            noTeam := C.noTeam
            statusPC := C.statusPC
            winClosed := C.winClosed
            winOpen := C.winOpen
            seeded := C.seeded
            destPlayers := C.destPlayers
            disj := C.disj
            byeDone := ?_
            tstat := C.tstat }
        intro rr' i' mm h2 _ hf hp
        by_cases hpos : rr' = rr ∧ i' = j
        · obtain ⟨rfl, rfl⟩ := hpos
          exact hfix mm hf hp
        · exact C.byeDone rr' i' mm h2 hpos hf hp
      by_cases hcond : (st.matchRows.filter (fun f =>
          f.bracketPosition == BracketPos.R (rr - 1) (2 * j - 1) ||
          f.bracketPosition == BracketPos.R (rr - 1) (2 * j))).length = 0 ∨
          ¬(∀ f ∈ st.matchRows.filter (fun f =>
            f.bracketPosition == BracketPos.R (rr - 1) (2 * j - 1) ||
            f.bracketPosition == BracketPos.R (rr - 1) (2 * j)),
            f.status = MatchStatus.completed)
      · rw [if_pos hcond]
        refine ⟨?_, RowsMono_rfl st, Or.inl rfl, fun i' => rfl⟩
        apply hmkInv
        intro mm hmm hp
        obtain ⟨hmm_mem, hmm_bp, hmm_rn, hmm_val⟩ := skel_findByBP_some C.skel hmm
        rcases hcond with hlen | hnall
        · exfalso
          have hv1 := feeder1_valid hmm_val hrr
          obtain ⟨f1, hf1⟩ := skel_findByBP_isSome C.skel hv1
          obtain ⟨hf1m, hf1bp⟩ := findByBP_eq_some_mem hf1
          have hmemf : f1 ∈ st.matchRows.filter (fun f =>
              f.bracketPosition == BracketPos.R (rr - 1) (2 * j - 1) ||
              f.bracketPosition == BracketPos.R (rr - 1) (2 * j)) := by
            apply List.mem_filter.mpr
            exact ⟨hf1m, by rw [hf1bp]; simp⟩
          rw [List.length_eq_zero] at hlen
          rw [hlen] at hmemf
          simp at hmemf
        · right
          push_neg at hnall
          obtain ⟨f, hfmem, hfnc⟩ := hnall
          have hff := List.mem_filter.mp hfmem
          have hbp2 : f.bracketPosition = BracketPos.R (rr - 1) (2 * j - 1) ∨
              f.bracketPosition = BracketPos.R (rr - 1) (2 * j) := by
            simpa using hff.2
          rcases hbp2 with hbp | hbp
          · refine ⟨2 * j - 1, f, Or.inl rfl, ?_, hfnc⟩
            rw [← hbp]
            exact skel_findByBP_self C.skel hff.1
          · refine ⟨2 * j, f, Or.inr rfl, ?_, hfnc⟩
            rw [← hbp]
            exact skel_findByBP_self C.skel hff.1
      · rw [if_neg hcond]
        push_neg at hcond
        obtain ⟨hlen, hall⟩ := hcond
        have hfeed_completed : ∀ jx f, (jx = 2 * j - 1 ∨ jx = 2 * j) →
            findByBP st (BracketPos.R (rr - 1) jx) = some f →
            f.status = MatchStatus.completed := by
          intro jx f hjx hf
          apply hall
          apply List.mem_filter.mpr
          refine ⟨(findByBP_eq_some_mem hf).1, ?_⟩
          have hb := (findByBP_eq_some_mem hf).2
          rcases hjx with rfl | rfl <;> rw [hb] <;> simp
        cases hfind : findByBP st (BracketPos.R rr j) with
        | none =>
          refine ⟨?_, RowsMono_rfl st, Or.inl rfl, fun i' => rfl⟩
          apply hmkInv
          intro mm hmm _
          rw [hfind] at hmm
          cases hmm
        | some mtch =>
          dsimp only
          obtain ⟨hmtch_mem, hmtch_bp, hmtch_rn, hmtch_val⟩ :=
            skel_findByBP_some C.skel hfind
          have hperm := C.destPlayers rr j mtch hrr hfind
          have hrestore_np : ∀ (hstat' : mtch.status ≠ MatchStatus.pending),
              SEInv entries st := by
            intro hstat'
            apply hmkInv
            intro mm hmm hp
            rw [hfind] at hmm
            rw [← Option.some.inj hmm] at hp
            exact absurd hp hstat'
          rcases hpl : mtch.players with _ | ⟨p, _ | ⟨p2, pt⟩⟩
          · -- no occupants
            cases hstat : mtch.status with
            | pending =>
              exfalso
              rw [hpl] at hperm
              have hpair_nil : contribPair st rr j = [] := List.nil_perm.mp hperm
              have hv1 := feeder1_valid hmtch_val hrr
              obtain ⟨f1, hf1⟩ := skel_findByBP_isSome C.skel hv1
              have hf1c := hfeed_completed _ f1 (Or.inl rfl) hf1
              obtain ⟨w1, hw1, _⟩ := C.winClosed f1 (findByBP_eq_some_mem hf1).1 hf1c
              have hco := contribOf_completed (q := 1) hf1 hf1c hw1
              unfold contribPair at hpair_nil
              rw [hco] at hpair_nil
              simp at hpair_nil
            | waitingForPlayers =>
              exact ⟨hrestore_np (by rw [hstat]; simp), RowsMono_rfl st, Or.inl rfl,
                fun i' => rfl⟩
            | inProgress =>
              exact ⟨hrestore_np (by rw [hstat]; simp), RowsMono_rfl st, Or.inl rfl,
                fun i' => rfl⟩
            | completed =>
              exact ⟨hrestore_np (by rw [hstat]; simp), RowsMono_rfl st, Or.inl rfl,
                fun i' => rfl⟩
            | disputed =>
              exact ⟨hrestore_np (by rw [hstat]; simp), RowsMono_rfl st, Or.inl rfl,
                fun i' => rfl⟩
            | cancelled =>
              exact ⟨hrestore_np (by rw [hstat]; simp), RowsMono_rfl st, Or.inl rfl,
                fun i' => rfl⟩
          · -- sole occupant
            cases hstat : mtch.status with
            | pending =>
              dsimp only
              have hfind1 : findById (updateById st mtch.id (fun n =>
                  { n with status := MatchStatus.completed, winnerId := some p.playerId }))
                  mtch.id =
                  some { mtch with status := MatchStatus.completed, winnerId := some p.playerId } := by
                rw [findById_updateById st mtch.id mtch.id (fun n =>
                    { n with status := MatchStatus.completed, winnerId := some p.playerId })
                    (fun a => rfl),
                  skel_findById_self C.skel hmtch_mem]
                simp
              rw [hfind1]
              dsimp only
              have hfin : mtch.bracketPosition = finalBP entries.length →
                  st.tstatus = TournamentStatus.inProgress := by
                intro hf
                exfalso
                rw [hmtch_bp] at hf
                obtain ⟨hfr, hfj⟩ := (BracketPos.R.injEq _ _ _ _).mp hf
                have hT2 : 2 ≤ bracketT entries.length := by omega
                have hs2 : 2 ≤ sAt entries.length (rr - 1) := by
                  have := sAt_gt_one (N := entries.length) (r := rr - 1)
                    (by omega) (by omega)
                  omega
                have hv1 := feeder1_valid hmtch_val hrr
                have hv2 := feeder2_valid hmtch_val hrr (by omega)
                obtain ⟨f1, hf1⟩ := skel_findByBP_isSome C.skel hv1
                obtain ⟨f2, hf2⟩ := skel_findByBP_isSome C.skel hv2
                have hf1c := hfeed_completed _ f1 (Or.inl rfl) hf1
                have hf2c := hfeed_completed _ f2 (Or.inr rfl) hf2
                obtain ⟨w1, hw1, _⟩ := C.winClosed f1 (findByBP_eq_some_mem hf1).1 hf1c
                obtain ⟨w2, hw2, _⟩ := C.winClosed f2 (findByBP_eq_some_mem hf2).1 hf2c
                have hlenp := hperm.length_eq
                unfold contribPair at hlenp
                rw [contribOf_completed (q := 1) hf1 hf1c hw1,
                  contribOf_completed (q := 2) hf2 hf2c hw2, hpl] at hlenp
                simp at hlenp
              have hA := SEInv_complete (w := p.playerId) C (Or.inl ⟨rfl, rfl⟩)
                hfind hstat (by rw [hpl]; simp) hfin
              have hres := ihAW entries _ _ p.playerId rr j hA (by omega)
              refine ⟨hres.1, ?_, ?_, ?_⟩
              · refine RowsMono_trans ?_ hres.2.1
                exact RowsMono_updateById st mtch.id _ (fun a => ⟨rfl, fun _ => rfl⟩)
              · rcases hres.2.2.1 with h | ⟨h1, h2⟩
                · exact Or.inl h
                · exact Or.inr ⟨h1, h2⟩
              · intro i'
                rw [hres.2.2.2 i']
                apply findByBP_updateById_of_ne C.skel hmtch_mem (fun n =>
                  { n with status := MatchStatus.completed, winnerId := some p.playerId })
                  (fun a => rfl)
                rw [hmtch_bp]
                intro hcontra
                have := (BracketPos.R.injEq _ _ _ _).mp hcontra
                omega
            | waitingForPlayers =>
              exact ⟨hrestore_np (by rw [hstat]; simp), RowsMono_rfl st, Or.inl rfl,
                fun i' => rfl⟩
            | inProgress =>
              exact ⟨hrestore_np (by rw [hstat]; simp), RowsMono_rfl st, Or.inl rfl,
                fun i' => rfl⟩
            | completed =>
              exact ⟨hrestore_np (by rw [hstat]; simp), RowsMono_rfl st, Or.inl rfl,
                fun i' => rfl⟩
            | disputed =>
              exact ⟨hrestore_np (by rw [hstat]; simp), RowsMono_rfl st, Or.inl rfl,
                fun i' => rfl⟩
            | cancelled =>
              exact ⟨hrestore_np (by rw [hstat]; simp), RowsMono_rfl st, Or.inl rfl,
                fun i' => rfl⟩
          · -- two or more occupants: untouched
            have hlen2 : mtch.players.length = 2 := by
              have h1 := hperm.length_eq
              have h2 := contribPair_length (s := st) rr j
              rw [hpl] at h1 ⊢
              simp only [List.length_cons] at h1 ⊢
              omega
            have hrest : SEInv entries st := by
              apply hmkInv
              intro mm hmm hp
              rw [hfind] at hmm
              rw [← Option.some.inj hmm]
              exact Or.inl hlen2
            cases hstat : mtch.status with
            | pending => exact ⟨hrest, RowsMono_rfl st, Or.inl rfl, fun i' => rfl⟩
            | waitingForPlayers => exact ⟨hrest, RowsMono_rfl st, Or.inl rfl, fun i' => rfl⟩
            | inProgress => exact ⟨hrest, RowsMono_rfl st, Or.inl rfl, fun i' => rfl⟩
            | completed => exact ⟨hrest, RowsMono_rfl st, Or.inl rfl, fun i' => rfl⟩
            | disputed => exact ⟨hrest, RowsMono_rfl st, Or.inl rfl, fun i' => rfl⟩
            | cancelled => exact ⟨hrest, RowsMono_rfl st, Or.inl rfl, fun i' => rfl⟩

theorem seedPlayers_skelProj : ∀ (ms : List MatchRec) (es : List Nat),
    (seedPlayers ms es).map skelProj = ms.map skelProj := by
  intro ms
  induction ms with
  | nil => intro es; cases es <;> rfl
  | cons m rest ih =>
    intro es
    match es with
    | [] =>
      show skelProj m :: (seedPlayers rest []).map skelProj = _
      rw [ih []]
      rfl
    | [e1] =>
      show skelProj _ :: (seedPlayers rest []).map skelProj = _
      rw [ih []]
      rfl
    | e1 :: e2 :: es' =>
      show skelProj _ :: (seedPlayers rest es').map skelProj = _
      rw [ih es']
      rfl

theorem seedPlayers_length (ms : List MatchRec) (es : List Nat) :
    (seedPlayers ms es).length = ms.length := by
  have := congrArg List.length (seedPlayers_skelProj ms es)
  rw [List.length_map, List.length_map] at this
  exact this

theorem mkRoundMatches_length (r0 s n0 : Nat) : (mkRoundMatches r0 s n0).length = s := by
  unfold mkRoundMatches
  rw [List.length_map, List.length_range]

theorem mkRoundMatches_get? (r0 s n0 k : Nat) (hk : k < s) :
    (mkRoundMatches r0 s n0).get? k =
      some
        { id := n0 + k
          roundNumber := r0
          matchNumber := n0 + k
          bracketPosition := BracketPos.R r0 (k + 1)
          status := MatchStatus.pending } := by
  unfold mkRoundMatches
  rw [List.get?_map, List.get?_range hk]
  rfl

theorem canon_first_block {N : Nat} (hN : 2 ≤ N) :
    canonRows N = mkRoundMatches 1 ((roundSizes N).headD 0) 1 ++
      mkAllMatches (roundSizes N).tail 2 (1 + (roundSizes N).headD 0) := by
  unfold canonRows
  rw [roundSizes_eq]
  simp only [show N > 1 by omega, if_true]
  rfl

theorem canon_get?_first {N : Nat} (hN : 2 ≤ N) (k : Nat)
    (hk : k < (roundSizes N).headD 0) :
    (canonRows N).get? k =
      some
        { id := 1 + k
          roundNumber := 1
          matchNumber := 1 + k
          bracketPosition := BracketPos.R 1 (k + 1)
          status := MatchStatus.pending } := by
  rw [canon_first_block hN, List.get?_append]
  · exact mkRoundMatches_get? 1 _ 1 k hk
  · rw [mkRoundMatches_length]
    exact hk

theorem canon_drop_first {N : Nat} (hN : 2 ≤ N) :
    (canonRows N).drop ((roundSizes N).headD 0) =
      mkAllMatches (roundSizes N).tail 2 (1 + (roundSizes N).headD 0) := by
  rw [canon_first_block hN]
  exact List.drop_left' (mkRoundMatches_length 1 _ 1)

theorem canon_take_length {N : Nat} (hN : 2 ≤ N) :
    ((canonRows N).take ((roundSizes N).headD 0)).length = (roundSizes N).headD 0 := by
  rw [List.length_take]
  rw [canon_first_block hN, List.length_append, mkRoundMatches_length]
  omega

theorem seeded_part1_mem {N : Nat} (entries : List Nat) (hN : 2 ≤ N) {m' : MatchRec}
    (hm : m' ∈ seedPlayers ((canonRows N).take ((roundSizes N).headD 0)) entries) :
    ∃ k, k < (roundSizes N).headD 0 ∧
      m' =
        { id := 1 + k
          roundNumber := 1
          matchNumber := 1 + k
          bracketPosition := BracketPos.R 1 (k + 1)
          status := MatchStatus.pending
          players := seededAt entries (k + 1) } := by
  obtain ⟨k, hk⟩ := List.mem_iff_get?.mp hm
  rw [seedPlayers_get?] at hk
  have hklt : k < (roundSizes N).headD 0 := by
    by_contra hge
    rw [List.get?_eq_none.mpr (by rw [List.length_take]; omega)] at hk
    simp at hk
  rw [List.get?_take hklt, canon_get?_first hN k hklt] at hk
  refine ⟨k, hklt, ?_⟩
  have := Option.some.inj hk
  rw [← this]
  rfl

theorem seeded_part2_mem {N : Nat} (hN : 2 ≤ N) {m' : MatchRec}
    (hm : m' ∈ (canonRows N).drop ((roundSizes N).headD 0)) :
    m' ∈ canonRows N ∧ 2 ≤ m'.roundNumber ∧ m'.status = MatchStatus.pending ∧
      m'.winnerId = none ∧ m'.winnerTeamId = none ∧ m'.dartboardId = none ∧
      m'.players = [] ∧ ∃ r i, m'.bracketPosition = BracketPos.R r i ∧ 2 ≤ r := by
  have hmem : m' ∈ canonRows N := List.mem_of_mem_drop hm
  rw [canon_drop_first hN] at hm
  obtain ⟨k, i, _, _, _, hbp, hrn⟩ := mkAllMatches_mem_shape _ 2 _ m' hm
  obtain ⟨hs, hw, hwt, hd, hp, _⟩ := mkAllMatches_mem_fields _ 2 _ m' hm
  exact ⟨hmem, by omega, hs, hw, hwt, hd, hp, 2 + k, i, hbp, by omega⟩

theorem gen_eq (fuel : Nat) (entries : List Nat) :
    generateSingleEliminationBracket fuel entries
      { matchRows := [], tstatus := TournamentStatus.registration } =
      completeR1Byes fuel (seededState entries)
        (((seededRows entries).take ((roundSizes entries.length).headD 0)).map
          (fun m => m.id)) := rfl

theorem seededState_skel (entries : List Nat) :
    SkelOK entries.length (seededState entries) := by
  show (seededRows entries).map skelProj = _
  unfold seededRows
  rw [List.map_append, seedPlayers_skelProj, ← List.map_append, List.take_append_drop]

theorem seededRows_mem {entries : List Nat} (hN : 2 ≤ entries.length) {m' : MatchRec}
    (hm : m' ∈ seededRows entries) :
    m'.status = MatchStatus.pending ∧ m'.winnerId = none ∧ m'.winnerTeamId = none ∧
      m'.dartboardId = none ∧
      ((∃ k, k < (roundSizes entries.length).headD 0 ∧
          m'.bracketPosition = BracketPos.R 1 (k + 1) ∧
          m'.players = seededAt entries (k + 1)) ∨
        (m'.players = [] ∧ ∃ r i, m'.bracketPosition = BracketPos.R r i ∧ 2 ≤ r)) := by
  rcases List.mem_append.mp hm with h | h
  · obtain ⟨k, hk, rfl⟩ := seeded_part1_mem entries hN h
    exact ⟨rfl, rfl, rfl, rfl, Or.inl ⟨k, hk, rfl, rfl⟩⟩
  · obtain ⟨_, _, hs, hw, hwt, hd, hp, r, i, hbp, hr⟩ := seeded_part2_mem hN h
    exact ⟨hs, hw, hwt, hd, Or.inr ⟨hp, r, i, hbp, hr⟩⟩

theorem seededState_r1 {entries : List Nat} (hN : 2 ≤ entries.length) {i : Nat}
    {mm : MatchRec} (hmm : findByBP (seededState entries) (BracketPos.R 1 i) = some mm) :
    mm.players = seededAt entries i := by
  obtain ⟨hmem, hbp⟩ := findByBP_eq_some_mem hmm
  obtain ⟨_, _, _, _, hcase⟩ := seededRows_mem hN hmem
  rcases hcase with ⟨k, hk, hbp', hpl⟩ | ⟨_, r, i', hbp', hr⟩
  · rw [hbp] at hbp'
    obtain ⟨_, hke⟩ := (BracketPos.R.injEq _ _ _ _).mp hbp'
    rw [hke]
    exact hpl
  · rw [hbp] at hbp'
    obtain ⟨hre, _⟩ := (BracketPos.R.injEq _ _ _ _).mp hbp'
    omega

theorem seededState_hi {entries : List Nat} (hN : 2 ≤ entries.length) {rr i : Nat}
    (hrr : 2 ≤ rr) {mm : MatchRec}
    (hmm : findByBP (seededState entries) (BracketPos.R rr i) = some mm) :
    mm.players = [] := by
  obtain ⟨hmem, hbp⟩ := findByBP_eq_some_mem hmm
  obtain ⟨_, _, _, _, hcase⟩ := seededRows_mem hN hmem
  rcases hcase with ⟨k, hk, hbp', hpl⟩ | ⟨hpl, r, i', hbp', hr⟩
  · rw [hbp] at hbp'
    obtain ⟨hre, _⟩ := (BracketPos.R.injEq _ _ _ _).mp hbp'
    omega
  · exact hpl

theorem SEInv_seeded (entries : List Nat) (hN : 2 ≤ entries.length)
    (hnd : entries.Nodup) : SEInv entries (seededState entries) := by
  have hskel := seededState_skel entries
  have hmemfacts : ∀ m' ∈ (seededState entries).matchRows,
      m'.status = MatchStatus.pending ∧ m'.winnerId = none ∧
      m'.winnerTeamId = none ∧ m'.dartboardId = none :=
    fun m' hm' => ⟨(seededRows_mem hN hm').1, (seededRows_mem hN hm').2.1,
      (seededRows_mem hN hm').2.2.1, (seededRows_mem hN hm').2.2.2.1⟩
  have hpair_nil : ∀ rr j, 2 ≤ rr →
      contribPair (seededState entries) rr j = [] := by
    intro rr j _
    unfold contribPair
    have hco : ∀ jx pos, contribOf (seededState entries) (rr - 1) jx pos = [] := by
      intro jx pos
      cases hf : findByBP (seededState entries) (BracketPos.R (rr - 1) jx) with
      | none => exact contribOf_none hf
      | some f =>
        apply contribOf_pending hf
        rw [(hmemfacts f (findByBP_eq_some_mem hf).1).1]
        simp
    rw [hco, hco]
    rfl
  refine
    { skel := hskel
      boardsNil := rfl
      noBoard := fun m' hm' => (hmemfacts m' hm').2.2.2
      noTeam := fun m' hm' => (hmemfacts m' hm').2.2.1
      statusPC := fun m' hm' => Or.inl (hmemfacts m' hm').1
      winClosed := ?_
      winOpen := fun m' hm' _ => (hmemfacts m' hm').2.1
      seeded := fun i mm hmm => seededState_r1 hN hmm
      destPlayers := ?_
      disj := ?_
      byeDone := ?_
      tstat := ?_ }
  · intro m' hm' hc
    rw [(hmemfacts m' hm').1] at hc
    cases hc
  · intro rr j mm h2 hmm
    rw [seededState_hi hN h2 hmm, hpair_nil rr j h2]
  · intro r i i' mm mm' hmm hmm' hne p hp q hq
    obtain ⟨_, _, _, hv⟩ := skel_findByBP_some hskel hmm
    obtain ⟨_, _, _, hv'⟩ := skel_findByBP_some hskel hmm'
    rcases Nat.lt_or_ge r 2 with hr1 | hr2
    · have hre : r = 1 := by
        have := hv.1
        omega
      subst hre
      have h1 := seededState_r1 hN hmm
      have h2 := seededState_r1 hN hmm'
      rw [h1] at hp
      rw [h2] at hq
      exact seededAt_disjoint entries hnd i i' hne hv.2.2.1 hv'.2.2.1 p q hp hq
    · rw [seededState_hi hN hr2 hmm] at hp
      cases hp
  · intro rr i mm h2 _ hmm hpend
    right
    obtain ⟨_, _, _, hv⟩ := skel_findByBP_some hskel hmm
    obtain ⟨f1, hf1⟩ := skel_findByBP_isSome hskel (feeder1_valid hv h2)
    refine ⟨2 * i - 1, f1, Or.inl rfl, hf1, ?_⟩
    rw [(hmemfacts f1 (findByBP_eq_some_mem hf1).1).1]
    simp
  · constructor
    · constructor
      · intro h
        exact absurd h (by simp [seededState])
      · rintro ⟨mf, hmf, hmfs⟩
        exfalso
        rw [(hmemfacts mf (findByBP_eq_some_mem hmf).1).1] at hmfs
        cases hmfs
    · show TournamentStatus.registration ≠ TournamentStatus.cancelled
      simp

theorem skel_id_bp {N : Nat} {st st' : TState} (hs : SkelOK N st) (hs' : SkelOK N st')
    {mm mm' : MatchRec} (hm : mm ∈ st.matchRows) (hm' : mm' ∈ st'.matchRows)
    (hid : mm.id = mm'.id) : mm.bracketPosition = mm'.bracketPosition := by
  have h1 : skelProj mm ∈ (canonRows N).map skelProj := by
    rw [← hs]
    exact List.mem_map_of_mem skelProj hm
  have h2 : skelProj mm' ∈ (canonRows N).map skelProj := by
    rw [← hs']
    exact List.mem_map_of_mem skelProj hm'
  obtain ⟨c, hc, hcp⟩ := List.mem_map.mp h1
  obtain ⟨c', hc', hcp'⟩ := List.mem_map.mp h2
  have hcid : c.id = mm.id := congrArg (fun t : Nat × BracketPos × Nat × Nat => t.1) hcp
  have hcid' : c'.id = mm'.id := congrArg (fun t : Nat × BracketPos × Nat × Nat => t.1) hcp'
  have hcc : c = c' := by
    apply List.inj_on_of_nodup_map (mkAllMatches_ids_nodup (roundSizes N) 1 1) hc hc'
    rw [hcid, hcid', hid]
  have hb1 : c.bracketPosition = mm.bracketPosition :=
    congrArg (fun t : Nat × BracketPos × Nat × Nat => t.2.1) hcp
  have hb2 : c'.bracketPosition = mm'.bracketPosition :=
    congrArg (fun t : Nat × BracketPos × Nat × Nat => t.2.1) hcp'
  rw [← hb1, ← hb2, hcc]

theorem completeR1Byes_pres : ∀ (mids : List Nat) (entries : List Nat) (st : TState)
    (fuel : Nat),
    SEInv entries st →
    2 * bracketT entries.length + 1 ≤ fuel →
    st.tstatus = TournamentStatus.registration →
    mids.Nodup →
    (∀ mid ∈ mids, ∃ i mm, findByBP st (BracketPos.R 1 i) = some mm ∧ mm.id = mid ∧
      mm.status = MatchStatus.pending) →
    (∀ i mm, findByBP st (BracketPos.R 1 i) = some mm →
      mm.status = MatchStatus.pending → mm.players.length = 2 ∨ mm.id ∈ mids) →
    SEInv entries (completeR1Byes fuel st mids) ∧
    (completeR1Byes fuel st mids).tstatus = TournamentStatus.registration ∧
    R1Done (completeR1Byes fuel st mids) := by
  intro mids
  induction mids with
  | nil =>
    intro entries st fuel hInv hfuel hreg _ _ hr1e
    refine ⟨hInv, hreg, ?_⟩
    intro i mm hmm hp
    rcases hr1e i mm hmm hp with h | h
    · exact h
    · simp at h
  | cons mid rest ih =>
    intro entries st fuel hInv hfuel hreg hnd hmids hr1e
    have hN2 : 2 ≤ entries.length := by
      obtain ⟨i0, mm0, hmm0, _, _⟩ := hmids mid (by simp)
      exact skel_N_ge_two hInv.skel (findByBP_eq_some_mem hmm0).1
    show (SEInv entries (completeR1Byes fuel st (mid :: rest)) ∧ _)
    obtain ⟨i, mtch, hfindbp, hmtch_id, hpend⟩ := hmids mid (by simp)
    have hmtch_mem : mtch ∈ st.matchRows := (findByBP_eq_some_mem hfindbp).1
    have hbp : mtch.bracketPosition = BracketPos.R 1 i := (findByBP_eq_some_mem hfindbp).2
    have hfind : findById st mid = some mtch := by
      rw [← hmtch_id]
      exact skel_findById_self hInv.skel hmtch_mem
    obtain ⟨_, _, _, hval⟩ := skel_findByBP_some hInv.skel hfindbp
    have hseed := hInv.seeded i mtch hfindbp
    have hi_bound : 2 * (i - 1) < entries.length := by
      have h1 : i ≤ sAt entries.length 1 := hval.2.2.2
      rw [sAt_one hN2] at h1
      have h2 : 1 ≤ i := hval.2.2.1
      omega
    have hlen_seed : mtch.players.length = min 2 (entries.length - 2 * (i - 1)) := by
      rw [hseed]
      exact seededAt_length entries i
    unfold completeR1Byes
    rw [hfind]
    dsimp only
    rcases hpl : mtch.players with _ | ⟨p, _ | ⟨p2, pt⟩⟩
    · exfalso
      rw [hpl] at hlen_seed
      simp at hlen_seed
      omega
    · -- single occupant: complete it, advance, recurse
      dsimp only
      have hfin : mtch.bracketPosition = finalBP entries.length →
          st.tstatus = TournamentStatus.inProgress := by
        intro hf
        exfalso
        rw [hbp] at hf
        unfold finalBP at hf
        obtain ⟨hfr, hfj⟩ := (BracketPos.R.injEq _ _ _ _).mp hf
        have hT1 : bracketT entries.length = 1 := hfr.symm
        have hs1 := sAt_last hN2
        rw [hT1, sAt_one hN2] at hs1
        have hNe : entries.length = 2 := by omega
        rw [hpl] at hlen_seed
        simp at hlen_seed
        omega
      rw [← hmtch_id]
      have hA := SEInv_complete (w := p.playerId) (SEInv_weaken hInv 0 0) (Or.inr rfl)
        hfindbp hpend (by rw [hpl]; simp) hfin
      have hfind1 : findById (updateById st mtch.id (fun n =>
          { n with status := MatchStatus.completed, winnerId := some p.playerId }))
          mtch.id =
          some { mtch with status := MatchStatus.completed, winnerId := some p.playerId } := by
        rw [findById_updateById st mtch.id mtch.id (fun n =>
            { n with status := MatchStatus.completed, winnerId := some p.playerId })
            (fun a => rfl),
          skel_findById_self hInv.skel hmtch_mem]
        simp
      rw [hfind1]
      dsimp only
      have hres := (sePreserve fuel).1 entries _ _ p.playerId 1 i hA (by omega)
      set st1 := updateById st mtch.id (fun n =>
        { n with status := MatchStatus.completed, winnerId := some p.playerId }) with hst1
      set st2 := advanceWinnerInBracket fuel st1
        { mtch with status := MatchStatus.completed, winnerId := some p.playerId } with hst2
      have hreg2 : st2.tstatus = TournamentStatus.registration := by
        rcases hres.2.2.1 with h | ⟨h1, _⟩
        · rw [h]
          show st.tstatus = _
          exact hreg
        · exfalso
          rw [show st1.tstatus = st.tstatus from rfl, hreg] at h1
          cases h1
      have hr1fix2 : ∀ i', i' ≠ i → findByBP st2 (BracketPos.R 1 i') =
          findByBP st (BracketPos.R 1 i') := by
        intro i' hne
        rw [hres.2.2.2 i']
        apply findByBP_updateById_of_ne hInv.skel hmtch_mem (fun n =>
          { n with status := MatchStatus.completed, winnerId := some p.playerId })
          (fun a => rfl)
        rw [hbp]
        intro hcontra
        have := (BracketPos.R.injEq _ _ _ _).mp hcontra
        omega
      have hati : findByBP st2 (BracketPos.R 1 i) =
          some { mtch with status := MatchStatus.completed, winnerId := some p.playerId } := by
        rw [hres.2.2.2 i, ← hbp]
        exact findByBP_updateById_self hInv.skel hmtch_mem _ (fun a => rfl)
      apply ih entries st2 fuel hres.1 hfuel hreg2 (List.Nodup.of_cons hnd)
      · intro mid' hmid'
        obtain ⟨i', mm', hmm', hid', hpend'⟩ := hmids mid' (by simp [hmid'])
        have hii : i' ≠ i := by
          intro hcontra
          rw [hcontra, hfindbp] at hmm'
          have : mm' = mtch := (Option.some.inj hmm').symm
          rw [this, hmtch_id] at hid'
          rw [← hid'] at hmid'
          exact (List.nodup_cons.mp hnd).1 hmid'
        refine ⟨i', mm', ?_, hid', hpend'⟩
        rw [hr1fix2 i' hii]
        exact hmm'
      · intro i' mm hmm hp
        by_cases hii : i' = i
        · exfalso
          rw [hii, hati] at hmm
          rw [← Option.some.inj hmm] at hp
          exact absurd hp (by simp)
        · rw [hr1fix2 i' hii] at hmm
          rcases hr1e i' mm hmm hp with h | h
          · exact Or.inl h
          · rcases List.mem_cons.mp h with heq | hmem
            · exfalso
              have hmmtch : mm = mtch := by
                apply eq_of_id_eq (skel_ids_nodup hInv.skel)
                  (findByBP_eq_some_mem hmm).1 hmtch_mem
                rw [heq, hmtch_id]
              rw [hmmtch] at hmm
              have hbp2 := (findByBP_eq_some_mem hmm).2
              rw [hbp] at hbp2
              obtain ⟨_, hie⟩ := (BracketPos.R.injEq _ _ _ _).mp hbp2
              exact hii hie.symm
            · exact Or.inr hmem
    · -- full pair: untouched, recurse
      apply ih entries st fuel hInv hfuel hreg (List.Nodup.of_cons hnd)
      · intro mid' hmid'
        exact hmids mid' (by simp [hmid'])
      · intro i' mm hmm hp
        rcases hr1e i' mm hmm hp with h | h
        · exact Or.inl h
        · rcases List.mem_cons.mp h with heq | hmem
          · left
            have hmmtch : mm = mtch := by
              apply eq_of_id_eq (skel_ids_nodup hInv.skel)
                (findByBP_eq_some_mem hmm).1 hmtch_mem
              rw [heq, hmtch_id]
            rw [hmmtch, hpl]
            rw [hpl] at hlen_seed
            simp only [List.length_cons] at hlen_seed ⊢
            omega
          · exact Or.inr hmem

theorem SEInv_set_inprogress {entries : List Nat} {st : TState} (h : SEInv entries st)
    (hreg : st.tstatus = TournamentStatus.registration) :
    SEInv entries { st with tstatus := TournamentStatus.inProgress } := by
  have hnf : ¬ finalCompleted entries.length st := by
    intro hf
    have := h.tstat.1.mpr hf
    rw [hreg] at this
    cases this
  refine
    { skel := h.skel
      boardsNil := h.boardsNil
      noBoard := h.noBoard
      noTeam := h.noTeam
      statusPC := h.statusPC
      winClosed := h.winClosed
      winOpen := h.winOpen
      seeded := h.seeded
      destPlayers := h.destPlayers
      disj := h.disj
      byeDone := h.byeDone
      tstat := ⟨⟨fun hc => absurd hc (by simp), fun hf => absurd hf hnf⟩, by simp⟩ }

theorem startTournament_eq (fuel : Nat) (entries : List Nat) :
    startTournament fuel entries =
      { completeR1Byes fuel (seededState entries)
          (((seededRows entries).take ((roundSizes entries.length).headD 0)).map
            (fun m => m.id)) with tstatus := TournamentStatus.inProgress } := rfl

theorem startTournament_inv (entries : List Nat) (hN : 2 ≤ entries.length)
    (hnd : entries.Nodup) (fuel : Nat)
    (hfuel : 2 * bracketT entries.length + 1 ≤ fuel) :
    SEInv entries (startTournament fuel entries) ∧
    (startTournament fuel entries).tstatus = TournamentStatus.inProgress ∧
    R1Done (startTournament fuel entries) := by
  have hInv0 := SEInv_seeded entries hN hnd
  have htake : (seededRows entries).take ((roundSizes entries.length).headD 0) =
      seedPlayers ((canonRows entries.length).take ((roundSizes entries.length).headD 0))
        entries := by
    unfold seededRows
    apply List.take_left'
    rw [seedPlayers_length, canon_take_length hN]
  have hpartA_mem : ∀ m' ∈ (seededRows entries).take ((roundSizes entries.length).headD 0),
      ∃ k, k < (roundSizes entries.length).headD 0 ∧
        m'.bracketPosition = BracketPos.R 1 (k + 1) ∧
        m'.status = MatchStatus.pending ∧ m' ∈ (seededState entries).matchRows := by
    intro m' hm'
    have hm'2 := hm'
    rw [htake] at hm'2
    obtain ⟨k, hk, hrec⟩ := seeded_part1_mem entries hN hm'2
    refine ⟨k, hk, by rw [hrec], by rw [hrec], ?_⟩
    show m' ∈ seededRows entries
    unfold seededRows
    apply List.mem_append_left
    rw [htake] at hm'
    exact hm'
  have hmids : ∀ mid ∈ ((seededRows entries).take
      ((roundSizes entries.length).headD 0)).map (fun m => m.id),
      ∃ i mm, findByBP (seededState entries) (BracketPos.R 1 i) = some mm ∧
        mm.id = mid ∧ mm.status = MatchStatus.pending := by
    intro mid hmid
    obtain ⟨m', hm', hid⟩ := List.mem_map.mp hmid
    obtain ⟨k, hk, hbp, hst, hmem⟩ := hpartA_mem m' hm'
    refine ⟨k + 1, m', ?_, hid, hst⟩
    rw [← hbp]
    exact skel_findByBP_self (seededState_skel entries) hmem
  have hmids_nd : (((seededRows entries).take
      ((roundSizes entries.length).headD 0)).map (fun m => m.id)).Nodup := by
    rw [List.map_take]
    exact List.Nodup.sublist (List.take_sublist _ _)
      (skel_ids_nodup (seededState_skel entries))
  have hr1e : ∀ i mm, findByBP (seededState entries) (BracketPos.R 1 i) = some mm →
      mm.status = MatchStatus.pending → mm.players.length = 2 ∨
      mm.id ∈ ((seededRows entries).take
        ((roundSizes entries.length).headD 0)).map (fun m => m.id) := by
    intro i mm hmm _
    right
    obtain ⟨hmem, hbp⟩ := findByBP_eq_some_mem hmm
    have hmm2 : mm ∈ seededRows entries := hmem
    unfold seededRows at hmm2
    rcases List.mem_append.mp hmm2 with h | h
    · apply List.mem_map_of_mem
      rw [htake]
      exact h
    · exfalso
      obtain ⟨_, _, _, _, _, _, _, r, i', hbp', hr⟩ := seeded_part2_mem hN h
      rw [hbp] at hbp'
      obtain ⟨hre, _⟩ := (BracketPos.R.injEq _ _ _ _).mp hbp'
      omega
  have hgen := completeR1Byes_pres
    (((seededRows entries).take ((roundSizes entries.length).headD 0)).map
      (fun m => m.id)) entries (seededState entries) fuel hInv0 hfuel rfl
    hmids_nd hmids hr1e
  rw [startTournament_eq]
  refine ⟨SEInv_set_inprogress hgen.1 hgen.2.1, rfl, ?_⟩
  intro i mm hmm hp
  exact hgen.2.2 i mm hmm hp

theorem autoAssignBoards_no_boards {st : TState} (h : st.boards = []) :
    autoAssignBoards st = st := by
  unfold autoAssignBoards
  rw [h]
  dsimp only
  split
  · rfl
  · rfl

theorem countP_update_lt {α : Type} (key : α → Nat) (p : α → Bool) (f : α → α) :
    ∀ (l : List α) (m : α), (l.map key).Nodup → m ∈ l → p m = true → p (f m) = false →
    (l.map (fun a => if key a = key m then f a else a)).countP p < l.countP p := by
  have hmapid : ∀ (m : α) (ys : List α), (∀ a ∈ ys, ¬ key a = key m) →
      ys.map (fun a => if key a = key m then f a else a) = ys := by
    intro m ys hys
    induction ys with
    | nil => rfl
    | cons y ts iht =>
      simp only [List.map_cons]
      rw [if_neg (hys y (by simp)), iht (fun a ha => hys a (by simp [ha]))]
  intro l
  induction l with
  | nil => intro m _ hm; simp at hm
  | cons x xs ih =>
    intro m hnd hm hpm hpfm
    rw [List.map_cons] at hnd
    have hnd' := List.nodup_cons.mp hnd
    rcases List.mem_cons.mp hm with rfl | hm'
    · have hxtail : xs.map (fun a => if key a = key m then f a else a) = xs := by
        apply hmapid
        intro a ha hkey
        exact hnd'.1 (by rw [← hkey]; exact List.mem_map_of_mem key ha)
      simp only [List.map_cons, eq_self_iff_true, if_true]
      rw [hxtail, List.countP_cons, List.countP_cons, hpfm, hpm]
      simp
    · have hkx : ¬(key x = key m) := by
        intro hkey
        exact hnd'.1 (by rw [hkey]; exact List.mem_map_of_mem key hm')
      simp only [List.map_cons, if_neg hkx]
      rw [List.countP_cons, List.countP_cons]
      have := ih m hnd'.2 hm' hpm hpfm
      omega

theorem countP_pending_le : ∀ (l l' : List MatchRec),
    List.Forall₂ (fun a b => a.id = b.id ∧
      (a.status = MatchStatus.completed → b.status = MatchStatus.completed)) l l' →
    (∀ a ∈ l, a.status = MatchStatus.pending ∨ a.status = MatchStatus.completed) →
    l'.countP (fun mm => mm.status == MatchStatus.pending) ≤
      l.countP (fun mm => mm.status == MatchStatus.pending) := by
  intro l l' hf
  induction hf with
  | nil => intro _; exact Nat.le_refl 0
  | cons hab htail ihtail =>
    rename_i a b l₁ l₂
    intro hpc
    rw [List.countP_cons, List.countP_cons]
    have ht := ihtail (fun x hx => hpc x (by simp [hx]))
    by_cases hpb : b.status = MatchStatus.pending
    · have hpa : a.status = MatchStatus.pending := by
        rcases hpc a (by simp) with h1 | h1
        · exact h1
        · exfalso
          have h2 := hab.2 h1
          simp [h2] at hpb
      simp [hpa, hpb]
      omega
    · have hb : (b.status == MatchStatus.pending) = false := by
        simp [hpb]
      rw [hb]
      simp
      omega

theorem pendCount_mono {st st' : TState} (h : RowsMono st st')
    (hpc0 : ∀ a ∈ st.matchRows,
      a.status = MatchStatus.pending ∨ a.status = MatchStatus.completed) :
    pendCount st' ≤ pendCount st :=
  countP_pending_le _ _ h hpc0

theorem firstPlayable_some {st : TState} {m : MatchRec}
    (h : firstPlayable st = some m) :
    m ∈ st.matchRows ∧ m.status = MatchStatus.pending ∧ m.players.length = 2 := by
  have hmem := List.mem_of_find?_eq_some h
  have hp := List.find?_some h
  simp at hp
  exact ⟨hmem, hp.1, hp.2⟩

theorem firstPlayable_none {st : TState} (h : firstPlayable st = none) :
    ∀ m ∈ st.matchRows, m.status = MatchStatus.pending → m.players.length ≠ 2 := by
  intro m hm hst hlen
  have := List.find?_eq_none.mp h m hm
  simp [hst, hlen] at this

theorem all_completed_of_no_playable {entries : List Nat} {st : TState}
    (A : SEInv entries st) (hR1 : R1Done st) (hnone : firstPlayable st = none) :
    ∀ m ∈ st.matchRows, m.status = MatchStatus.completed := by
  have key : ∀ r i m, findByBP st (BracketPos.R r i) = some m →
      m.status ≠ MatchStatus.pending := by
    intro r
    induction r using Nat.strong_induction_on with
    | _ r ih =>
      intro i m hfind hpend
      obtain ⟨hmem, hbp, hrn, hval⟩ := skel_findByBP_some A.skel hfind
      have hnp := firstPlayable_none hnone m hmem hpend
      have hr1 : 1 ≤ r := hval.1
      by_cases h2 : 2 ≤ r
      · rcases A.byeDone r i m h2 (by omega) hfind hpend with hlen | ⟨j, f, _, hff, hfs⟩
        · exact hnp hlen
        · have hfmem := (findByBP_eq_some_mem hff).1
          have hfp : f.status = MatchStatus.pending := by
            rcases A.statusPC f hfmem with h | h
            · exact h
            · exact absurd h hfs
          exact ih (r - 1) (by omega) j f hff hfp
      · have hr : r = 1 := by omega
        subst hr
        exact hnp (hR1 i m hfind hpend)
  intro m hm
  obtain ⟨r, i, hv, hbp, hrn⟩ := skel_mem_shape A.skel hm
  have hfind : findByBP st (BracketPos.R r i) = some m := by
    rw [← hbp]
    exact skel_findByBP_self A.skel hm
  rcases A.statusPC m hm with h | h
  · exact absurd h (key r i m hfind)
  · exact h

theorem playMatch_step {entries : List Nat} {st : TState} {m : MatchRec} {w : Nat}
    (A : SEInv entries st) (hR1 : R1Done st)
    (hfp : firstPlayable st = some m)
    (hw : w ∈ m.players.map (fun p => p.playerId))
    (htst : st.tstatus = TournamentStatus.inProgress ∨
      st.tstatus = TournamentStatus.completed)
    (fuel : Nat) (hfuel : 2 * bracketT entries.length + 1 ≤ fuel) :
    SEInv entries (playMatch fuel st m.id w) ∧
    R1Done (playMatch fuel st m.id w) ∧
    ((playMatch fuel st m.id w).tstatus = TournamentStatus.inProgress ∨
      (playMatch fuel st m.id w).tstatus = TournamentStatus.completed) ∧
    pendCount (playMatch fuel st m.id w) < pendCount st := by
  obtain ⟨hmem, hpend, hlen2⟩ := firstPlayable_some hfp
  obtain ⟨r, i, hval, hbp, hrn⟩ := skel_mem_shape A.skel hmem
  have hfind : findByBP st (BracketPos.R r i) = some m := by
    rw [← hbp]
    exact skel_findByBP_self A.skel hmem
  have hfid : findById st m.id = some m := skel_findById_self A.skel hmem
  have hnb : m.dartboardId = none := A.noBoard m hmem
  have hnt : m.winnerTeamId = none := A.noTeam m hmem
  have hfin : m.bracketPosition = finalBP entries.length →
      st.tstatus = TournamentStatus.inProgress := by
    intro hbpf
    rcases htst with h | h
    · exact h
    · exfalso
      obtain ⟨mf, hmf, hmfc⟩ := (A.tstat.1).mp h
      have hself : findByBP st (finalBP entries.length) = some m := by
        rw [← hbpf]
        exact skel_findByBP_self A.skel hmem
      rw [hself] at hmf
      injection hmf with hmeq
      rw [← hmeq] at hmfc
      rw [hmfc] at hpend
      simp at hpend
  have hA1 := SEInv_complete A (Or.inr rfl) hfind hpend hw hfin
  obtain ⟨hinv3, hmono3, htst3, hfix3⟩ := (sePreserve fuel).1 entries
    (updateById st m.id (fun n =>
      { n with status := MatchStatus.completed, winnerId := some w }))
    { m with status := MatchStatus.completed, winnerId := some w } w r i hA1
    (by
      have h1 : 1 ≤ r := hval.1
      have h2 : r ≤ bracketT entries.length := hval.2.1
      omega)
  have hfid1 : findById (updateById st m.id (fun n =>
      { n with status := MatchStatus.completed, winnerId := some w })) m.id =
      some { m with status := MatchStatus.completed, winnerId := some w } := by
    rw [findById_updateById st m.id m.id (fun n =>
      { n with status := MatchStatus.completed, winnerId := some w }) (fun a => rfl), hfid]
    simp
  have hkey : playMatch fuel st m.id w =
      autoAssignBoards (advanceWinnerInBracket fuel
        (updateById st m.id (fun n =>
          { n with status := MatchStatus.completed, winnerId := some w }))
        { m with status := MatchStatus.completed, winnerId := some w }) := by
    unfold playMatch
    rw [hfid]
    dsimp only
    rw [if_pos hw, hnb]
    dsimp only [releaseBoardIfAny]
    rw [hfid1]
    dsimp only
    rw [hnt]
    dsimp only [Option.isSome]
    rw [if_neg (by simp : ¬((false : Bool) = true))]
    unfold advanceDispatch
    rw [hfid1]
    dsimp only
    rw [hbp]
    dsimp only
    rw [hnt, hnb]
  rw [hkey, autoAssignBoards_no_boards hinv3.boardsNil]
  refine ⟨hinv3, ?_, ?_, ?_⟩
  · intro i' mm hfmm hpmm
    rw [hfix3 i'] at hfmm
    rw [findByBP_updateById st m.id (BracketPos.R 1 i') (fun n =>
      { n with status := MatchStatus.completed, winnerId := some w }) (fun a => rfl)] at hfmm
    cases hf0 : findByBP st (BracketPos.R 1 i') with
    | none =>
      rw [hf0] at hfmm
      simp at hfmm
    | some a =>
      rw [hf0] at hfmm
      simp only [Option.map_some'] at hfmm
      injection hfmm with hfmm
      by_cases hid : a.id = m.id
      · exfalso
        rw [if_pos hid] at hfmm
        rw [← hfmm] at hpmm
        simp at hpmm
      · rw [if_neg hid] at hfmm
        rw [← hfmm]
        exact hR1 i' a hf0 (by rw [hfmm]; exact hpmm)
  · have hts1 : (updateById st m.id (fun n =>
        { n with status := MatchStatus.completed, winnerId := some w })).tstatus =
        st.tstatus := updateById_tstatus st m.id _
    rcases htst3 with h | ⟨_, h2⟩
    · rw [h, hts1]
      exact htst
    · right
      exact h2
  · have hlt1 : pendCount (updateById st m.id (fun n =>
        { n with status := MatchStatus.completed, winnerId := some w })) < pendCount st := by
      exact countP_update_lt (fun x => x.id) (fun mm => mm.status == MatchStatus.pending)
        (fun n => { n with status := MatchStatus.completed, winnerId := some w })
        st.matchRows m (skel_ids_nodup A.skel) hmem (by simp [hpend]) (by simp)
    have hle3 := pendCount_mono hmono3 hA1.statusPC
    omega

theorem playOut_zero (fuel : Nat) (choose : MatchRec → Nat) (st : TState) :
    playOut fuel choose 0 st = st := rfl

theorem playOut_succ_none (fuel : Nat) (choose : MatchRec → Nat) (steps : Nat) (st : TState)
    (h : firstPlayable st = none) : playOut fuel choose (steps + 1) st = st := by
  simp only [playOut]
  rw [h]

theorem playOut_succ_some (fuel : Nat) (choose : MatchRec → Nat) (steps : Nat) (st : TState)
    (m : MatchRec) (h : firstPlayable st = some m) :
    playOut fuel choose (steps + 1) st =
      playOut fuel choose steps (playMatch fuel st m.id (choose m)) := by
  simp only [playOut]
  rw [h]

theorem playOut_inv {entries : List Nat} (fuel : Nat) (choose : MatchRec → Nat)
    (hch : ∀ m : MatchRec, m.players.length = 2 →
      choose m ∈ m.players.map (fun p => p.playerId))
    (hfuel : 2 * bracketT entries.length + 1 ≤ fuel) :
    ∀ (steps : Nat) (st : TState), SEInv entries st → R1Done st →
      (st.tstatus = TournamentStatus.inProgress ∨
        st.tstatus = TournamentStatus.completed) →
      pendCount st ≤ steps →
      SEInv entries (playOut fuel choose steps st) ∧
      ∀ mm ∈ (playOut fuel choose steps st).matchRows,
        mm.status = MatchStatus.completed := by
  intro steps
  induction steps with
  | zero =>
    intro st A hR1 htst hpc
    refine ⟨A, ?_⟩
    intro mm hmm
    rcases A.statusPC mm hmm with h | h
    · exfalso
      have h0 : pendCount st = 0 := by omega
      have hnp := List.countP_eq_zero.mp h0 mm hmm
      simp [h] at hnp
    · exact h
  | succ steps ih =>
    intro st A hR1 htst hpc
    cases hfp : firstPlayable st with
    | none =>
      rw [playOut_succ_none fuel choose steps st hfp]
      exact ⟨A, all_completed_of_no_playable A hR1 hfp⟩
    | some m =>
      rw [playOut_succ_some fuel choose steps st m hfp]
      obtain ⟨hmem, hpend, hlen2⟩ := firstPlayable_some hfp
      obtain ⟨A2, hR12, htst2, hlt⟩ :=
        playMatch_step A hR1 hfp (hch m hlen2) htst fuel hfuel
      exact ih (playMatch fuel st m.id (choose m)) A2 hR12 htst2 (by omega)

theorem countP_ext {α : Type} (p q : α → Bool) :
    ∀ l : List α, (∀ a ∈ l, p a = q a) → l.countP p = l.countP q := by
  intro l
  induction l with
  | nil => intro _; rfl
  | cons a t ih =>
    intro h
    rw [List.countP_cons, List.countP_cons, h a (by simp),
      ih (fun x hx => h x (by simp [hx]))]

theorem countP_map_ext {α β : Type} (f : α → β) (p : β → Bool) (q : α → Bool) :
    ∀ l : List α, (∀ a ∈ l, p (f a) = q a) → (l.map f).countP p = l.countP q := by
  intro l
  induction l with
  | nil => intro _; rfl
  | cons a t ih =>
    intro h
    rw [List.map_cons, List.countP_cons, List.countP_cons, h a (by simp),
      ih (fun x hx => h x (by simp [hx]))]

theorem countP_range_le (s b : Nat) :
    (List.range s).countP (fun k => decide (2 * (k + 1) ≤ b)) = min s (b / 2) := by
  induction s with
  | zero => simp
  | succ s ih =>
    rw [List.range_succ, List.countP_append, ih]
    simp only [List.countP_cons, List.countP_nil]
    by_cases h : 2 * (s + 1) ≤ b
    · simp [h]
      omega
    · simp [h]
      omega

theorem findByBP_none_of_invalid {N : Nat} {st : TState} (hs : SkelOK N st) {r j : Nat}
    (h : ¬ validPos N r j) : findByBP st (BracketPos.R r j) = none := by
  cases hf : findByBP st (BracketPos.R r j) with
  | none => rfl
  | some f => exact absurd (skel_findByBP_some hs hf).2.2.2 h

theorem contribOf_len_valid {entries : List Nat} {st : TState} (A : SEInv entries st)
    (hall : ∀ mm ∈ st.matchRows, mm.status = MatchStatus.completed) (r j pos : Nat)
    (hv : validPos entries.length r j) : (contribOf st r j pos).length = 1 := by
  obtain ⟨f, hf⟩ := skel_findByBP_isSome A.skel hv
  have hfmem := (findByBP_eq_some_mem hf).1
  have hfc := hall f hfmem
  obtain ⟨w1, hw1, _⟩ := A.winClosed f hfmem hfc
  rw [contribOf_completed hf hfc hw1]
  rfl

theorem contribOf_len_invalid {entries : List Nat} {st : TState} (A : SEInv entries st)
    (r j pos : Nat) (hv : ¬ validPos entries.length r j) :
    (contribOf st r j pos).length = 0 := by
  rw [contribOf_none (findByBP_none_of_invalid A.skel hv)]
  rfl

theorem final_row_two {entries : List Nat} {st : TState} (A : SEInv entries st)
    (hall : ∀ mm ∈ st.matchRows, mm.status = MatchStatus.completed) :
    ∀ mm ∈ st.matchRows,
      ((mm.status == MatchStatus.completed) && (mm.players.length == 2)) =
        occTwo entries.length mm.bracketPosition := by
  intro mm hmm
  obtain ⟨r, i, hv, hbp, hrn⟩ := skel_mem_shape A.skel hmm
  have hfind : findByBP st (BracketPos.R r i) = some mm := by
    rw [← hbp]
    exact skel_findByBP_self A.skel hmm
  have hc := hall mm hmm
  rw [hbp]
  have hr1 : 1 ≤ r := hv.1
  by_cases h2 : 2 ≤ r
  · have hperm := A.destPlayers r i mm h2 hfind
    have hlenp : mm.players.length =
        (contribOf st (r - 1) (2 * i - 1) 1).length +
          (contribOf st (r - 1) (2 * i) 2).length := by
      rw [hperm.length_eq]
      unfold contribPair
      rw [List.length_append]
    rw [contribOf_len_valid A hall (r - 1) (2 * i - 1) 1 (feeder1_valid hv h2)] at hlenp
    have hne : ¬ r = 1 := by omega
    by_cases hv2 : validPos entries.length (r - 1) (2 * i)
    · rw [contribOf_len_valid A hall (r - 1) (2 * i) 2 hv2] at hlenp
      have h2i : 2 * i ≤ sAt entries.length (r - 1) := hv2.2.2.2
      simp [occTwo, hc, hlenp, hne, h2i]
    · rw [contribOf_len_invalid A (r - 1) (2 * i) 2 hv2] at hlenp
      have h2i : ¬ (2 * i ≤ sAt entries.length (r - 1)) := by
        intro hle
        exact hv2 (feeder2_valid hv h2 hle)
      simp [occTwo, hc, hlenp, hne, h2i]
  · have hr : r = 1 := by omega
    subst hr
    have hsd := A.seeded i mm hfind
    have hlen : mm.players.length = min 2 (entries.length - 2 * (i - 1)) := by
      rw [hsd, seededAt_length]
    have hi1 : 1 ≤ i := hv.2.2.1
    by_cases hle : 2 * i ≤ entries.length
    · have hl2 : mm.players.length = 2 := by omega
      simp [occTwo, hc, hl2, hle]
    · have hl2 : ¬ mm.players.length = 2 := by omega
      simp [occTwo, hc, hl2, hle]

theorem canon_countTwo : ∀ (l : List Nat) (N prev r0 n0 : Nat),
    Chain prev l → 1 ≤ r0 →
    r0 - 1 + l.length = bracketT N →
    ((if r0 = 1 then N else sAt N (r0 - 1)) = prev) →
    (mkAllMatches l r0 n0).countP (fun mm => occTwo N mm.bracketPosition) =
      prev / 2 + halvesButLast l := by
  intro l
  induction l with
  | nil =>
    intro N prev r0 n0 hc _ _ _
    have hp : prev ≤ 1 := hc
    show 0 = prev / 2 + 0
    omega
  | cons s rest ih =>
    intro N prev r0 n0 hc hr0 hlen hprev
    obtain ⟨hp1, hs, hcr⟩ := hc
    rw [mkAllMatches_cons, List.countP_append]
    have hT : r0 ≤ bracketT N := by
      simp only [List.length_cons] at hlen
      omega
    have hocc : ∀ k : Nat, occTwo N (BracketPos.R r0 (k + 1)) =
        decide (2 * (k + 1) ≤ prev) := by
      intro k
      show decide (2 * (k + 1) ≤ (if r0 = 1 then N else sAt N (r0 - 1))) = _
      rw [hprev]
    have hblock : (mkRoundMatches r0 s n0).countP
        (fun mm => occTwo N mm.bracketPosition) = min s (prev / 2) := by
      unfold mkRoundMatches
      refine Eq.trans ?_ (countP_range_le s prev)
      exact countP_map_ext _ _ _ _ (fun k _ => hocc k)
    have hsat : sAt N r0 = s := by
      by_cases h1 : r0 = 1
      · subst h1
        have hN : N = prev := by simpa using hprev
        have hN2 : 2 ≤ N := by omega
        rw [sAt_one hN2, hN, hs]
      · have hprev2 : sAt N (r0 - 1) = prev := by
          rw [if_neg h1] at hprev
          exact hprev
        have hstep : sAt N (r0 - 1 + 1) = (sAt N (r0 - 1) + 1) / 2 :=
          sAt_succ (by omega) (by omega)
        have he : r0 - 1 + 1 = r0 := by omega
        rw [he] at hstep
        rw [hstep, hprev2, hs]
    have htail := ih N s (r0 + 1) (n0 + s) hcr (by omega)
      (by simp only [List.length_cons] at hlen; omega)
      (by
        rw [if_neg (by omega : ¬ r0 + 1 = 1)]
        have he : r0 + 1 - 1 = r0 := by omega
        rw [he]
        exact hsat)
    rw [hblock, htail]
    have hmin : min s (prev / 2) = prev / 2 := by
      rw [hs]
      omega
    rw [hmin]
    match rest, hcr with
    | [], hcr =>
      have hs1 : s ≤ 1 := hcr
      show prev / 2 + (s / 2 + 0) = prev / 2 + 0
      omega
    | r2 :: rest2, hcr => rfl

theorem final_count {entries : List Nat} {st : TState} (A : SEInv entries st)
    (hall : ∀ mm ∈ st.matchRows, mm.status = MatchStatus.completed)
    (hN : 2 ≤ entries.length) :
    st.matchRows.countP
      (fun mm => mm.status == MatchStatus.completed && mm.players.length == 2) =
      entries.length - 1 := by
  rw [countP_ext _ (fun mm => occTwo entries.length mm.bracketPosition) _
    (final_row_two A hall)]
  have hmap : st.matchRows.countP
      (fun mm => occTwo entries.length mm.bracketPosition) =
      (st.matchRows.map skelProj).countP
        (fun t => occTwo entries.length t.2.1) := by
    rw [List.countP_map]
    rfl
  have hmap2 : (canonRows entries.length).countP
      (fun mm => occTwo entries.length mm.bracketPosition) =
      ((canonRows entries.length).map skelProj).countP
        (fun t => occTwo entries.length t.2.1) := by
    rw [List.countP_map]
    rfl
  rw [hmap, A.skel, ← hmap2]
  have hcanon := canon_countTwo (roundSizes entries.length) entries.length
    entries.length 1 1 (chain_roundSizes entries.length) (by omega) (by simp [bracketT])
    (by simp)
  rw [show canonRows entries.length =
    mkAllMatches (roundSizes entries.length) 1 1 from rfl, hcanon]
  have hcc := chain_count (roundSizes entries.length) entries.length
    (chain_roundSizes entries.length) (by omega)
  omega

theorem headD_mem_len2 (m : MatchRec) (hm : m.players.length = 2) :
    (m.players.map (fun p => p.playerId)).headD 0 ∈
      m.players.map (fun p => p.playerId) := by
  cases hp : m.players with
  | nil =>
    rw [hp] at hm
    simp at hm
  | cons a t => simp

/-- C1: the explicit claim — N−1 decisive matches among all matches, byes
included — is false (see the counterexample at N = 3, where the bye match
also completes with a winner and the decisive total is 3, not 2).  The
amended universal statement proved here: for every N ≥ 2 distinct entrants,
generating the single-elimination bracket and playing every playable match
to completion (any winner choice) ends with every match row completed,
exactly N−1 completed matches holding two occupants (the genuinely decided
pairings), the tournament marked completed, and exactly one champion: the
winner recorded on the terminal match `R{T}M{1}`. -/
theorem C1_decisive_count (entries : List Nat) (hN : 2 ≤ entries.length)
    (hnd : entries.Nodup) (choose : MatchRec → Nat)
    (hchoose : ∀ m : MatchRec, m.players.length = 2 →
      choose m ∈ m.players.map (fun p => p.playerId))
    (fuel steps : Nat) (hfuel : 2 * bracketT entries.length + 1 ≤ fuel)
    (hsteps : pendCount (startTournament fuel entries) ≤ steps) :
    (∀ mm ∈ (playOut fuel choose steps (startTournament fuel entries)).matchRows,
      mm.status = MatchStatus.completed) ∧
    (playOut fuel choose steps (startTournament fuel entries)).matchRows.countP
      (fun mm => mm.status == MatchStatus.completed && mm.players.length == 2) =
      entries.length - 1 ∧
    (playOut fuel choose steps (startTournament fuel entries)).tstatus =
      TournamentStatus.completed ∧
    ∃ mf wc, findByBP (playOut fuel choose steps (startTournament fuel entries))
        (finalBP entries.length) = some mf ∧
      mf.status = MatchStatus.completed ∧ mf.winnerId = some wc ∧
      wc ∈ mf.players.map (fun p => p.playerId) := by
  obtain ⟨A0, hts0, hR10⟩ := startTournament_inv entries hN hnd fuel hfuel
  obtain ⟨AF, hallF⟩ := playOut_inv fuel choose hchoose hfuel steps
    (startTournament fuel entries) A0 hR10 (Or.inl hts0) hsteps
  have hv : validPos entries.length (bracketT entries.length) 1 := by
    refine ⟨bracketT_pos hN, Nat.le_refl _, Nat.le_refl 1, ?_⟩
    rw [sAt_last hN]
  obtain ⟨mf, hmf⟩ := skel_findByBP_isSome AF.skel hv
  have hmfmem := (findByBP_eq_some_mem hmf).1
  have hmfc := hallF mf hmfmem
  obtain ⟨wc, hwc, hwcm⟩ := AF.winClosed mf hmfmem hmfc
  exact ⟨hallF, final_count AF hallF hN,
    (AF.tstat.1).mpr ⟨mf, hmf, hmfc⟩, mf, wc, hmf, hmfc, hwc, hwcm⟩

/-- Witness for C1 at a concrete input: two entrants, first-listed occupant
always chosen as winner; the single match decides, the tournament
completes. -/
theorem C1_decisive_count_witness :
    (playOut 8 (fun m => (m.players.map (fun p => p.playerId)).headD 0) 8
        (startTournament 8 [1, 2])).matchRows.countP
      (fun mm => mm.status == MatchStatus.completed && mm.players.length == 2) =
      2 - 1 ∧
    (playOut 8 (fun m => (m.players.map (fun p => p.playerId)).headD 0) 8
        (startTournament 8 [1, 2])).tstatus = TournamentStatus.completed := by
  have h := C1_decisive_count [1, 2] (by decide) (by decide)
    (fun m => (m.players.map (fun p => p.playerId)).headD 0)
    (fun m hm => headD_mem_len2 m hm) 8 8 (by decide) (by decide)
  exact ⟨h.2.1, h.2.2.1⟩

end Dart
